import Mathlib

/-!
# Grappa chunk allocator (`system/ChunkAllocator.cpp`)

A shallow embedding of the two-layer node-local allocator:

* the ChunkSource (`aligned_allocator`): a chain of chunks served by bump allocation;
* the ObjectPool (`aligned_pool_allocator`): fixed-size objects recycled through
  `ALLOCATOR_PREFETCH_DISTANCE` rotating free lists threaded through the objects themselves;
* the quota globals `shared_pool_total_allocated` / `shared_pool_max_exceeded`.

Conventions of the embedding.

* Addresses, `size_t` and `u_int64_t` values are natural numbers; every unsigned operation of
  the source is reduced modulo `2 ^ 64`.  The null pointer is `0`.
* `int64_t += size_t` (the byte counters) is the two's complement wrap `toInt64`.
  The `++` / `--` of the signed object counters is plain integer arithmetic (signed overflow is
  undefined behaviour in the source language and would need `2 ^ 63` calls).
* The chunk chain `first -> ... -> last` is the list `chain`; `aa->last` is its last element.
* The free lists live in memory: `mem p` is the link field (`link_object::next`) stored at
  address `p`.  Memory is modelled at the granularity of link fields only.
* What the file does not contain (the header's constants, the node-local allocator, the
  scheduler and the communicator) is a parameter: `Consts` and `Env`.
* Calls to external collaborators are recorded, in order, in `World.trace`.
-/

namespace Grappa
namespace impl

/-! ## Machine arithmetic -/

/-- Number of values of a 64-bit word (`size_t`, `u_int64_t`, addresses). -/
def WORD : Nat := 2 ^ 64

/-- Reduction of an unsigned result to 64 bits. -/
def u64 (x : Nat) : Nat := x % WORD

/-- Unsigned 64-bit subtraction `a - b`. -/
def u64_sub (a b : Nat) : Nat := (a % WORD + WORD - b % WORD) % WORD

/-- Conversion of an integer to `int64_t` (two's complement wrap). -/
def toInt64 (x : Int) : Int := (x + 2 ^ 63) % 2 ^ 64 - 2 ^ 63

/-- Modelled from the spec: the macro `ALIGN_UP` of `ChunkAllocator.hpp` is not part of the
sources; the spec says that `alloc` "rounds `size` up to `alignment`".  `ALIGN_UP x y` is the
least multiple of `y` that is at least `x`, computed in 64-bit unsigned arithmetic. -/
def ALIGN_UP (x y : Nat) : Nat :=
  if x % y = 0 then x else u64 (x - x % y + y)

/-! ## Constants of the header and the build -/

/-- Compile-time constants that `ChunkAllocator.cpp` takes from headers. -/
structure Consts where
  /-- `CACHE_LINE_SIZE` -/
  CACHE_LINE_SIZE : Nat
  /-- `ALLOCATOR_PREFETCH_DISTANCE`, the number `D` of free-list buckets -/
  ALLOCATOR_PREFETCH_DISTANCE : Nat
  /-- `sizeof(struct memory_chunk)` -/
  sizeof_memory_chunk : Nat
  /-- `sizeof(struct aligned_allocator)` -/
  sizeof_aligned_allocator : Nat
  /-- `sizeof(struct aligned_pool_allocator)` -/
  sizeof_aligned_pool_allocator : Nat
  /-- `sizeof(void *)` -/
  sizeof_pointer : Nat

/-! ## Data model -/

/-- `struct memory_chunk`: a buffer of `chunk_size` bytes at address `chunk`, with the bump
cursor `offset`.  The `next` link is the order of the chain. -/
structure memory_chunk where
  chunk : Nat
  chunk_size : Nat
  offset : Nat
deriving DecidableEq, Repr

/-- `struct aligned_allocator` (the ChunkSource). -/
structure aligned_allocator where
  /-- the chunks from `first` to `last` -/
  chain : List memory_chunk
  align_on : Nat
  chunk_size : Nat
deriving DecidableEq, Repr

/-- `struct aligned_pool_allocator` (the ObjectPool). -/
structure aligned_pool_allocator where
  object_size : Nat
  aa : aligned_allocator
  /-- the in-use counter -/
  allocated_objects : Int
  /-- the fresh-carve counter -/
  newly_allocated_objects : Int
  /-- the rotation index -/
  first_index : Nat
  /-- the heads of the free-list buckets (`0` is `NULL`) -/
  firsts : List Nat
deriving DecidableEq, Repr

/-- Calls to the external collaborators. -/
inductive Event where
  /-- `locale_alloc_aligned` was asked for `bytes` bytes and returned `result` -/
  | locale_alloc (bytes : Nat) (result : Nat)
  /-- `LOG(WARNING)` of the over-budget message -/
  | log_warning (total : Int) (max : Int)
  /-- `global_communicator.poll()` -/
  | poll
  /-- `Grappa::yield()` -/
  | yield
deriving DecidableEq, Repr

/-- Everything outside one pool: the file-level statics, the metrics, the flag, the scheduler
predicate, the memory holding link fields, and the trace of external calls. -/
structure World where
  shared_pool_total_allocated : Int
  shared_pool_max_exceeded : Bool
  FLAGS_shared_pool_max_size : Int
  chunkallocator_append : Int
  chunkallocator_allocated : Int
  chunkallocator_yielded : Int
  in_no_switch_region : Bool
  mem : Nat → Nat
  trace : List Event

/-- One pool together with the world it runs in. -/
structure State where
  apa : aligned_pool_allocator
  w : World

/-- The external collaborators.  The node-local allocator answers a request as a function of
the history of external calls; `0` is failure.  `poll` and `yield` may run other tasks, which
may change the state in any way (the trace is restored by the caller: history is not
rewritten). -/
structure Env where
  locale_alloc_aligned : List Event → Nat → Nat → Nat
  poll : State → State
  yield : State → State

/-- Result of an operation that may hit a fatal `CHECK_NOTNULL` (process abort) or dereference
a null pointer. -/
inductive Res (α : Type) where
  | ok (a : α)
  | abort (w : World)
  | undefined (w : World)

/-! ## ChunkSource -/

/-- `aligned_allocator_init` -/
def aligned_allocator_init (align_on : Nat) (chunk_size : Nat) : aligned_allocator :=
  { chain := [], align_on := align_on, chunk_size := chunk_size }

/-- `memset(chunk, 0, chunk_size)`: link fields stored inside the buffer read as null. -/
def memset_zero (mem : Nat → Nat) (chunk chunk_size : Nat) : Nat → Nat :=
  fun q => if chunk ≤ q ∧ q < chunk + chunk_size then 0 else mem q

/-- The world after one call of `locale_alloc_aligned` for `bytes` bytes, with its answer. -/
def locale_call (c : Consts) (env : Env) (bytes : Nat) (w : World) : Nat × World :=
  let r := env.locale_alloc_aligned w.trace c.CACHE_LINE_SIZE bytes
  (r, { w with trace := w.trace ++ [Event.locale_alloc bytes r] })

/-- `_aligned_allocator_append_chunk` -/
def _aligned_allocator_append_chunk (c : Consts) (env : Env) (aa : aligned_allocator)
    (min_size : Nat) (w : World) : Res (aligned_allocator × World) :=
  let w1 := { w with chunkallocator_append := w.chunkallocator_append + 1 }
  let (new_chunk, w2) := locale_call c env c.sizeof_memory_chunk w1
  if new_chunk = 0 then Res.abort w2 else
  let w3 := { w2 with
    shared_pool_total_allocated :=
      toInt64 (w2.shared_pool_total_allocated + max c.sizeof_memory_chunk c.CACHE_LINE_SIZE)
    chunkallocator_allocated :=
      toInt64 (w2.chunkallocator_allocated + max c.sizeof_memory_chunk c.CACHE_LINE_SIZE) }
  let chunk_size := u64 (max min_size aa.chunk_size + aa.align_on)
  let (chunk, w4) := locale_call c env chunk_size w3
  if chunk = 0 then Res.abort w4 else
  let w5 := { w4 with
    shared_pool_total_allocated :=
      toInt64 (w4.shared_pool_total_allocated + max chunk_size c.CACHE_LINE_SIZE)
    mem := memset_zero w4.mem chunk chunk_size }
  let offset := u64_sub (ALIGN_UP chunk aa.align_on) chunk
  Res.ok ({ aa with chain := aa.chain ++ [{ chunk := chunk, chunk_size := chunk_size,
                                            offset := offset }] }, w5)

/-- The first conditional append of `aligned_allocator_alloc`: `if (!aa->last)`. -/
def append_if_empty (c : Consts) (env : Env) (aa : aligned_allocator) (size : Nat)
    (w : World) : Res (aligned_allocator × World) :=
  if aa.chain.getLast? = none then _aligned_allocator_append_chunk c env aa size w
  else Res.ok (aa, w)

/-- The second conditional append: `if ((last->chunk_size - last->offset) < size)`. -/
def append_if_short (c : Consts) (env : Env) (aa : aligned_allocator) (size : Nat)
    (w : World) : Res (aligned_allocator × World) :=
  match aa.chain.getLast? with
  | none => Res.undefined w
  | some last =>
    if u64_sub last.chunk_size last.offset < size then
      _aligned_allocator_append_chunk c env aa size w
    else Res.ok (aa, w)

/-- The bump: `p = &last->chunk[last->offset]; last->offset += size`. -/
def bump (aa : aligned_allocator) (size : Nat) (w : World) :
    Res (Nat × aligned_allocator × World) :=
  match aa.chain.getLast? with
  | none => Res.undefined w
  | some last =>
    Res.ok (u64 (last.chunk + last.offset),
      { aa with chain := aa.chain.dropLast ++ [{ last with offset := u64 (last.offset + size) }] },
      w)

/-- `aligned_allocator_alloc` -/
def aligned_allocator_alloc (c : Consts) (env : Env) (aa : aligned_allocator) (size : Nat)
    (w : World) : Res (Nat × aligned_allocator × World) :=
  let size := ALIGN_UP size aa.align_on
  match append_if_empty c env aa size w with
  | Res.abort w1 => Res.abort w1
  | Res.undefined w1 => Res.undefined w1
  | Res.ok (aa1, w1) =>
    match append_if_short c env aa1 size w1 with
    | Res.abort w2 => Res.abort w2
    | Res.undefined w2 => Res.undefined w2
    | Res.ok (aa2, w2) => bump aa2 size w2

/-! ## ObjectPool -/

/-- `aligned_pool_allocator_create`: accounts for the pool structure and asks the node-local
allocator for it.  The result is not checked. -/
def aligned_pool_allocator_create (c : Consts) (env : Env) (w : World) : Nat × World :=
  let w1 := { w with
    shared_pool_total_allocated :=
      toInt64 (w.shared_pool_total_allocated
        + max c.sizeof_aligned_pool_allocator c.CACHE_LINE_SIZE) }
  locale_call c env c.sizeof_aligned_pool_allocator w1

/-- `aligned_pool_allocator_init`.  `aligned_allocator_create` asks the node-local allocator for
the ChunkSource structure; writing through a null result is undefined. -/
def aligned_pool_allocator_init (c : Consts) (env : Env) (align_on object_size chunk_count : Nat)
    (w : World) : Res State :=
  let object_size := max object_size c.sizeof_pointer
  let (aa_ptr, w1) := locale_call c env c.sizeof_aligned_allocator w
  if aa_ptr = 0 then Res.undefined w1 else
  Res.ok
    { apa :=
        { object_size := object_size
          aa := aligned_allocator_init align_on (u64 (object_size * chunk_count))
          allocated_objects := 0
          newly_allocated_objects := 0
          first_index := 0
          firsts := List.replicate c.ALLOCATOR_PREFETCH_DISTANCE 0 }
      w := w1 }

/-- The scan `while (index < D) { if (firsts[index]) break; else ++index; }`, with the number
of remaining iterations as fuel. -/
def scan_firsts (D : Nat) (firsts : List Nat) : Nat → Nat → Nat
  | 0, index => index
  | fuel + 1, index =>
    if index < D then
      if firsts.getD index 0 ≠ 0 then index else scan_firsts D firsts fuel (index + 1)
    else index

/-- Lines 170-188: read the current bucket and, if it is empty, search for a non-empty one.
Returns the pool (with `first_index` possibly moved) and `ret`. -/
def find_free (c : Consts) (apa : aligned_pool_allocator) : aligned_pool_allocator × Nat :=
  let ret := apa.firsts.getD apa.first_index 0
  if ret = 0 then
    let index := scan_firsts c.ALLOCATOR_PREFETCH_DISTANCE apa.firsts
      c.ALLOCATOR_PREFETCH_DISTANCE 0
    if index < c.ALLOCATOR_PREFETCH_DISTANCE then
      ({ apa with first_index := index }, apa.firsts.getD index 0)
    else (apa, ret)
  else (apa, ret)

/-- Lines 237-246: pop the head of the current bucket. -/
def pop_current (c : Consts) (s : State) : Nat × State :=
  let ret := s.apa.firsts.getD s.apa.first_index 0
  (ret,
   { apa := { s.apa with
        allocated_objects := s.apa.allocated_objects + 1
        firsts := s.apa.firsts.set s.apa.first_index (s.w.mem ret)
        first_index := (s.apa.first_index + 1) % c.ALLOCATOR_PREFETCH_DISTANCE }
     w := { s.w with mem := Function.update s.w.mem ret 0 } })

/-- Outcome of a call of `aligned_pool_allocator_alloc`. -/
inductive Outcome where
  /-- the call returned `p` -/
  | returned (p : Nat) (s : State)
  /-- the process aborted in `CHECK_NOTNULL` -/
  | aborted (w : World)
  /-- a null pointer was dereferenced -/
  | undefined (w : World)
  /-- the loop did not finish within the given number of passes -/
  | out_of_fuel (s : State)

/-- The test that gates the fresh-carve path (line 192-193). -/
def may_carve (w : World) : Bool :=
  decide (w.shared_pool_total_allocated < w.FLAGS_shared_pool_max_size) || w.in_no_switch_region

/-- Lines 195-205: carve a fresh object, then check the budget latch. -/
def carve (c : Consts) (env : Env) (s : State) : Outcome :=
  let apa1 := { s.apa with newly_allocated_objects := s.apa.newly_allocated_objects + 1 }
  match aligned_allocator_alloc c env apa1.aa apa1.object_size s.w with
  | Res.abort w1 => Outcome.aborted w1
  | Res.undefined w1 => Outcome.undefined w1
  | Res.ok (ret, aa1, w1) =>
    let w2 :=
      if w1.shared_pool_total_allocated > w1.FLAGS_shared_pool_max_size
          ∧ w1.shared_pool_max_exceeded = false then
        { w1 with
          shared_pool_max_exceeded := true
          trace := w1.trace ++ [Event.log_warning w1.shared_pool_total_allocated
                                  w1.FLAGS_shared_pool_max_size] }
      else w1
    Outcome.returned ret { apa := { apa1 with aa := aa1 }, w := w2 }

/-- Lines 209-215: one round of backpressure.  `yielded` is the per-call flag. -/
def backpressure (env : Env) (yielded : Bool) (s : State) : State :=
  let s1 : State :=
    if yielded = false then
      { s with w := { s.w with chunkallocator_yielded := s.w.chunkallocator_yielded + 1 } }
    else s
  let s2 := env.poll s1
  let s3 : State := { s2 with w := { s2.w with trace := s1.w.trace ++ [Event.poll] } }
  let s4 := env.yield s3
  { s4 with w := { s4.w with trace := s3.w.trace ++ [Event.yield] } }

/-- What one pass of the `do ... while (!ret)` loop does. -/
inductive Pass where
  /-- `ret` is non-null: the loop is left and the object is popped (return at line 246) -/
  | popped (p : Nat) (s : State)
  /-- the fresh-carve branch was taken (return at line 205, or a fatal failure inside it) -/
  | carved (o : Outcome)
  /-- one round of backpressure was performed; the loop goes round again -/
  | blocked (s : State)

/-- One pass of the loop body (lines 168-220), with the pop that follows the loop when the
pass leaves it.  `yielded` is the local flag. -/
def alloc_pass (c : Consts) (env : Env) (yielded : Bool) (s : State) : Pass :=
  let (apa1, ret) := find_free c s.apa
  let s1 : State := { s with apa := apa1 }
  if ret = 0 then
    if may_carve s1.w then Pass.carved (carve c env s1)
    else Pass.blocked (backpressure env yielded s1)
  else
    let (p, s2) := pop_current c s1
    Pass.popped p s2

/-- The `do ... while (!ret)` loop of `aligned_pool_allocator_alloc`; `fuel` bounds the number
of passes and `yielded` is the local flag (set by the first round of backpressure). -/
def alloc_loop (c : Consts) (env : Env) : Nat → Bool → State → Outcome
  | 0, _, s => Outcome.out_of_fuel s
  | fuel + 1, yielded, s =>
    match alloc_pass c env yielded s with
    | Pass.popped p s1 => Outcome.returned p s1
    | Pass.carved o => o
    | Pass.blocked s1 => alloc_loop c env fuel true s1

/-- `aligned_pool_allocator_alloc`, run for at most `fuel` passes of its loop. -/
def aligned_pool_allocator_alloc (c : Consts) (env : Env) (fuel : Nat) (s : State) : Outcome :=
  alloc_loop c env fuel false s

/-- `aligned_pool_allocator_free`.  The store `l->next = apa->firsts[...]` of line 253 is the
update of the link field of the object at `p`.  Memory is modelled per link field, so this is
the behaviour of the code for a pointer `p` whose link field (the first `sizeof(void *)` bytes
at `p`) is memory of the pool that does not overlap the link field of another object of the
pool: see `link_in_pool` and `links_apart`.  For a null or foreign `p` the code writes outside
the pool. -/
def aligned_pool_allocator_free (c : Consts) (s : State) (p : Nat) : State :=
  { apa := { s.apa with
      allocated_objects := s.apa.allocated_objects - 1
      firsts := s.apa.firsts.set s.apa.first_index p
      first_index := (s.apa.first_index + 1) % c.ALLOCATOR_PREFETCH_DISTANCE }
    w := { s.w with mem := Function.update s.w.mem p (s.apa.firsts.getD s.apa.first_index 0) } }

/-! ## Observations on outcomes and traces -/

/-- The world in which a call ended. -/
def Outcome.world : Outcome → World
  | Outcome.returned _ s => s.w
  | Outcome.aborted w => w
  | Outcome.undefined w => w
  | Outcome.out_of_fuel s => s.w

/-- The events of the backpressure path. -/
def Event.is_backpressure : Event → Bool
  | Event.poll => true
  | Event.yield => true
  | _ => false

/-- A node-local allocation that returned no memory. -/
def Event.failed : Event → Bool
  | Event.locale_alloc _ r => r == 0
  | _ => false

/-- A call of the node-local allocator. -/
def Event.is_locale : Event → Bool
  | Event.locale_alloc _ _ => true
  | _ => false

/-- The over-budget warning. -/
def Event.is_warning : Event → Bool
  | Event.log_warning _ _ => true
  | _ => false

/-- All buckets of the pool are empty. -/
def all_empty (apa : aligned_pool_allocator) : Prop := ∀ x ∈ apa.firsts, x = 0

instance (apa : aligned_pool_allocator) : Decidable (all_empty apa) := by
  unfold all_empty; infer_instance

/-- The list of objects `l` is stored as a null-terminated chain of link fields starting at
`head`: this is what it means for a bucket with head `head` to hold `l`. -/
def is_list (mem : Nat → Nat) : Nat → List Nat → Prop
  | head, [] => head = 0
  | head, p :: t => head = p ∧ p ≠ 0 ∧ is_list mem (mem p) t

instance (mem : Nat → Nat) : ∀ (l : List Nat) (head : Nat), Decidable (is_list mem head l)
  | [], head => by unfold is_list; infer_instance
  | p :: t, head => by
    unfold is_list
    have := instDecidableIs_list mem t (mem p)
    infer_instance

/-- Bucket `i` of the pool holds the objects `l`. -/
def bucket_holds (s : State) (i : Nat) (l : List Nat) : Prop :=
  is_list s.w.mem (s.apa.firsts.getD i 0) l

instance (s : State) (i : Nat) (l : List Nat) : Decidable (bucket_holds s i l) := by
  unfold bucket_holds; infer_instance

/-- The calls of the node-local allocator between two worlds all succeeded. -/
def trace_ok (w w1 : World) : Prop :=
  ∃ evs, w1.trace = w.trace ++ evs ∧ ∀ e ∈ evs, e.is_locale = true ∧ e.failed = false

/-- Between two worlds only the node-local allocator was called, and one call failed. -/
def trace_failed (w w1 : World) : Prop :=
  ∃ evs, w1.trace = w.trace ++ evs ∧ (∀ e ∈ evs, e.is_locale = true) ∧ ∃ e ∈ evs, e.failed = true

/-- The size `x` rounded up to a multiple of `y`, as a natural number (no reduction). -/
def exact_round (x y : Nat) : Nat := if x % y = 0 then x else x - x % y + y

/-- Neither the rounding of the request `size` nor the size of a chunk appended for it
exceeds 64 bits. -/
def no_wrap (aa : aligned_allocator) (size : Nat) : Prop :=
  max (exact_round size aa.align_on) aa.chunk_size + aa.align_on < WORD

instance (aa : aligned_allocator) (size : Nat) : Decidable (no_wrap aa size) := by
  unfold no_wrap; infer_instance

/-- The chunk `ch` is as `_aligned_allocator_append_chunk` creates it on the allocator `aa` for a
request of rounded size `rs`, between the worlds `w` and `w2`: a non-null buffer of size
`max(rs, default) + alignment`, with the alignment padding as initial offset, obtained from the
node-local allocator after the history of `w`, and recorded in the history of `w2`. -/
def fresh_chunk (env : Env) (w w2 : World) (aa : aligned_allocator) (rs : Nat)
    (ch : memory_chunk) : Prop :=
  ch.chunk ≠ 0 ∧ ch.chunk_size = u64 (max rs aa.chunk_size + aa.align_on) ∧
  ch.offset = u64_sub (ALIGN_UP ch.chunk aa.align_on) ch.chunk ∧
  (∃ tr al, (∀ e ∈ w.trace, e ∈ tr) ∧ ch.chunk = env.locale_alloc_aligned tr al ch.chunk_size) ∧
  Event.locale_alloc ch.chunk_size ch.chunk ∈ w2.trace

/-- What a call of the ChunkSource leaves alone in the world: the latch, the flag, the
scheduler predicate and the yield metric; and it only adds successful node-local allocations
to the trace. -/
def world_frame (w w1 : World) : Prop :=
  w1.shared_pool_max_exceeded = w.shared_pool_max_exceeded ∧
  w1.FLAGS_shared_pool_max_size = w.FLAGS_shared_pool_max_size ∧
  w1.in_no_switch_region = w.in_no_switch_region ∧
  w1.chunkallocator_yielded = w.chunkallocator_yielded ∧
  trace_ok w w1

/-- The remaining space `chunk_size - offset` of a chunk, as the capacity test computes it. -/
def remaining (ch : memory_chunk) : Nat := u64_sub ch.chunk_size ch.offset

/-- The chunk after a bump by `rs` bytes. -/
def bumped (ch : memory_chunk) (rs : Nat) : memory_chunk :=
  { ch with offset := u64 (ch.offset + rs) }

/-- Every chunk of the chain has a cursor that is a multiple of `a`. -/
def aligned_chain (a : Nat) (chain : List memory_chunk) : Prop :=
  ∀ ch ∈ chain, (ch.chunk + ch.offset) % a = 0

/-- Every chunk of the chain is a non-null buffer inside the address space whose cursor is
inside the buffer: `offset <= chunk_size`. -/
def chain_ok (chain : List memory_chunk) : Prop :=
  ∀ ch ∈ chain, ch.chunk ≠ 0 ∧ ch.offset ≤ ch.chunk_size ∧ ch.chunk + ch.chunk_size < WORD

instance (chain : List memory_chunk) : Decidable (chain_ok chain) := by
  unfold chain_ok; infer_instance

/-- The chain `l2` extends the chain `l1`: the same chunks at the same positions (same buffer,
same size), no cursor moved back, possibly more chunks at the end. -/
def chain_le (l1 l2 : List memory_chunk) : Prop :=
  ∀ (i : Nat) (ch : memory_chunk), l1[i]? = some ch →
    ∃ ch2 : memory_chunk, l2[i]? = some ch2 ∧ ch2.chunk = ch.chunk ∧ ch2.chunk_size = ch.chunk_size ∧
      ch.offset ≤ ch2.offset

/-! ## Sequences of calls -/

/-- One request served by a ChunkSource: the requested size, the pointer returned, and the
position in the chain of the chunk that served it. -/
structure Served where
  size : Nat
  ptr : Nat
  chunk_index : Nat
deriving DecidableEq, Repr

/-- A sequence of `aligned_allocator_alloc` calls with the given sizes.  It stops at the first
call that does not return.  The result is what was served, in order, with the allocator and
the world reached. -/
def alloc_seq (c : Consts) (env : Env) :
    List Nat → aligned_allocator → World → List Served × aligned_allocator × World
  | [], aa, w => ([], aa, w)
  | size :: rest, aa, w =>
    match aligned_allocator_alloc c env aa size w with
    | Res.ok (p, aa1, w1) =>
      let r := alloc_seq c env rest aa1 w1
      ({ size := size, ptr := p, chunk_index := aa1.chain.length - 1 } :: r.1, r.2)
    | Res.abort w1 => ([], aa, w1)
    | Res.undefined w1 => ([], aa, w1)

/-- The region served to `sv` lies in the chunk at its position in `chain`, from the start of
the buffer to the cursor (`a` is the alignment). -/
def region_below_cursor (a : Nat) (chain : List memory_chunk) (sv : Served) : Prop :=
  ∃ ch : memory_chunk, chain[sv.chunk_index]? = some ch ∧ ch.chunk ≤ sv.ptr ∧
    sv.ptr + exact_round sv.size a ≤ ch.chunk + ch.offset

/-- Two served requests, the first one earlier: if they were served from the same chunk, the
first region ends before the second begins. -/
def no_overlap (s1 s2 : Served) : Prop :=
  s1.chunk_index = s2.chunk_index → s1.ptr + s1.size ≤ s2.ptr

/-- A call on a pool. -/
inductive Op where
  | alloc
  | free (p : Nat)
deriving DecidableEq, Repr

/-- A sequence of calls on one pool, each `alloc` with `fuel` passes.  It stops at the first
`alloc` that does not return.  The result is the pointers returned, in order, and the final
state when every call returned. -/
def run_ops (c : Consts) (env : Env) (fuel : Nat) : List Op → State → List Nat × Option State
  | [], s => ([], some s)
  | Op.free p :: ops, s => run_ops c env fuel ops (aligned_pool_allocator_free c s p)
  | Op.alloc :: ops, s =>
    match aligned_pool_allocator_alloc c env fuel s with
    | Outcome.returned p s1 =>
      let r := run_ops c env fuel ops s1
      (p :: r.1, r.2)
    | _ => ([], none)

/-- The state after `n` consecutive `alloc()` calls, when all of them returned. -/
def after_allocs (c : Consts) (env : Env) (fuel : Nat) (n : Nat) (s : State) : Option State :=
  (run_ops c env fuel (List.replicate n Op.alloc) s).2

/-- Number of over-budget warnings in a trace. -/
def warnings (tr : List Event) : Nat := tr.countP Event.is_warning

/-! ## Assumptions on the environment and on requests -/

/-- Single-task access: what runs during `poll` and `yield` does not touch this pool. -/
def Env.single_task (env : Env) : Prop :=
  ∀ s, (env.poll s).apa = s.apa ∧ (env.yield s).apa = s.apa

/-- What runs during `poll` and `yield` neither writes the latch nor changes the configured
maximum. -/
def Env.keeps_latch (env : Env) : Prop :=
  ∀ s, (env.poll s).w.shared_pool_max_exceeded = s.w.shared_pool_max_exceeded ∧
    (env.poll s).w.FLAGS_shared_pool_max_size = s.w.FLAGS_shared_pool_max_size ∧
    (env.yield s).w.shared_pool_max_exceeded = s.w.shared_pool_max_exceeded ∧
    (env.yield s).w.FLAGS_shared_pool_max_size = s.w.FLAGS_shared_pool_max_size

/-- The node-local allocator returns buffers that lie inside the address space, with a
representable one-past-the-end address. -/
def Env.in_address_space (env : Env) : Prop :=
  ∀ tr al n, env.locale_alloc_aligned tr al n ≠ 0 → env.locale_alloc_aligned tr al n + n < WORD

/-- The ChunkSource of the pool is sound for the object size of the pool: its chain is sound,
its alignment is at least 1, and a request of `object_size` bytes does not wrap. -/
def pool_ok (s : State) : Prop :=
  chain_ok s.apa.aa.chain ∧ 1 ≤ s.apa.aa.align_on ∧ no_wrap s.apa.aa s.apa.object_size

/-- The node-local allocator returns buffers that do not overlap any buffer recorded in the
history it is given. -/
def Env.fresh (env : Env) : Prop :=
  ∀ tr al n, env.locale_alloc_aligned tr al n ≠ 0 →
    ∀ m r, Event.locale_alloc m r ∈ tr → r ≠ 0 →
      env.locale_alloc_aligned tr al n + n ≤ r ∨ r + m ≤ env.locale_alloc_aligned tr al n

/-- The buffers of two chunks do not overlap. -/
def disjoint_chunks (c1 c2 : memory_chunk) : Prop :=
  c1.chunk + c1.chunk_size ≤ c2.chunk ∨ c2.chunk + c2.chunk_size ≤ c1.chunk

/-- The invariant of carving, for the list `H` of the objects carved so far: the pool is sound,
objects have at least one byte, the buffers of the chain are pairwise disjoint and recorded in
the history, every carved object starts below the cursor of a chunk, and no object was carved
twice. -/
def carve_inv (s : State) (H : List Nat) : Prop :=
  pool_ok s ∧ 1 ≤ s.apa.object_size ∧
  s.apa.aa.chain.Pairwise disjoint_chunks ∧
  (∀ ch ∈ s.apa.aa.chain, Event.locale_alloc ch.chunk_size ch.chunk ∈ s.w.trace) ∧
  (∀ p ∈ H, ∃ ch ∈ s.apa.aa.chain, ch.chunk ≤ p ∧ p < ch.chunk + ch.offset) ∧
  H.Nodup

/-- The free lists of the pool hold the lists of objects `bs`, bucket by bucket, and no object
is in the free lists twice. -/
def lists_ok (c : Consts) (s : State) (bs : List (List Nat)) : Prop :=
  bs.length = c.ALLOCATOR_PREFETCH_DISTANCE ∧
  s.apa.firsts.length = c.ALLOCATOR_PREFETCH_DISTANCE ∧
  s.apa.first_index < c.ALLOCATOR_PREFETCH_DISTANCE ∧
  (∀ i, i < c.ALLOCATOR_PREFETCH_DISTANCE → bucket_holds s i (bs.getD i [])) ∧
  bs.flatten.Nodup

/-! ## Concrete inputs -/

/-- The constants of a 64-bit build with two buckets. -/
def consts2 : Consts :=
  { CACHE_LINE_SIZE := 64, ALLOCATOR_PREFETCH_DISTANCE := 2, sizeof_memory_chunk := 32,
    sizeof_aligned_allocator := 32, sizeof_aligned_pool_allocator := 56, sizeof_pointer := 8 }

/-- The constants of a 64-bit build with one bucket. -/
def consts1 : Consts :=
  { CACHE_LINE_SIZE := 64, ALLOCATOR_PREFETCH_DISTANCE := 1, sizeof_memory_chunk := 32,
    sizeof_aligned_allocator := 32, sizeof_aligned_pool_allocator := 48, sizeof_pointer := 8 }

/-- The end of the highest buffer handed out in a history (at least 4096). -/
def trace_top : List Event → Nat
  | [] => 4096
  | Event.locale_alloc m r :: tr => max (r + m) (trace_top tr)
  | _ :: tr => trace_top tr

/-- A node-local allocator that hands out the first page above everything it has handed out,
and fails when the request does not fit below the top of the address space; other tasks do
nothing. -/
def env_pages : Env :=
  { locale_alloc_aligned := fun tr _ n =>
      if 4096 * (trace_top tr / 4096 + 1) + n < WORD then 4096 * (trace_top tr / 4096 + 1)
      else 0
    poll := fun s => s
    yield := fun s => s }

/-- A node-local allocator that always fails. -/
def env_fail : Env :=
  { locale_alloc_aligned := fun _ _ _ => 0
    poll := fun s => s
    yield := fun s => s }

/-- The world at program start with byte budget `B`: counters zero, latch clear, memory
zeroed, nothing traced. -/
def world0 (B : Int) (no_switch : Bool) : World :=
  { shared_pool_total_allocated := 0, shared_pool_max_exceeded := false,
    FLAGS_shared_pool_max_size := B, chunkallocator_append := 0, chunkallocator_allocated := 0,
    chunkallocator_yielded := 0, in_no_switch_region := no_switch, mem := fun _ => 0,
    trace := [] }

/-- An initialised pool of `D` buckets (alignment 8, objects of 16 bytes, chunks of 64 bytes)
that has not allocated yet. -/
def pool0 (D : Nat) : aligned_pool_allocator :=
  { object_size := 16, aa := aligned_allocator_init 8 64, allocated_objects := 0,
    newly_allocated_objects := 0, first_index := 0, firsts := List.replicate D 0 }

/-- The state after `aligned_pool_allocator_init` with alignment 8, objects of 16 bytes and 4
objects per chunk, on one bucket, at program start with a budget of 1000000 bytes. -/
def state_init1 : State :=
  { apa := pool0 1
    w := { world0 1000000 false with trace := [Event.locale_alloc 32 8192] } }

/-- The one-bucket pool after its first `alloc()`, which returns the object at 16384. -/
def state_one_alloc : State :=
  match aligned_pool_allocator_alloc consts1 env_pages 1 state_init1 with
  | Outcome.returned _ s => s
  | _ => state_init1

/-- The one-bucket pool after `alloc()` and `free(16384)` of the object it returned: bucket 0
holds the object at 16384. -/
def state_one_free : State :=
  aligned_pool_allocator_free consts1 state_one_alloc 16384

/-- A node-local allocator that returns odd addresses (buffers that are not even 2-aligned)
and idle other tasks. -/
def env_odd : Env :=
  { locale_alloc_aligned := fun tr _ _ => 4096 * (tr.length + 1) + 1
    poll := fun s => s
    yield := fun s => s }

/-- The state after `aligned_pool_allocator_init` with alignment 8, objects of 16 bytes and 4
objects per chunk, on two buckets, at program start with a budget of `B` bytes: the pool is
`pool0 2` and the trace holds the allocation of the ChunkSource structure. -/
def state_init (B : Int) : State :=
  { apa := pool0 2
    w := { world0 B false with trace := [Event.locale_alloc 32 8192] } }

/-- `aligned_pool_allocator_freelist_size`: the product `-1 * apa->allocated_objects` as the
`int64_t` the function returns. -/
def aligned_pool_allocator_freelist_size (apa : aligned_pool_allocator) : Int :=
  toInt64 (-1 * apa.allocated_objects)

/-- The two-bucket pool after its first `alloc()`, which returns the object at 16384. -/
def state_two_alloc : State :=
  match aligned_pool_allocator_alloc consts2 env_pages 1 (state_init 1000000) with
  | Outcome.returned _ s => s
  | _ => state_init 1000000

/-- The two-bucket pool after `alloc()` and `free(16384)` of the object it returned: bucket 0
holds the object at 16384 and the rotation index is 1. -/
def state_two_free : State :=
  aligned_pool_allocator_free consts2 state_two_alloc 16384

/-- The rotation index designates one of the `D` buckets of the bucket array. -/
def index_in_range (c : Consts) (apa : aligned_pool_allocator) : Prop :=
  apa.first_index < c.ALLOCATOR_PREFETCH_DISTANCE ∧
  apa.first_index < apa.firsts.length ∧
  apa.firsts.length = c.ALLOCATOR_PREFETCH_DISTANCE

instance (c : Consts) (apa : aligned_pool_allocator) : Decidable (index_in_range c apa) := by
  unfold index_in_range; infer_instance

/-- What runs during `poll` and `yield` (other tasks calling `alloc` and `free`) leaves the
rotation index of the pool within the bucket array. -/
def Env.keeps_index (env : Env) (c : Consts) : Prop :=
  ∀ s, index_in_range c s.apa →
    index_in_range c (env.poll s).apa ∧ index_in_range c (env.yield s).apa

/-- The passes of a call of `alloc()` that end in a round of backpressure, among its first
`fuel` passes: the list of the states in which these passes start, in order. -/
def blocked_passes (c : Consts) (env : Env) : Nat → Bool → State → List State
  | 0, _, _ => []
  | fuel + 1, yielded, s =>
    match alloc_pass c env yielded s with
    | Pass.blocked s1 => s :: blocked_passes c env fuel true s1
    | _ => []

/-- The state in which the pass that follows the rounds of backpressure starts. -/
def after_rounds (c : Consts) (env : Env) : Nat → Bool → State → State
  | 0, _, s => s
  | fuel + 1, yielded, s =>
    match alloc_pass c env yielded s with
    | Pass.blocked s1 => after_rounds c env fuel true s1
    | _ => s

/-- What runs during `poll` and `yield` does not count yield events on behalf of this call. -/
def Env.keeps_yield_count (env : Env) : Prop :=
  ∀ s, (env.poll s).w.chunkallocator_yielded = s.w.chunkallocator_yielded ∧
    (env.yield s).w.chunkallocator_yielded = s.w.chunkallocator_yielded

/-- A node-local allocator like `env_pages`, with another task that holds the object at 16384
and frees it into the two-bucket pool during the second `yield()` of a call. -/
def env_release : Env :=
  { locale_alloc_aligned := env_pages.locale_alloc_aligned
    poll := fun s => s
    yield := fun s =>
      if 1 ≤ s.w.trace.count Event.yield then aligned_pool_allocator_free consts2 s 16384
      else s }

/-- The two-bucket pool with a maximum of 100 bytes after its first `alloc()`, which appends a
chunk (the byte counter becomes 136) and returns the object at 16384. -/
def state_over_budget : State :=
  match aligned_pool_allocator_alloc consts2 env_release 1 (state_init 100) with
  | Outcome.returned _ s => s
  | _ => state_init 100

/-- The pool of the scenario (alignment 8, objects of 16 bytes, default chunk size 64) after `k`
fresh carves and nothing else: no bucket holds an object, the chain has `ceil(k / 4)` chunks,
and the tail chunk, of 72 bytes, has served `(k - 1) % 4 + 1` objects after its padding. -/
def scenario_inv (k : Nat) (apa : aligned_pool_allocator) : Prop :=
  all_empty apa ∧ apa.object_size = 16 ∧ apa.aa.align_on = 8 ∧ apa.aa.chunk_size = 64 ∧
  chain_ok apa.aa.chain ∧ apa.aa.chain.length = (k + 3) / 4 ∧
  apa.newly_allocated_objects = k ∧ apa.allocated_objects = 0 ∧
  (0 < k → ∃ (tail : memory_chunk) (pad : Nat), apa.aa.chain.getLast? = some tail ∧
    tail.chunk_size = 72 ∧ pad < 8 ∧ tail.offset = pad + 16 * ((k - 1) % 4 + 1))

/-- The objects the caller holds after a sequence of calls, when it held `held` before: an
object returned by `alloc()` is held until it is passed to `free()`. -/
def held_after (c : Consts) (env : Env) (fuel : Nat) : List Op → State → List Nat → List Nat
  | [], _, held => held
  | Op.free p :: ops, s, held =>
    held_after c env fuel ops (aligned_pool_allocator_free c s p) (held.erase p)
  | Op.alloc :: ops, s, held =>
    match aligned_pool_allocator_alloc c env fuel s with
    | Outcome.returned p s1 => held_after c env fuel ops s1 (p :: held)
    | _ => held

/-- The caller frees only objects it currently holds (no double free, no foreign pointer). -/
def frees_held (c : Consts) (env : Env) (fuel : Nat) : List Op → State → List Nat → Bool
  | [], _, _ => true
  | Op.free p :: ops, s, held =>
    decide (p ∈ held) &&
      frees_held c env fuel ops (aligned_pool_allocator_free c s p) (held.erase p)
  | Op.alloc :: ops, s, held =>
    match aligned_pool_allocator_alloc c env fuel s with
    | Outcome.returned p s1 => frees_held c env fuel ops s1 (p :: held)
    | _ => true

/-- No `alloc()` of the sequence returns an object that the caller holds at that moment. -/
def never_twice (c : Consts) (env : Env) (fuel : Nat) : List Op → State → List Nat → Bool
  | [], _, _ => true
  | Op.free p :: ops, s, held =>
    never_twice c env fuel ops (aligned_pool_allocator_free c s p) (held.erase p)
  | Op.alloc :: ops, s, held =>
    match aligned_pool_allocator_alloc c env fuel s with
    | Outcome.returned p s1 => decide (p ∉ held) && never_twice c env fuel ops s1 (p :: held)
    | _ => true

/-- The invariant of a pool used by a caller that holds the objects `held`: `carved` is the
list of the objects carved so far, the buckets hold the lists `bs`, every carved object is
either in a free list or held (and only once), and the in-use counter is minus the number of
objects in the free lists. -/
def pool_inv (c : Consts) (s : State) (held carved : List Nat) (bs : List (List Nat)) : Prop :=
  carve_inv s carved ∧ lists_ok c s bs ∧ (bs.flatten ++ held).Perm carved ∧
  s.apa.allocated_objects = -(bs.flatten.length : Int) ∧
  s.apa.newly_allocated_objects = (carved.length : Int)

/-- The link field of the object at `p` (its first `sizeof(void *)` bytes) lies in the part of a
chunk buffer of the pool that has been handed out: between the start of the buffer and the
cursor, inside the buffer. -/
def link_in_pool (c : Consts) (s : State) (p : Nat) : Prop :=
  ∃ ch ∈ s.apa.aa.chain, ch.chunk ≠ 0 ∧ ch.chunk ≤ p ∧
    p + c.sizeof_pointer ≤ ch.chunk + ch.offset ∧ ch.offset ≤ ch.chunk_size

instance (c : Consts) (s : State) (p : Nat) : Decidable (link_in_pool c s p) := by
  unfold link_in_pool; infer_instance

/-- The link fields of the objects at `p` and at `q` do not overlap. -/
def links_apart (c : Consts) (p q : Nat) : Prop :=
  p + c.sizeof_pointer ≤ q ∨ q + c.sizeof_pointer ≤ p

instance (c : Consts) (p q : Nat) : Decidable (links_apart c p q) := by
  unfold links_apart; infer_instance

/-- The two-bucket pool after two calls of `alloc()` (objects at 16384 and 16400) and
`free(16384)`: bucket 0 holds the object at 16384, the rotation index is 1 and the caller holds
the object at 16400. -/
def state_held_listed : State :=
  match (run_ops consts2 env_pages 1 [Op.alloc, Op.alloc, Op.free 16384]
      (state_init 1000000)).2 with
  | some s => s
  | none => state_init 1000000

/-! ## Basic facts about one pass and about chunk appends -/

theorem getD_eq_zero_of_all_zero (l : List Nat) (h : ∀ x ∈ l, x = 0) (i : Nat) :
    l.getD i 0 = 0 := by
  by_cases hi : i < l.length
  · rw [List.getD_eq_getElem l 0 hi]
    exact h _ (List.getElem_mem hi)
  · rw [List.getD_eq_default l 0 (by omega)]

theorem scan_firsts_all_zero (D : Nat) (l : List Nat) (h : ∀ x ∈ l, x = 0) :
    ∀ fuel index, index ≤ D → D ≤ index + fuel → scan_firsts D l fuel index = D := by
  intro fuel
  induction fuel with
  | zero => intro index h1 h2; simp only [scan_firsts]; omega
  | succ n ih =>
    intro index h1 h2
    simp only [scan_firsts]
    by_cases hlt : index < D
    · simp only [hlt, if_true, getD_eq_zero_of_all_zero l h, ne_eq, not_true_eq_false, if_false]
      exact ih (index + 1) (by omega) (by omega)
    · simp only [hlt, if_false]; omega

theorem find_free_all_empty (c : Consts) (apa : aligned_pool_allocator) (h : all_empty apa) :
    find_free c apa = (apa, 0) := by
  have hs := scan_firsts_all_zero c.ALLOCATOR_PREFETCH_DISTANCE apa.firsts h
    c.ALLOCATOR_PREFETCH_DISTANCE 0 (Nat.zero_le _) (by omega)
  unfold find_free
  simp only [getD_eq_zero_of_all_zero apa.firsts h, if_true, hs, lt_irrefl, if_false]

theorem alloc_pass_all_empty (c : Consts) (env : Env) (y : Bool) (s : State)
    (h : all_empty s.apa) :
    alloc_pass c env y s =
      if may_carve s.w then Pass.carved (carve c env s)
      else Pass.blocked (backpressure env y s) := by
  unfold alloc_pass
  rw [find_free_all_empty c s.apa h]
  simp

/-- What a successful append does. -/
theorem append_chunk_ok {c : Consts} {env : Env} {aa aa1 : aligned_allocator} {m : Nat}
    {w w1 : World} (h : _aligned_allocator_append_chunk c env aa m w = Res.ok (aa1, w1)) :
    ∃ ch : memory_chunk,
      aa1 = { aa with chain := aa.chain ++ [ch] } ∧ ch.chunk ≠ 0 ∧
      ch.chunk_size = u64 (max m aa.chunk_size + aa.align_on) ∧
      ch.offset = u64_sub (ALIGN_UP ch.chunk aa.align_on) ch.chunk ∧
      ∃ r, r ≠ 0 ∧ w1.trace = w.trace ++ [Event.locale_alloc c.sizeof_memory_chunk r,
                              Event.locale_alloc ch.chunk_size ch.chunk] ∧
      ch.chunk = env.locale_alloc_aligned
        (w.trace ++ [Event.locale_alloc c.sizeof_memory_chunk r]) c.CACHE_LINE_SIZE
        ch.chunk_size ∧
      w1.shared_pool_max_exceeded = w.shared_pool_max_exceeded ∧
      w1.FLAGS_shared_pool_max_size = w.FLAGS_shared_pool_max_size ∧
      w1.in_no_switch_region = w.in_no_switch_region ∧
      w1.chunkallocator_yielded = w.chunkallocator_yielded ∧
      w1.chunkallocator_append = w.chunkallocator_append + 1 ∧
      w1.mem = memset_zero w.mem ch.chunk ch.chunk_size ∧
      w1.shared_pool_total_allocated =
        toInt64 (toInt64 (w.shared_pool_total_allocated
            + max c.sizeof_memory_chunk c.CACHE_LINE_SIZE)
          + max ch.chunk_size c.CACHE_LINE_SIZE) := by
  unfold _aligned_allocator_append_chunk locale_call at h
  simp only [] at h
  split_ifs at h with h1 h2
  simp only [Res.ok.injEq, Prod.mk.injEq] at h
  obtain ⟨rfl, rfl⟩ := h
  exact ⟨_, rfl, h2, rfl, rfl, _, h1, by simp, rfl, rfl, rfl, rfl, rfl, rfl, rfl, rfl⟩

/-- What a failed append does: it stops at the first failed node-local allocation. -/
theorem append_chunk_abort {c : Consts} {env : Env} {aa : aligned_allocator} {m : Nat}
    {w w1 : World} (h : _aligned_allocator_append_chunk c env aa m w = Res.abort w1) :
    ∃ evs, w1.trace = w.trace ++ evs ∧ (∀ e ∈ evs, e.is_locale = true) ∧
      (∃ e ∈ evs, e.failed = true) := by
  unfold _aligned_allocator_append_chunk locale_call at h
  simp only [] at h
  split_ifs at h with h1 h2
  · simp only [Res.abort.injEq] at h
    subst h
    exact ⟨[_], rfl, by simp [Event.is_locale], by simp [Event.failed, h1]⟩
  · simp only [Res.abort.injEq] at h
    subst h
    refine ⟨[Event.locale_alloc c.sizeof_memory_chunk
        (env.locale_alloc_aligned w.trace c.CACHE_LINE_SIZE c.sizeof_memory_chunk),
        Event.locale_alloc (u64 (max m aa.chunk_size + aa.align_on)) 0], ?_, ?_, ?_⟩
    · simp only [List.append_assoc, List.singleton_append, h2]
    · simp [Event.is_locale]
    · simp [Event.failed]

theorem append_chunk_ne_undefined (c : Consts) (env : Env) (aa : aligned_allocator) (m : Nat)
    (w w1 : World) : _aligned_allocator_append_chunk c env aa m w ≠ Res.undefined w1 := by
  unfold _aligned_allocator_append_chunk locale_call
  simp only []
  split_ifs <;> simp

theorem trace_ok_refl (w : World) : trace_ok w w := ⟨[], by simp, by simp⟩

theorem trace_ok_trans {w w1 w2 : World} (h1 : trace_ok w w1) (h2 : trace_ok w1 w2) :
    trace_ok w w2 := by
  obtain ⟨e1, h1, g1⟩ := h1
  obtain ⟨e2, h2, g2⟩ := h2
  refine ⟨e1 ++ e2, by rw [h2, h1, List.append_assoc], ?_⟩
  intro e he
  rcases List.mem_append.1 he with h | h
  · exact g1 e h
  · exact g2 e h

theorem trace_ok_failed {w w1 w2 : World} (h1 : trace_ok w w1) (h2 : trace_failed w1 w2) :
    trace_failed w w2 := by
  obtain ⟨e1, h1, g1⟩ := h1
  obtain ⟨e2, h2, g2, e, he, hf⟩ := h2
  refine ⟨e1 ++ e2, by rw [h2, h1, List.append_assoc], ?_, e, List.mem_append.2 (Or.inr he), hf⟩
  intro e he
  rcases List.mem_append.1 he with h | h
  · exact (g1 e h).1
  · exact g2 e h

theorem append_chunk_trace_ok {c : Consts} {env : Env} {aa aa1 : aligned_allocator} {m : Nat}
    {w w1 : World} (h : _aligned_allocator_append_chunk c env aa m w = Res.ok (aa1, w1)) :
    trace_ok w w1 := by
  obtain ⟨ch, -, hch, -, -, r, hr, htr, -⟩ := append_chunk_ok h
  refine ⟨_, htr, ?_⟩
  intro e he
  simp only [List.mem_cons, List.mem_singleton, List.not_mem_nil, or_false] at he
  rcases he with rfl | rfl
  · simp [Event.is_locale, Event.failed, hr]
  · simp [Event.is_locale, Event.failed, hch]

/-- The three results of `aligned_allocator_alloc` with what they say about the trace. -/
theorem aligned_allocator_alloc_trace (c : Consts) (env : Env) (aa : aligned_allocator)
    (size : Nat) (w : World) :
    (∃ p aa1 w1, aligned_allocator_alloc c env aa size w = Res.ok (p, aa1, w1) ∧ trace_ok w w1) ∨
    (∃ w1, aligned_allocator_alloc c env aa size w = Res.abort w1 ∧ trace_failed w w1) := by
  unfold aligned_allocator_alloc
  simp only []
  -- first conditional append
  have h1 : (∃ aa1 w1, append_if_empty c env aa (ALIGN_UP size aa.align_on) w = Res.ok (aa1, w1)
        ∧ trace_ok w w1 ∧ aa1.chain ≠ []) ∨
      (∃ w1, append_if_empty c env aa (ALIGN_UP size aa.align_on) w = Res.abort w1
        ∧ trace_failed w w1) := by
    unfold append_if_empty
    split_ifs with he
    · cases hr : _aligned_allocator_append_chunk c env aa (ALIGN_UP size aa.align_on) w with
      | ok a =>
        obtain ⟨aa1, w1⟩ := a
        obtain ⟨ch, rfl, -⟩ := append_chunk_ok hr
        exact Or.inl ⟨_, _, rfl, append_chunk_trace_ok hr, by simp⟩
      | abort w1 => exact Or.inr ⟨w1, rfl, append_chunk_abort hr⟩
      | undefined w1 => exact absurd hr (append_chunk_ne_undefined _ _ _ _ _ _)
    · refine Or.inl ⟨aa, w, rfl, trace_ok_refl w, ?_⟩
      intro h0
      rw [h0] at he
      simp at he
  rcases h1 with ⟨aa1, w1, e1, t1, hne⟩ | ⟨w1, e1, t1⟩
  · rw [e1]
    simp only []
    have h2 : (∃ aa2 w2, append_if_short c env aa1 (ALIGN_UP size aa.align_on) w1
          = Res.ok (aa2, w2) ∧ trace_ok w1 w2 ∧ aa2.chain ≠ []) ∨
        (∃ w2, append_if_short c env aa1 (ALIGN_UP size aa.align_on) w1 = Res.abort w2
          ∧ trace_failed w1 w2) := by
      unfold append_if_short
      cases hl : aa1.chain.getLast? with
      | none => rw [List.getLast?_eq_none_iff] at hl; exact absurd hl hne
      | some last =>
        simp only []
        split_ifs with hlt
        · cases hr : _aligned_allocator_append_chunk c env aa1 (ALIGN_UP size aa.align_on) w1 with
          | ok a =>
            obtain ⟨aa2, w2⟩ := a
            obtain ⟨ch, rfl, -⟩ := append_chunk_ok hr
            exact Or.inl ⟨_, _, rfl, append_chunk_trace_ok hr, by simp⟩
          | abort w2 => exact Or.inr ⟨w2, rfl, append_chunk_abort hr⟩
          | undefined w2 => exact absurd hr (append_chunk_ne_undefined _ _ _ _ _ _)
        · exact Or.inl ⟨aa1, w1, rfl, trace_ok_refl w1, hne⟩
    rcases h2 with ⟨aa2, w2, e2, t2, hne2⟩ | ⟨w2, e2, t2⟩
    · rw [e2]
      simp only []
      unfold bump
      cases hl : aa2.chain.getLast? with
      | none => rw [List.getLast?_eq_none_iff] at hl; exact absurd hl hne2
      | some last => exact Or.inl ⟨_, _, _, rfl, trace_ok_trans t1 t2⟩
    · rw [e2]
      exact Or.inr ⟨w2, rfl, trace_ok_failed t1 t2⟩
  · rw [e1]
    exact Or.inr ⟨w1, rfl, t1⟩

theorem may_carve_iff (w : World) :
    may_carve w = true ↔
      (w.in_no_switch_region = true ∨
        w.shared_pool_total_allocated < w.FLAGS_shared_pool_max_size) := by
  unfold may_carve
  simp only [Bool.or_eq_true, decide_eq_true_eq]
  exact Or.comm

/-- The outcome of the carve branch in terms of the ChunkSource call it makes. -/
theorem carve_cases (c : Consts) (env : Env) (s : State) :
    (∃ p aa1 w1 w2, aligned_allocator_alloc c env s.apa.aa s.apa.object_size s.w
          = Res.ok (p, aa1, w1) ∧ trace_ok s.w w1 ∧
        carve c env s = Outcome.returned p
          { apa := { s.apa with
              newly_allocated_objects := s.apa.newly_allocated_objects + 1, aa := aa1 }
            w := w2 } ∧
        ((¬ (w1.shared_pool_total_allocated > w1.FLAGS_shared_pool_max_size ∧
              w1.shared_pool_max_exceeded = false) ∧ w2 = w1) ∨
          (w1.shared_pool_total_allocated > w1.FLAGS_shared_pool_max_size ∧
           w1.shared_pool_max_exceeded = false ∧
           w2 = { w1 with
              shared_pool_max_exceeded := true
              trace := w1.trace ++ [Event.log_warning w1.shared_pool_total_allocated
                                      w1.FLAGS_shared_pool_max_size] }))) ∨
    (∃ w1, aligned_allocator_alloc c env s.apa.aa s.apa.object_size s.w = Res.abort w1 ∧
        trace_failed s.w w1 ∧ carve c env s = Outcome.aborted w1) := by
  unfold carve
  simp only []
  rcases aligned_allocator_alloc_trace c env s.apa.aa s.apa.object_size s.w with
    ⟨p, aa1, w1, e, t⟩ | ⟨w1, e, t⟩
  · rw [e]
    simp only []
    refine Or.inl ⟨p, aa1, w1, _, rfl, t, rfl, ?_⟩
    split_ifs with hc
    · exact Or.inr ⟨hc.1, hc.2, rfl⟩
    · exact Or.inl ⟨hc, rfl⟩
  · rw [e]
    exact Or.inr ⟨w1, rfl, t, rfl⟩

/-- The carve branch never polls and never yields. -/
theorem carve_no_backpressure (c : Consts) (env : Env) (s : State) :
    ∃ evs, (carve c env s).world.trace = s.w.trace ++ evs ∧
      ∀ e ∈ evs, e.is_backpressure = false := by
  rcases carve_cases c env s with ⟨p, aa1, w1, w2, -, ⟨evs, ht, hl⟩, hc, hw⟩ | ⟨w1, -, ⟨evs, ht, hl, -⟩, hc⟩
  · rw [hc]
    simp only [Outcome.world]
    rcases hw with ⟨-, rfl⟩ | ⟨-, -, rfl⟩
    · refine ⟨evs, ht, ?_⟩
      intro e he
      have := (hl e he).1
      cases e <;> simp_all [Event.is_locale, Event.is_backpressure]
    · refine ⟨evs ++ [Event.log_warning w1.shared_pool_total_allocated
        w1.FLAGS_shared_pool_max_size], by simp [ht], ?_⟩
      intro e he
      rcases List.mem_append.1 he with h | h
      · have := (hl e h).1
        cases e <;> simp_all [Event.is_locale, Event.is_backpressure]
      · simp only [List.mem_singleton] at h
        subst h
        rfl
  · rw [hc]
    refine ⟨evs, ht, ?_⟩
    intro e he
    have := hl e he
    cases e <;> simp_all [Event.is_locale, Event.is_backpressure]

theorem find_free_fst_firsts (c : Consts) (apa : aligned_pool_allocator) :
    (find_free c apa).1 = apa ∨
      ∃ i, (find_free c apa).1 = { apa with first_index := i } := by
  unfold find_free
  simp only []
  split_ifs
  · exact Or.inr ⟨_, rfl⟩
  · exact Or.inl rfl
  · exact Or.inl rfl

/-- A pass that is not blocked decides the call. -/
theorem alloc_loop_succ_of_pass (c : Consts) (env : Env) (fuel : Nat) (y : Bool) (s : State) :
    (∀ s1, alloc_pass c env y s ≠ Pass.blocked s1) →
      alloc_loop c env (fuel + 1) y s = alloc_loop c env 1 y s := by
  intro h
  simp only [alloc_loop]
  cases hp : alloc_pass c env y s with
  | popped p s1 => rfl
  | carved o => rfl
  | blocked s1 => exact absurd hp (h s1)

/-- The three kinds of pass. -/
theorem alloc_pass_cases (c : Consts) (env : Env) (y : Bool) (s : State) :
    (∃ p s1, alloc_pass c env y s = Pass.popped p s1 ∧ p ≠ 0 ∧ s1.w.trace = s.w.trace) ∨
    (∃ apa1, alloc_pass c env y s = Pass.carved (carve c env { s with apa := apa1 }) ∧
        may_carve s.w = true) ∨
    (∃ apa1, alloc_pass c env y s = Pass.blocked (backpressure env y { s with apa := apa1 }) ∧
        may_carve s.w = false) := by
  unfold alloc_pass
  cases hf : find_free c s.apa with
  | mk apa1 ret =>
    simp only []
    split_ifs with h0 hm
    · exact Or.inr (Or.inl ⟨apa1, rfl, hm⟩)
    · exact Or.inr (Or.inr ⟨apa1, rfl, by simpa using hm⟩)
    · refine Or.inl ⟨_, _, rfl, ?_, rfl⟩
      -- the popped pointer is the one found
      simp only [pop_current]
      unfold find_free at hf
      simp only [] at hf
      split_ifs at hf with g1 g2
      · simp only [Prod.mk.injEq] at hf
        obtain ⟨rfl, rfl⟩ := hf
        exact h0
      · simp only [Prod.mk.injEq] at hf
        obtain ⟨rfl, rfl⟩ := hf
        exact absurd g1 h0
      · simp only [Prod.mk.injEq] at hf
        obtain ⟨rfl, rfl⟩ := hf
        exact h0

/-- In a no-switch region a pass is never blocked. -/
theorem alloc_pass_not_blocked (c : Consts) (env : Env) (y : Bool) (s : State)
    (h : s.w.in_no_switch_region = true) (s1 : State) :
    alloc_pass c env y s ≠ Pass.blocked s1 := by
  intro hb
  have hm : may_carve s.w = true := (may_carve_iff s.w).2 (Or.inl h)
  rcases alloc_pass_cases c env y s with ⟨p, s2, e, -⟩ | ⟨apa1, e, -⟩ | ⟨apa1, -, hf⟩
  · rw [e] at hb; exact Pass.noConfusion hb
  · rw [e] at hb; exact Pass.noConfusion hb
  · rw [hm] at hf; exact Bool.noConfusion hf

/-- Writing the link field of an object that is not in a list does not change the list. -/
theorem is_list_update (mem : Nat → Nat) (p v : Nat) :
    ∀ (l : List Nat) (head : Nat), p ∉ l →
      (is_list (Function.update mem p v) head l ↔ is_list mem head l) := by
  intro l
  induction l with
  | nil => intro head _; simp [is_list]
  | cons q t ih =>
    intro head hp
    have hq : q ≠ p := fun h => hp (by simp [h])
    have ht : p ∉ t := fun h => hp (List.mem_cons_of_mem _ h)
    simp only [is_list, Function.update_noteq hq, ih (mem q) ht]

/-- A head pointer holds at most one list. -/
theorem is_list_unique (mem : Nat → Nat) :
    ∀ (l1 l2 : List Nat) (head : Nat), is_list mem head l1 → is_list mem head l2 → l1 = l2 := by
  intro l1
  induction l1 with
  | nil =>
    intro l2 head h1 h2
    cases l2 with
    | nil => rfl
    | cons q t =>
      simp only [is_list] at h1 h2
      exact absurd (h2.1 ▸ h1) h2.2.1
  | cons p t ih =>
    intro l2 head h1 h2
    cases l2 with
    | nil =>
      simp only [is_list] at h1 h2
      exact absurd (h1.1 ▸ h2) h1.2.1
    | cons q t2 =>
      simp only [is_list] at h1 h2
      have hpq : p = q := h1.1.symm.trans h2.1
      subst hpq
      rw [ih t2 (mem p) h1.2.2 h2.2.2]

theorem getD_set_self (l : List Nat) (i v : Nat) (h : i < l.length) :
    (l.set i v).getD i 0 = v := by
  rw [List.getD_eq_getElem _ 0 (by simpa using h)]
  simp

theorem getD_set_other (l : List Nat) (i j v : Nat) (h : j ≠ i) :
    (l.set i v).getD j 0 = l.getD j 0 := by
  simp only [List.getD_eq_getElem?_getD]
  rw [List.getElem?_set_ne (Ne.symm h)]

theorem backpressure_apa (env : Env) (hst : env.single_task) (y : Bool) (s : State) :
    (backpressure env y s).apa = s.apa := by
  unfold backpressure
  simp only []
  rw [(hst _).2]
  simp only []
  rw [(hst _).1]
  split_ifs <;> rfl

/-- A scan that stops below `D` stops at a non-null head. -/
theorem scan_firsts_found (D : Nat) (l : List Nat) :
    ∀ fuel index, scan_firsts D l fuel index < D → index + fuel ≥ D →
      l.getD (scan_firsts D l fuel index) 0 ≠ 0 := by
  intro fuel
  induction fuel with
  | zero => intro index h1 h2; simp only [scan_firsts] at h1; omega
  | succ m ihm =>
    intro index h1 h2
    simp only [scan_firsts] at h1 ⊢
    split_ifs at h1 ⊢ with k1 k2
    · exact k2
    · exact ihm (index + 1) h1 (by omega)
    · omega

/-- What `find_free` returns: either a null `ret` with the pool untouched, or a non-null `ret`
that is the head of the bucket at the (possibly moved) rotation index. -/
theorem find_free_spec (c : Consts) (apa : aligned_pool_allocator) :
    ((find_free c apa).2 = 0 ∧ (find_free c apa).1 = apa) ∨
    ((find_free c apa).2 ≠ 0 ∧
      (find_free c apa).1.firsts.getD (find_free c apa).1.first_index 0 = (find_free c apa).2 ∧
      ∃ i, (find_free c apa).1 = { apa with first_index := i }) := by
  unfold find_free
  simp only []
  split_ifs with g1 g2
  · right
    have := scan_firsts_found _ apa.firsts _ 0 g2 (by omega)
    exact ⟨this, rfl, _, rfl⟩
  · left; exact ⟨g1, rfl⟩
  · right; exact ⟨g1, rfl, apa.first_index, rfl⟩

theorem alloc_pass_eq (c : Consts) (env : Env) (y : Bool) (s : State) :
    alloc_pass c env y s =
      if (find_free c s.apa).2 = 0 then
        if may_carve s.w then Pass.carved (carve c env { s with apa := (find_free c s.apa).1 })
        else Pass.blocked (backpressure env y { s with apa := (find_free c s.apa).1 })
      else
        Pass.popped (pop_current c { s with apa := (find_free c s.apa).1 }).1
          (pop_current c { s with apa := (find_free c s.apa).1 }).2 := by
  unfold alloc_pass
  cases find_free c s.apa with
  | mk apa1 ret => rfl

/-- A node-local allocator of pages and idle other tasks leave the pool alone. -/
theorem env_pages_single_task : env_pages.single_task := fun _ => ⟨rfl, rfl⟩

theorem world_frame_refl (w : World) : world_frame w w :=
  ⟨rfl, rfl, rfl, rfl, trace_ok_refl w⟩

theorem world_frame_trans {w w1 w2 : World} (h1 : world_frame w w1) (h2 : world_frame w1 w2) :
    world_frame w w2 :=
  ⟨h2.1.trans h1.1, h2.2.1.trans h1.2.1, h2.2.2.1.trans h1.2.2.1,
    h2.2.2.2.1.trans h1.2.2.2.1, trace_ok_trans h1.2.2.2.2 h2.2.2.2.2⟩

theorem trace_ok_subset {w w1 : World} (h : trace_ok w w1) : ∀ e ∈ w.trace, e ∈ w1.trace := by
  obtain ⟨evs, e1, -⟩ := h
  intro e he
  rw [e1]
  exact List.mem_append.2 (Or.inl he)

theorem fresh_chunk_mono {env : Env} {w w1 w2 w3 : World} {aa : aligned_allocator} {rs : Nat}
    {ch : memory_chunk} (h01 : ∀ e ∈ w.trace, e ∈ w1.trace) (h23 : ∀ e ∈ w2.trace, e ∈ w3.trace)
    (h : fresh_chunk env w1 w2 aa rs ch) : fresh_chunk env w w3 aa rs ch := by
  obtain ⟨h1, h2, h3, ⟨tr, al, h4, h5⟩, h6⟩ := h
  exact ⟨h1, h2, h3, ⟨tr, al, fun e he => h4 e (h01 e he), h5⟩, h23 _ h6⟩

/-- A successful append adds one fresh chunk at the end of the chain. -/
theorem append_chunk_fresh {c : Consts} {env : Env} {aa aa1 : aligned_allocator} {m : Nat}
    {w w1 : World} (h : _aligned_allocator_append_chunk c env aa m w = Res.ok (aa1, w1)) :
    ∃ ch, fresh_chunk env w w1 aa m ch ∧ aa1 = { aa with chain := aa.chain ++ [ch] } ∧
      world_frame w w1 ∧ w1.chunkallocator_append = w.chunkallocator_append + 1 := by
  have ht := append_chunk_trace_ok h
  obtain ⟨ch, e, h1, h2, h3, r, -, htr, h4, h5, h6, h7, h8, h9, -⟩ := append_chunk_ok h
  refine ⟨ch, ⟨h1, h2, h3, ⟨_, _, ?_, h4⟩, ?_⟩, e, ⟨h5, h6, h7, h8, ht⟩, h9⟩
  · intro ev hev
    exact List.mem_append.2 (Or.inl hev)
  · rw [htr]
    simp

/-- The successful calls of `aligned_allocator_alloc`, case by case: no append (the tail has
room), one append on an empty chain, two appends on an empty chain (the first new chunk is
too small), one append behind a tail that is too small.  In every case the pointer is the
cursor of the tail `last` and the tail is bumped by the rounded size. -/
theorem aligned_allocator_alloc_ok {c : Consts} {env : Env} {aa aa2 : aligned_allocator}
    {size p : Nat} {w w2 : World}
    (h : aligned_allocator_alloc c env aa size w = Res.ok (p, aa2, w2)) :
    ∃ (pre : List memory_chunk) (last : memory_chunk),
      aa2 = { aa with chain := pre ++ [bumped last (ALIGN_UP size aa.align_on)] } ∧
      p = u64 (last.chunk + last.offset) ∧
      world_frame w w2 ∧
      ((aa.chain = pre ++ [last] ∧ ¬ remaining last < ALIGN_UP size aa.align_on ∧ w2 = w) ∨
       (aa.chain = [] ∧ pre = [] ∧ fresh_chunk env w w2 aa (ALIGN_UP size aa.align_on) last ∧
          ¬ remaining last < ALIGN_UP size aa.align_on ∧
          w2.chunkallocator_append = w.chunkallocator_append + 1) ∨
       (aa.chain = [] ∧ ∃ x, pre = [x] ∧ fresh_chunk env w w2 aa (ALIGN_UP size aa.align_on) x ∧
          remaining x < ALIGN_UP size aa.align_on ∧
          fresh_chunk env w w2 aa (ALIGN_UP size aa.align_on) last ∧
          w2.chunkallocator_append = w.chunkallocator_append + 2) ∨
       (aa.chain = pre ∧ (∃ old, aa.chain.getLast? = some old ∧
            remaining old < ALIGN_UP size aa.align_on) ∧
          fresh_chunk env w w2 aa (ALIGN_UP size aa.align_on) last ∧
          w2.chunkallocator_append = w.chunkallocator_append + 1)) := by
  unfold aligned_allocator_alloc at h
  simp only [] at h
  generalize ALIGN_UP size aa.align_on = rs at h ⊢
  by_cases hempty : aa.chain = []
  · -- empty chain: the first test appends
    have hl : aa.chain.getLast? = none := by rw [hempty]; rfl
    simp only [append_if_empty, hl, if_true] at h
    cases h1 : _aligned_allocator_append_chunk c env aa rs w with
    | abort w1 => rw [h1] at h; exact Res.noConfusion h
    | undefined w1 => rw [h1] at h; exact Res.noConfusion h
    | ok a =>
      obtain ⟨aa1, w1⟩ := a
      rw [h1] at h
      simp only [] at h
      obtain ⟨x, fx, rfl, fr1, hc1⟩ := append_chunk_fresh h1
      have hlx : (aa.chain ++ [x]).getLast? = some x := by simp
      simp only [append_if_short, hlx] at h
      by_cases hshort : u64_sub x.chunk_size x.offset < rs
      · rw [if_pos hshort] at h
        cases h2 : _aligned_allocator_append_chunk c env
            { aa with chain := aa.chain ++ [x] } rs w1 with
        | abort w3 => rw [h2] at h; exact Res.noConfusion h
        | undefined w3 => rw [h2] at h; exact Res.noConfusion h
        | ok a =>
          obtain ⟨aa3, w3⟩ := a
          rw [h2] at h
          simp only [] at h
          obtain ⟨y, fy, rfl, fr2, hc2⟩ := append_chunk_fresh h2
          have hly : (aa.chain ++ [x] ++ [y]).getLast? = some y := by simp
          simp only [bump, hly, Res.ok.injEq, Prod.mk.injEq] at h
          obtain ⟨rfl, rfl, rfl⟩ := h
          refine ⟨[x], y, ?_, rfl, world_frame_trans fr1 fr2, ?_⟩
          · simp [hempty, bumped]
          · exact Or.inr (Or.inr (Or.inl ⟨hempty, x, rfl,
              fresh_chunk_mono (fun _ h => h) (trace_ok_subset fr2.2.2.2.2) fx, hshort,
              fresh_chunk_mono (trace_ok_subset fr1.2.2.2.2) (fun _ h => h) fy,
              by rw [hc2, hc1]; ring⟩))
      · rw [if_neg hshort] at h
        simp only [bump, hlx, Res.ok.injEq, Prod.mk.injEq] at h
        obtain ⟨rfl, rfl, rfl⟩ := h
        refine ⟨[], x, ?_, rfl, fr1, ?_⟩
        · simp [hempty, bumped]
        · exact Or.inr (Or.inl ⟨hempty, rfl, fx, hshort, hc1⟩)
  · -- non-empty chain
    obtain ⟨old, hold⟩ : ∃ old, aa.chain.getLast? = some old := by
      cases hl : aa.chain.getLast? with
      | none => rw [List.getLast?_eq_none_iff] at hl; exact absurd hl hempty
      | some old => exact ⟨old, rfl⟩
    have hne : ¬ aa.chain.getLast? = none := by rw [hold]; simp
    simp only [append_if_empty, if_neg hne] at h
    simp only [append_if_short, hold] at h
    by_cases hshort : u64_sub old.chunk_size old.offset < rs
    · rw [if_pos hshort] at h
      cases h2 : _aligned_allocator_append_chunk c env aa rs w with
      | abort w3 => rw [h2] at h; exact Res.noConfusion h
      | undefined w3 => rw [h2] at h; exact Res.noConfusion h
      | ok a =>
        obtain ⟨aa3, w3⟩ := a
        rw [h2] at h
        simp only [] at h
        obtain ⟨y, fy, rfl, fr2, hc2⟩ := append_chunk_fresh h2
        have hly : (aa.chain ++ [y]).getLast? = some y := by simp
        simp only [bump, hly, Res.ok.injEq, Prod.mk.injEq] at h
        obtain ⟨rfl, rfl, rfl⟩ := h
        refine ⟨aa.chain, y, ?_, rfl, fr2, ?_⟩
        · simp [bumped]
        · exact Or.inr (Or.inr (Or.inr ⟨rfl, ⟨old, hold, hshort⟩, fy, hc2⟩))
    · rw [if_neg hshort] at h
      simp only [bump, hold, Res.ok.injEq, Prod.mk.injEq] at h
      obtain ⟨rfl, rfl, rfl⟩ := h
      refine ⟨aa.chain.dropLast, old, ?_, rfl, world_frame_refl w, ?_⟩
      · simp [bumped]
      · refine Or.inl ⟨?_, hshort, rfl⟩
        have := List.dropLast_append_getLast? old (by simpa using hold)
        exact this.symm

theorem warnings_append (a b : List Event) : warnings (a ++ b) = warnings a + warnings b := by
  simp [warnings, List.countP_append]

theorem warnings_trace_ok {w w1 : World} (h : trace_ok w w1) :
    warnings w1.trace = warnings w.trace := by
  obtain ⟨evs, e, hl⟩ := h
  rw [e, warnings_append]
  have : warnings evs = 0 := by
    unfold warnings
    rw [List.countP_eq_zero]
    intro ev hev
    have := (hl ev hev).1
    cases ev <;> simp_all [Event.is_locale, Event.is_warning]
  omega

theorem backpressure_latch (env : Env) (hq : env.keeps_latch) (y : Bool) (s : State) :
    (backpressure env y s).w.shared_pool_max_exceeded = s.w.shared_pool_max_exceeded ∧
    (backpressure env y s).w.FLAGS_shared_pool_max_size = s.w.FLAGS_shared_pool_max_size ∧
    warnings (backpressure env y s).w.trace = warnings s.w.trace := by
  unfold backpressure
  simp only []
  refine ⟨?_, ?_, ?_⟩
  · rw [(hq _).2.2.1]
    simp only []
    rw [(hq _).1]
    split_ifs <;> rfl
  · rw [(hq _).2.2.2]
    simp only []
    rw [(hq _).2.1]
    split_ifs <;> rfl
  · rw [warnings_append, warnings_append]
    split_ifs <;> simp [warnings, Event.is_warning]

/-- One returning call on a pool whose buckets are empty: it carves, and it sets the latch and
warns exactly when the latch was clear and the counter is above the maximum on return. -/
theorem alloc_fresh_step (c : Consts) (env : Env) (hst : env.single_task)
    (hq : env.keeps_latch) :
    ∀ (fuel : Nat) (y : Bool) (s : State) (p : Nat) (s1 : State),
      all_empty s.apa → alloc_loop c env fuel y s = Outcome.returned p s1 →
      all_empty s1.apa ∧
      s1.w.FLAGS_shared_pool_max_size = s.w.FLAGS_shared_pool_max_size ∧
      (s1.w.shared_pool_max_exceeded = true ↔
        (s.w.shared_pool_max_exceeded = true ∨
          s1.w.shared_pool_total_allocated > s.w.FLAGS_shared_pool_max_size)) ∧
      warnings s1.w.trace = warnings s.w.trace +
        (if s.w.shared_pool_max_exceeded = false ∧
            s1.w.shared_pool_total_allocated > s.w.FLAGS_shared_pool_max_size then 1 else 0) := by
  intro fuel
  induction fuel with
  | zero => intro y s p s1 _ h; simp [alloc_loop] at h
  | succ n ih =>
    intro y s p s1 hempty h
    have hp := alloc_pass_all_empty c env y s hempty
    simp only [alloc_loop, hp] at h
    split_ifs at h with hm
    · simp only [] at h
      rcases carve_cases c env s with ⟨q, aa1, w1, w2, ha, -, hc, hw⟩ | ⟨w1, -, -, hc⟩
      · rw [hc] at h
        simp only [Outcome.returned.injEq] at h
        obtain ⟨rfl, rfl⟩ := h
        obtain ⟨pre, last, -, -, ⟨f1, f2, -, -, ft⟩, -⟩ := aligned_allocator_alloc_ok ha
        have hwt := warnings_trace_ok ft
        simp only []
        rcases hw with ⟨hn, rfl⟩ | ⟨g1, g2, rfl⟩
        · -- no warning: the counter is not above the maximum, or the latch is set
          rw [f1, f2] at hn
          refine ⟨hempty, f2, ?_, ?_⟩
          · rw [f1]
            constructor
            · exact fun h => Or.inl h
            · rintro (h | h)
              · exact h
              · cases hl : s.w.shared_pool_max_exceeded with
                | true => rfl
                | false => exact absurd ⟨h, hl⟩ hn
          · rw [hwt, if_neg (fun h => hn ⟨h.2, h.1⟩)]
            rfl
        · simp only []
          rw [f1] at g2
          rw [f2] at g1
          refine ⟨hempty, f2, ?_, ?_⟩
          · simp [g1]
          · rw [warnings_append, hwt, if_pos ⟨g2, g1⟩]
            simp [warnings, Event.is_warning]
      · rw [hc] at h
        exact Outcome.noConfusion h
    · simp only [] at h
      have hb := backpressure_apa env hst y s
      obtain ⟨l1, l2, l3⟩ := backpressure_latch env hq y s
      have hempty2 : all_empty (backpressure env y s).apa := by rw [hb]; exact hempty
      obtain ⟨a1, a2, a3, a4⟩ := ih true _ p s1 hempty2 h
      rw [l1, l2] at a3
      rw [l1, l2, l3] at a4
      exact ⟨a1, a2.trans l2, a3, a4⟩

theorem after_allocs_zero (c : Consts) (env : Env) (fuel : Nat) (s : State) :
    after_allocs c env fuel 0 s = some s := rfl

theorem after_allocs_succ (c : Consts) (env : Env) (fuel : Nat) (n : Nat) (s : State) :
    after_allocs c env fuel (n + 1) s =
      match aligned_pool_allocator_alloc c env fuel s with
      | Outcome.returned _ s1 => after_allocs c env fuel n s1
      | _ => none := by
  simp only [after_allocs, List.replicate_succ, run_ops]
  cases aligned_pool_allocator_alloc c env fuel s <;> rfl

/-- The latch over a run of fresh allocations, from any initial value of the latch. -/
theorem latch_over_run (c : Consts) (env : Env) (fuel : Nat) (hst : env.single_task)
    (hq : env.keeps_latch) :
    ∀ (n : Nat) (s sn : State), all_empty s.apa → after_allocs c env fuel n s = some sn →
      sn.w.FLAGS_shared_pool_max_size = s.w.FLAGS_shared_pool_max_size ∧
      (sn.w.shared_pool_max_exceeded = true ↔
        (s.w.shared_pool_max_exceeded = true ∨
          ∃ k sk, 1 ≤ k ∧ k ≤ n ∧ after_allocs c env fuel k s = some sk ∧
            sk.w.shared_pool_total_allocated > s.w.FLAGS_shared_pool_max_size)) ∧
      warnings sn.w.trace = warnings s.w.trace +
        (if s.w.shared_pool_max_exceeded = false ∧ sn.w.shared_pool_max_exceeded = true
          then 1 else 0) := by
  intro n
  induction n with
  | zero =>
    intro s sn _ h
    rw [after_allocs_zero] at h
    injection h with h
    subst h
    refine ⟨rfl, ?_, ?_⟩
    · constructor
      · exact fun h => Or.inl h
      · rintro (h | ⟨k, sk, h1, h2, -⟩)
        · exact h
        · omega
    · have : ¬ (s.w.shared_pool_max_exceeded = false ∧ s.w.shared_pool_max_exceeded = true) := by
        rintro ⟨h1, h2⟩
        rw [h1] at h2
        exact Bool.noConfusion h2
      rw [if_neg this]
      rfl
  | succ n ih =>
    intro s sn hempty h
    rw [after_allocs_succ] at h
    cases ho : aligned_pool_allocator_alloc c env fuel s with
    | returned p s1 =>
      rw [ho] at h
      simp only [] at h
      obtain ⟨e1, e2, e3, e4⟩ := alloc_fresh_step c env hst hq fuel false s p s1 hempty ho
      obtain ⟨i1, i2, i3⟩ := ih s1 sn e1 h
      have hk : ∀ k, after_allocs c env fuel (k + 1) s = after_allocs c env fuel k s1 := by
        intro k
        rw [after_allocs_succ, ho]
      refine ⟨i1.trans e2, ?_, ?_⟩
      · rw [i2, e3, e2]
        constructor
        · rintro ((h | h) | ⟨k, sk, h1, h2, h3, h4⟩)
          · exact Or.inl h
          · exact Or.inr ⟨1, s1, le_refl 1, by omega, by rw [hk, after_allocs_zero], h⟩
          · exact Or.inr ⟨k + 1, sk, by omega, by omega, by rw [hk]; exact h3, h4⟩
        · rintro (h | ⟨k, sk, h1, h2, h3, h4⟩)
          · exact Or.inl (Or.inl h)
          · obtain ⟨k, rfl⟩ : ∃ j, k = j + 1 := ⟨k - 1, by omega⟩
            rw [hk] at h3
            rcases Nat.eq_zero_or_pos k with rfl | hpos
            · rw [after_allocs_zero] at h3
              injection h3 with h3
              subst h3
              exact Or.inl (Or.inr h4)
            · exact Or.inr ⟨k, sk, hpos, by omega, h3, h4⟩
      · rw [i3, e4]
        -- the warning is counted once, in the step that sets the latch
        cases hl : s.w.shared_pool_max_exceeded with
        | true =>
          have h1 : s1.w.shared_pool_max_exceeded = true := e3.2 (Or.inl hl)
          simp [h1]
        | false =>
          by_cases hgt : s1.w.shared_pool_total_allocated > s.w.FLAGS_shared_pool_max_size
          · have h1 : s1.w.shared_pool_max_exceeded = true := e3.2 (Or.inr hgt)
            have hn : sn.w.shared_pool_max_exceeded = true := i2.2 (Or.inl h1)
            simp [h1, hgt, hn]
          · have h1 : s1.w.shared_pool_max_exceeded = false := by
              cases h1 : s1.w.shared_pool_max_exceeded with
              | false => rfl
              | true =>
                rcases e3.1 h1 with h | h
                · rw [hl] at h; exact Bool.noConfusion h
                · exact absurd h hgt
            simp [h1, hgt]
    | aborted w1 => rw [ho] at h; simp at h
    | undefined w1 => rw [ho] at h; simp at h
    | out_of_fuel s2 => rw [ho] at h; simp at h

theorem WORD_pos : 0 < WORD := by unfold WORD; norm_num

theorem u64_of_lt {x : Nat} (h : x < WORD) : u64 x = x := Nat.mod_eq_of_lt h

theorem u64_sub_of_le {a b : Nat} (h1 : b ≤ a) (h2 : a < WORD) : u64_sub a b = a - b := by
  unfold u64_sub
  rw [Nat.mod_eq_of_lt h2, Nat.mod_eq_of_lt (lt_of_le_of_lt h1 h2)]
  have : a + WORD - b = (a - b) + WORD := by omega
  rw [this, Nat.add_mod_right]
  exact Nat.mod_eq_of_lt (by omega)

theorem exact_round_bounds (x y : Nat) (hy : 1 ≤ y) :
    x ≤ exact_round x y ∧ exact_round x y < x + y := by
  unfold exact_round
  have h1 := Nat.mod_lt x (show 0 < y by omega)
  have h2 := Nat.mod_le x y
  generalize x % y = r at *
  split_ifs with h <;> omega

theorem ALIGN_UP_eq_exact {x y : Nat} (h : exact_round x y < WORD) :
    ALIGN_UP x y = exact_round x y := by
  unfold ALIGN_UP exact_round at *
  split_ifs at h ⊢ with h0
  · rfl
  · exact u64_of_lt h

/-- The alignment padding of a buffer that lies inside the address space is below the
alignment. -/
theorem padding_lt {chunk a : Nat} (ha : 1 ≤ a) (h : chunk + a < WORD) :
    u64_sub (ALIGN_UP chunk a) chunk < a := by
  have hb := exact_round_bounds chunk a ha
  rw [ALIGN_UP_eq_exact (by omega), u64_sub_of_le hb.1 (by omega)]
  omega

theorem u64_mod_of_dvd {a : Nat} (ha : a ∣ WORD) (x : Nat) : u64 x % a = x % a :=
  Nat.mod_mod_of_dvd x ha

theorem pow_two_dvd_WORD {k : Nat} (hk : k < 64) : 2 ^ k ∣ WORD := by
  unfold WORD
  exact pow_dvd_pow 2 (by omega)

theorem ALIGN_UP_mod {a : Nat} (ha : a ∣ WORD) (x : Nat) : ALIGN_UP x a % a = 0 := by
  unfold ALIGN_UP
  split_ifs with h
  · exact h
  · rw [u64_mod_of_dvd ha]
    have h2 := Nat.mod_le x a
    have h3 : x - x % a = a * (x / a) := by
      have := Nat.div_add_mod x a
      omega
    rw [h3]
    simp

/-- The cursor of a fresh chunk is aligned, whatever the address of its buffer. -/
theorem padding_aligned {a : Nat} (ha : a ∣ WORD) (chunk : Nat) :
    (chunk + u64_sub (ALIGN_UP chunk a) chunk) % a = 0 := by
  have hA := ALIGN_UP_mod ha chunk
  generalize ALIGN_UP chunk a = A at hA
  unfold u64_sub
  have hW := WORD_pos
  rw [Nat.add_mod, Nat.mod_mod_of_dvd _ ha, ← Nat.add_mod]
  have h1 := Nat.mod_lt chunk hW
  have h2 := Nat.div_add_mod chunk WORD
  have h3 : chunk + (A % WORD + WORD - chunk % WORD) = WORD * (chunk / WORD) + A % WORD + WORD := by
    omega
  rw [h3]
  have d1 : a ∣ WORD * (chunk / WORD) := Dvd.dvd.mul_right ha _
  have d2 : a ∣ A % WORD := by
    apply Nat.dvd_of_mod_eq_zero
    rw [Nat.mod_mod_of_dvd _ ha]
    exact hA
  exact Nat.mod_eq_zero_of_dvd (Nat.dvd_add (Nat.dvd_add d1 d2) ha)

/-- A bump by a multiple of the alignment keeps the cursor aligned. -/
theorem bump_aligned {a : Nat} (ha : a ∣ WORD) (chunk offset rs : Nat)
    (h1 : (chunk + offset) % a = 0) (h2 : rs % a = 0) :
    (chunk + u64 (offset + rs)) % a = 0 := by
  rw [Nat.add_mod, u64_mod_of_dvd ha, ← Nat.add_mod, ← Nat.add_assoc, Nat.add_mod, h1, h2]
  simp

/-- One successful call keeps every cursor aligned and returns an aligned pointer. -/
theorem alloc_aligned_step {c : Consts} {env : Env} {aa aa2 : aligned_allocator}
    {size p : Nat} {w w2 : World} (ha : aa.align_on ∣ WORD)
    (hinv : aligned_chain aa.align_on aa.chain)
    (h : aligned_allocator_alloc c env aa size w = Res.ok (p, aa2, w2)) :
    p % aa.align_on = 0 ∧ aa2.align_on = aa.align_on ∧ aa2.chunk_size = aa.chunk_size ∧
      aligned_chain aa.align_on aa2.chain := by
  obtain ⟨pre, last, rfl, rfl, -, hcase⟩ := aligned_allocator_alloc_ok h
  have hrs : ALIGN_UP size aa.align_on % aa.align_on = 0 := ALIGN_UP_mod ha size
  have hfresh : ∀ ch, fresh_chunk env w w2 aa (ALIGN_UP size aa.align_on) ch →
      (ch.chunk + ch.offset) % aa.align_on = 0 := by
    intro ch hf
    rw [hf.2.2.1]
    exact padding_aligned ha ch.chunk
  -- every chunk before the bump has an aligned cursor
  have hall : ∀ ch ∈ pre ++ [last], (ch.chunk + ch.offset) % aa.align_on = 0 := by
    rcases hcase with ⟨e, -, -⟩ | ⟨-, rfl, f, -, -⟩ | ⟨-, x, rfl, fx, -, f, -⟩ | ⟨e, -, f, -⟩
    · rw [← e]; exact hinv
    · intro ch hch
      simp only [List.nil_append, List.mem_singleton] at hch
      subst hch
      exact hfresh _ f
    · intro ch hch
      simp only [List.singleton_append, List.mem_cons, List.mem_singleton, List.not_mem_nil,
        or_false] at hch
      rcases hch with rfl | rfl
      · exact hfresh _ fx
      · exact hfresh _ f
    · intro ch hch
      rcases List.mem_append.1 hch with h1 | h1
      · exact hinv ch (e ▸ h1)
      · simp only [List.mem_singleton] at h1
        subst h1
        exact hfresh _ f
  have hlast := hall last (by simp)
  refine ⟨?_, rfl, rfl, ?_⟩
  · rw [u64_mod_of_dvd ha]
    exact hlast
  · intro ch hch
    simp only [] at hch
    rcases List.mem_append.1 hch with h1 | h1
    · exact hall ch (List.mem_append.2 (Or.inl h1))
    · simp only [List.mem_singleton] at h1
      subst h1
      simp only [bumped]
      exact bump_aligned ha _ _ _ hlast hrs

/-- Alignment of every pointer returned by a sequence of calls. -/
theorem alloc_seq_aligned (c : Consts) (env : Env) (a : Nat) (ha : a ∣ WORD) :
    ∀ (sizes : List Nat) (aa : aligned_allocator) (w : World),
      aa.align_on = a → aligned_chain a aa.chain →
      ∀ sv ∈ (alloc_seq c env sizes aa w).1, sv.ptr % a = 0 := by
  intro sizes
  induction sizes with
  | nil => intro aa w _ _ sv hsv; simp [alloc_seq] at hsv
  | cons size rest ih =>
    intro aa w hal hinv sv hsv
    simp only [alloc_seq] at hsv
    cases hr : aligned_allocator_alloc c env aa size w with
    | ok r =>
      obtain ⟨p, aa1, w1⟩ := r
      rw [hr] at hsv
      simp only [List.mem_cons] at hsv
      subst hal
      obtain ⟨h1, h2, -, h4⟩ := alloc_aligned_step ha hinv hr
      rcases hsv with rfl | hsv
      · exact h1
      · exact ih aa1 w1 h2 h4 sv hsv
    | abort w1 => rw [hr] at hsv; simp at hsv
    | undefined w1 => rw [hr] at hsv; simp at hsv

/-- A fresh chunk for a request that does not wrap: its size is exact, its padding is below
the alignment, it lies inside the address space and it has room for the request. -/
theorem fresh_chunk_sane {env : Env} {w w2 : World} {aa : aligned_allocator} {size : Nat}
    {ch : memory_chunk}
    (ha : 1 ≤ aa.align_on) (hnw : no_wrap aa size) (henv : env.in_address_space)
    (hf : fresh_chunk env w w2 aa (exact_round size aa.align_on) ch) :
    ch.chunk_size = max (exact_round size aa.align_on) aa.chunk_size + aa.align_on ∧
    ch.offset < aa.align_on ∧ ch.chunk + ch.chunk_size < WORD ∧
    ch.offset + exact_round size aa.align_on < ch.chunk_size ∧
    ¬ remaining ch < exact_round size aa.align_on := by
  obtain ⟨h1, h2, h3, ⟨tr, al, -, h4⟩, -⟩ := hf
  unfold no_wrap at hnw
  rw [u64_of_lt hnw] at h2
  have h5 : ch.chunk + ch.chunk_size < WORD := by
    have := henv tr al ch.chunk_size (by rw [← h4]; exact h1)
    rw [← h4] at this
    exact this
  have h6 : ch.offset < aa.align_on := by
    rw [h3]
    apply padding_lt ha
    have : aa.align_on ≤ ch.chunk_size := by rw [h2]; omega
    omega
  have h7 : exact_round size aa.align_on ≤ max (exact_round size aa.align_on) aa.chunk_size :=
    le_max_left _ _
  refine ⟨h2, h6, h5, by omega, ?_⟩
  unfold remaining
  rw [u64_sub_of_le (by omega) (by omega)]
  omega

/-- The successful calls of `aligned_allocator_alloc` when nothing wraps: the pointer is the
cursor of the tail, the bump stays inside the tail, and the tail is either the old tail or
one fresh chunk (never two). -/
theorem aligned_allocator_alloc_sane {c : Consts} {env : Env} {aa aa2 : aligned_allocator}
    {size p : Nat} {w w2 : World}
    (ha : 1 ≤ aa.align_on) (hnw : no_wrap aa size) (henv : env.in_address_space)
    (hinv : chain_ok aa.chain)
    (h : aligned_allocator_alloc c env aa size w = Res.ok (p, aa2, w2)) :
    ∃ (pre : List memory_chunk) (last : memory_chunk),
      aa2 = { aa with chain := pre ++
        [{ last with offset := last.offset + exact_round size aa.align_on }] } ∧
      p = last.chunk + last.offset ∧
      ALIGN_UP size aa.align_on = exact_round size aa.align_on ∧
      last.chunk ≠ 0 ∧
      last.offset + exact_round size aa.align_on ≤ last.chunk_size ∧
      last.chunk + last.chunk_size < WORD ∧
      chain_ok pre ∧ world_frame w w2 ∧
      ((aa.chain = pre ++ [last] ∧ w2 = w) ∨
       (aa.chain = pre ∧ fresh_chunk env w w2 aa (exact_round size aa.align_on) last ∧
          w2.chunkallocator_append = w.chunkallocator_append + 1)) := by
  have hrs : ALIGN_UP size aa.align_on = exact_round size aa.align_on := by
    apply ALIGN_UP_eq_exact
    unfold no_wrap at hnw
    have : exact_round size aa.align_on ≤ max (exact_round size aa.align_on) aa.chunk_size :=
      le_max_left _ _
    omega
  obtain ⟨pre, last, e2, ep, fr, hcase⟩ := aligned_allocator_alloc_ok h
  rw [hrs] at e2 hcase
  -- the bump does not wrap
  have fin : ∀ (pre : List memory_chunk) (last : memory_chunk),
      aa2 = { aa with chain := pre ++ [bumped last (exact_round size aa.align_on)] } →
      p = u64 (last.chunk + last.offset) →
      last.chunk ≠ 0 → last.offset + exact_round size aa.align_on ≤ last.chunk_size →
      last.chunk + last.chunk_size < WORD →
      aa2 = { aa with chain := pre ++
        [{ last with offset := last.offset + exact_round size aa.align_on }] } ∧
      p = last.chunk + last.offset := by
    intro pre last e2 ep h1 h2 h3
    refine ⟨?_, ?_⟩
    · rw [e2]
      simp only [bumped]
      rw [u64_of_lt (by omega)]
    · rw [ep]
      exact u64_of_lt (by omega)
  rcases hcase with ⟨e, hroom, rfl⟩ | ⟨e, rfl, f, -, hc⟩ | ⟨-, x, rfl, fx, hshort, -, -⟩ |
    ⟨e, -, f, hc⟩
  · -- no append
    have hl := hinv last (by rw [e]; simp)
    have hpre : chain_ok pre := fun ch hch => hinv ch (by rw [e]; simp [hch])
    have hroom2 : last.offset + exact_round size aa.align_on ≤ last.chunk_size := by
      unfold remaining at hroom
      rw [u64_sub_of_le hl.2.1 (by omega)] at hroom
      omega
    obtain ⟨g1, g2⟩ := fin pre last e2 ep hl.1 hroom2 hl.2.2
    exact ⟨pre, last, g1, g2, hrs, hl.1, hroom2, hl.2.2, hpre, fr, Or.inl ⟨e, rfl⟩⟩
  · -- one append on an empty chain
    obtain ⟨s1, s2, s3, s4, -⟩ := fresh_chunk_sane ha hnw henv f
    obtain ⟨g1, g2⟩ := fin [] last e2 ep f.1 (by omega) s3
    exact ⟨[], last, g1, g2, hrs, f.1, by omega, s3, by intro ch hch; simp at hch, fr,
      Or.inr ⟨e, f, hc⟩⟩
  · -- two appends: impossible, a fresh chunk has room
    exact absurd hshort (fresh_chunk_sane ha hnw henv fx).2.2.2.2
  · -- one append behind a short tail
    obtain ⟨s1, s2, s3, s4, -⟩ := fresh_chunk_sane ha hnw henv f
    obtain ⟨g1, g2⟩ := fin pre last e2 ep f.1 (by omega) s3
    exact ⟨pre, last, g1, g2, hrs, f.1, by omega, s3, by rw [← e]; exact hinv, fr,
      Or.inr ⟨e, f, hc⟩⟩

/-- One successful call keeps `chain_ok`. -/
theorem alloc_chain_ok_step {c : Consts} {env : Env} {aa aa2 : aligned_allocator}
    {size p : Nat} {w w2 : World}
    (ha : 1 ≤ aa.align_on) (hnw : no_wrap aa size) (henv : env.in_address_space)
    (hinv : chain_ok aa.chain)
    (h : aligned_allocator_alloc c env aa size w = Res.ok (p, aa2, w2)) :
    chain_ok aa2.chain ∧ aa2.align_on = aa.align_on ∧ aa2.chunk_size = aa.chunk_size := by
  obtain ⟨pre, last, rfl, -, -, h1, h2, h3, h4, -, -⟩ :=
    aligned_allocator_alloc_sane ha hnw henv hinv h
  refine ⟨?_, rfl, rfl⟩
  intro ch hch
  simp only [] at hch
  rcases List.mem_append.1 hch with g | g
  · exact h4 ch g
  · simp only [List.mem_singleton] at g
    subst g
    exact ⟨h1, h2, h3⟩

theorem chain_le_refl (l : List memory_chunk) : chain_le l l :=
  fun _ ch h => ⟨ch, h, rfl, rfl, le_refl _⟩

theorem chain_le_trans {l1 l2 l3 : List memory_chunk} (h1 : chain_le l1 l2)
    (h2 : chain_le l2 l3) : chain_le l1 l3 := by
  intro i ch h
  obtain ⟨ch2, e2, a2, b2, c2⟩ := h1 i ch h
  obtain ⟨ch3, e3, a3, b3, c3⟩ := h2 i ch2 e2
  exact ⟨ch3, e3, a3.trans a2, b3.trans b2, le_trans c2 c3⟩

theorem chain_le_bump (pre : List memory_chunk) (last : memory_chunk) (n : Nat) :
    chain_le (pre ++ [last]) (pre ++ [{ last with offset := last.offset + n }]) := by
  intro i ch h
  by_cases hi : i < pre.length
  · rw [List.getElem?_append_left hi] at h ⊢
    exact ⟨ch, h, rfl, rfl, le_refl _⟩
  · rw [List.getElem?_append_right (by omega)] at h ⊢
    cases hj : i - pre.length with
    | zero =>
      rw [hj] at h
      simp only [List.getElem?_cons_zero, Option.some.injEq] at h
      subst h
      exact ⟨_, rfl, rfl, rfl, by simp⟩
    | succ j =>
      rw [hj] at h
      simp at h

theorem chain_le_append (pre : List memory_chunk) (x : memory_chunk) :
    chain_le pre (pre ++ [x]) := by
  intro i ch h
  have hi : i < pre.length := by
    by_contra hc
    rw [List.getElem?_eq_none (by omega)] at h
    exact Option.noConfusion h
  rw [List.getElem?_append_left hi]
  exact ⟨ch, h, rfl, rfl, le_refl _⟩

theorem getElem?_append_last (pre : List memory_chunk) (x : memory_chunk) :
    (pre ++ [x])[(pre ++ [x]).length - 1]? = some x := by
  simp

/-- One successful call, positions in the chain: the chain is extended, the served chunk is
the last one, its cursor after the call is the end of the served region. -/
theorem alloc_step_positions {c : Consts} {env : Env} {aa aa2 : aligned_allocator}
    {size p : Nat} {w w2 : World}
    (ha : 1 ≤ aa.align_on) (hnw : no_wrap aa size) (henv : env.in_address_space)
    (hinv : chain_ok aa.chain)
    (h : aligned_allocator_alloc c env aa size w = Res.ok (p, aa2, w2)) :
    chain_le aa.chain aa2.chain ∧
    (∃ ch, aa2.chain[aa2.chain.length - 1]? = some ch ∧ ch.chunk ≤ p ∧
      p + exact_round size aa.align_on = ch.chunk + ch.offset) ∧
    (∀ ch, aa.chain[aa2.chain.length - 1]? = some ch → p = ch.chunk + ch.offset) := by
  obtain ⟨pre, last, rfl, rfl, -, h1, h2, h3, h4, -, hcase⟩ :=
    aligned_allocator_alloc_sane ha hnw henv hinv h
  simp only []
  refine ⟨?_, ⟨_, getElem?_append_last _ _, by simp, by simp only []; omega⟩, ?_⟩
  · rcases hcase with ⟨e, -⟩ | ⟨e, -, -⟩
    · rw [e]; exact chain_le_bump pre last _
    · rw [e]
      exact chain_le_trans (chain_le_append pre last) (chain_le_bump pre last _)
  · intro ch hch
    rcases hcase with ⟨e, -⟩ | ⟨e, -, -⟩
    · rw [e] at hch
      have : (pre ++ [last])[(pre ++ [last]).length - 1]? = some last :=
        getElem?_append_last pre last
      simp only [List.length_append, List.length_singleton] at hch this
      rw [this] at hch
      injection hch with hch
      rw [hch]
    · rw [e] at hch
      simp only [List.length_append, List.length_singleton, Nat.add_sub_cancel] at hch
      rw [List.getElem?_eq_none (le_refl _)] at hch
      exact Option.noConfusion hch

theorem no_wrap_congr {aa aa1 : aligned_allocator} (h1 : aa1.align_on = aa.align_on)
    (h2 : aa1.chunk_size = aa.chunk_size) (size : Nat) : no_wrap aa1 size ↔ no_wrap aa size := by
  unfold no_wrap
  rw [h1, h2]

theorem region_below_cursor_mono {a : Nat} {l1 l2 : List memory_chunk} {sv : Served}
    (h : chain_le l1 l2) (hr : region_below_cursor a l1 sv) : region_below_cursor a l2 sv := by
  obtain ⟨ch, e, h1, h2⟩ := hr
  obtain ⟨ch2, e2, a2, b2, c2⟩ := h _ ch e
  exact ⟨ch2, e2, by omega, by omega⟩

/-- A sequence of calls whose requests do not wrap, from any allocator whose chain is sound:
the chain stays sound and is only extended, every served region lies below the cursor of its
chunk, no served pointer lies below the cursor its chunk had at the start, and regions served
from the same chunk follow each other. -/
theorem alloc_seq_sound (c : Consts) (env : Env) (henv : env.in_address_space) :
    ∀ (sizes : List Nat) (aa : aligned_allocator) (w : World),
      1 ≤ aa.align_on → (∀ size ∈ sizes, no_wrap aa size) → chain_ok aa.chain →
      chain_ok (alloc_seq c env sizes aa w).2.1.chain ∧
      chain_le aa.chain (alloc_seq c env sizes aa w).2.1.chain ∧
      (alloc_seq c env sizes aa w).2.1.align_on = aa.align_on ∧
      (alloc_seq c env sizes aa w).2.1.chunk_size = aa.chunk_size ∧
      (∀ sv ∈ (alloc_seq c env sizes aa w).1,
        region_below_cursor aa.align_on (alloc_seq c env sizes aa w).2.1.chain sv) ∧
      (∀ sv ∈ (alloc_seq c env sizes aa w).1, ∀ ch : memory_chunk,
        aa.chain[sv.chunk_index]? = some ch → ch.chunk + ch.offset ≤ sv.ptr) ∧
      (alloc_seq c env sizes aa w).1.Pairwise no_overlap := by
  intro sizes
  induction sizes with
  | nil =>
    intro aa w _ _ hinv
    simp only [alloc_seq]
    exact ⟨hinv, chain_le_refl _, trivial, trivial, by simp, by simp, List.Pairwise.nil⟩
  | cons size rest ih =>
    intro aa w ha hnw hinv
    simp only [alloc_seq]
    cases hr : aligned_allocator_alloc c env aa size w with
    | abort w1 =>
      simp only []
      exact ⟨hinv, chain_le_refl _, trivial, trivial, by simp, by simp, List.Pairwise.nil⟩
    | undefined w1 =>
      simp only []
      exact ⟨hinv, chain_le_refl _, trivial, trivial, by simp, by simp, List.Pairwise.nil⟩
    | ok r =>
      obtain ⟨p, aa1, w1⟩ := r
      simp only []
      have hnw0 : no_wrap aa size := hnw size (by simp)
      obtain ⟨k1, k2, k3⟩ := alloc_chain_ok_step ha hnw0 henv hinv hr
      obtain ⟨p1, ⟨ch1, p2, p3, p4⟩, p5⟩ := alloc_step_positions ha hnw0 henv hinv hr
      have hnw1 : ∀ s ∈ rest, no_wrap aa1 s := fun s hs =>
        (no_wrap_congr k2 k3 s).2 (hnw s (by simp [hs]))
      obtain ⟨i1, i2, i3, i4, i5, i6, i7⟩ := ih aa1 w1 (by rw [k2]; exact ha) hnw1 k1
      rw [k2] at i5
      refine ⟨i1, chain_le_trans p1 i2, i3.trans k2, i4.trans k3, ?_, ?_, ?_⟩
      · intro sv hsv
        simp only [List.mem_cons] at hsv
        rcases hsv with rfl | hsv
        · exact region_below_cursor_mono i2 ⟨ch1, p2, p3, by simp only []; omega⟩
        · exact i5 sv hsv
      · intro sv hsv ch hch
        simp only [List.mem_cons] at hsv
        rcases hsv with rfl | hsv
        · have := p5 ch hch
          simp only []
          omega
        · obtain ⟨ch2, e2, a2, -, c2⟩ := p1 _ ch hch
          have := i6 sv hsv ch2 e2
          omega
      · rw [List.pairwise_cons]
        refine ⟨?_, i7⟩
        intro sv hsv hidx
        simp only [] at hidx ⊢
        have := i6 sv hsv ch1 (by rw [← hidx]; exact p2)
        have hb := exact_round_bounds size aa.align_on ha
        omega

theorem env_pages_in_address_space : env_pages.in_address_space := by
  intro tr al n h
  simp only [env_pages] at h ⊢
  split_ifs at h ⊢ with hc
  · exact hc
  · exact absurd rfl h

theorem alloc_seq_sizes (c : Consts) (env : Env) :
    ∀ (sizes : List Nat) (aa : aligned_allocator) (w : World),
      ∀ sv ∈ (alloc_seq c env sizes aa w).1, sv.size ∈ sizes := by
  intro sizes
  induction sizes with
  | nil => intro aa w sv hsv; simp [alloc_seq] at hsv
  | cons size rest ih =>
    intro aa w sv hsv
    simp only [alloc_seq] at hsv
    cases hr : aligned_allocator_alloc c env aa size w with
    | ok r =>
      obtain ⟨p, aa1, w1⟩ := r
      rw [hr] at hsv
      simp only [List.mem_cons] at hsv
      rcases hsv with rfl | hsv
      · simp
      · exact List.mem_cons_of_mem _ (ih aa1 w1 sv hsv)
    | abort w1 => rw [hr] at hsv; simp at hsv
    | undefined w1 => rw [hr] at hsv; simp at hsv

theorem backpressure_trace (env : Env) (y : Bool) (s : State) :
    (backpressure env y s).w.trace = s.w.trace ++ [Event.poll, Event.yield] := by
  unfold backpressure
  simp only []
  split_ifs <;> simp

/-- A call that ends (returns, aborts or faults) is decided by one pass, taken in the state
left by the rounds of backpressure that precede it; these rounds only add `poll` and `yield`
events to the trace, and under single-task access they leave the pool as it is. -/
theorem alloc_loop_final_pass (c : Consts) (env : Env) :
    ∀ (fuel : Nat) (y : Bool) (s : State),
      (∃ (s1 : State) (evs : List Event), alloc_loop c env fuel y s = Outcome.out_of_fuel s1 ∧
        s1.w.trace = s.w.trace ++ evs ∧ (∀ e ∈ evs, e.is_backpressure = true)) ∨
      (∃ (y1 : Bool) (s1 : State) (evs : List Event),
        alloc_loop c env fuel y s = alloc_loop c env 1 y1 s1 ∧
        (∀ s2, alloc_pass c env y1 s1 ≠ Pass.blocked s2) ∧
        s1.w.trace = s.w.trace ++ evs ∧ (∀ e ∈ evs, e.is_backpressure = true) ∧
        (env.single_task → s1.apa = s.apa)) := by
  intro fuel
  induction fuel with
  | zero => intro y s; exact Or.inl ⟨s, [], rfl, by simp, by simp⟩
  | succ n ih =>
    intro y s
    cases hp : alloc_pass c env y s with
    | popped p s1 =>
      refine Or.inr ⟨y, s, [], ?_, ?_, by simp, by simp, fun _ => rfl⟩
      · simp only [alloc_loop, hp]
      · intro s2 h; rw [hp] at h; exact Pass.noConfusion h
    | carved o =>
      refine Or.inr ⟨y, s, [], ?_, ?_, by simp, by simp, fun _ => rfl⟩
      · simp only [alloc_loop, hp]
      · intro s2 h; rw [hp] at h; exact Pass.noConfusion h
    | blocked s1 =>
      have hs1 : ∃ apa1, s1 = backpressure env y { s with apa := apa1 } ∧
          (find_free c s.apa).2 = 0 ∧ apa1 = (find_free c s.apa).1 := by
        rw [alloc_pass_eq] at hp
        split_ifs at hp with h0 hm
        · injection hp with hp
          exact ⟨_, hp.symm, h0, rfl⟩
      obtain ⟨apa1, rfl, h0, hapa⟩ := hs1
      have hapa1 : apa1 = s.apa := by
        rcases find_free_spec c s.apa with ⟨-, g⟩ | ⟨g, -⟩
        · rw [hapa, g]
        · exact absurd h0 g
      subst hapa1
      have hloop : alloc_loop c env (n + 1) y s
          = alloc_loop c env n true (backpressure env y s) := by
        simp only [alloc_loop, hp]
      have hbp : ∀ evs : List Event, (∀ e ∈ evs, e.is_backpressure = true) →
          ∀ e ∈ [Event.poll, Event.yield] ++ evs, e.is_backpressure = true := by
        intro evs hevs e he
        rcases List.mem_append.1 he with h | h
        · simp only [List.mem_cons, List.mem_singleton, List.not_mem_nil, or_false] at h
          rcases h with rfl | rfl <;> rfl
        · exact hevs e h
      rcases ih true (backpressure env y s) with
        ⟨s2, evs, h2, h3, h4⟩ | ⟨y1, s2, evs, e1, e2, e3, e4, e5⟩
      · exact Or.inl ⟨s2, [Event.poll, Event.yield] ++ evs, by rw [hloop, h2],
          by rw [h3, backpressure_trace, List.append_assoc], hbp evs h4⟩
      · refine Or.inr ⟨y1, s2, [Event.poll, Event.yield] ++ evs, by rw [hloop, e1], e2, ?_, ?_, ?_⟩
        · rw [e3, backpressure_trace, List.append_assoc]
        · exact hbp evs e4
        · intro hst
          rw [e5 hst, backpressure_apa env hst]

/-- The outcome of a pass that is not blocked, with its trace: a pop adds nothing to the
trace; a carve adds successful node-local allocations (and possibly the warning) when it
returns, and a failed allocation when it aborts.  A null pointer is never dereferenced. -/
theorem alloc_loop_one_pass (c : Consts) (env : Env) (y : Bool) (s : State)
    (hnb : ∀ s2, alloc_pass c env y s ≠ Pass.blocked s2) :
    (∃ p s1, alloc_loop c env 1 y s = Outcome.returned p s1 ∧
      ∃ evs, s1.w.trace = s.w.trace ++ evs ∧ ∀ e ∈ evs, e.failed = false ∧
        e.is_backpressure = false) ∨
    (∃ w1, alloc_loop c env 1 y s = Outcome.aborted w1 ∧
      ∃ evs, w1.trace = s.w.trace ++ evs ∧ (∀ e ∈ evs, e.is_backpressure = false) ∧
        ∃ e ∈ evs, e.failed = true) := by
  simp only [alloc_loop]
  rcases alloc_pass_cases c env y s with ⟨p, s2, e, -, ht⟩ | ⟨apa1, e, -⟩ | ⟨apa1, e, -⟩
  · rw [e]
    exact Or.inl ⟨p, s2, rfl, [], by simp [ht], by simp⟩
  · rw [e]
    simp only []
    rcases carve_cases c env { s with apa := apa1 } with
      ⟨p, aa1, w1, w2, -, ⟨evs, ht, hl⟩, hc, hw⟩ | ⟨w1, -, ⟨evs, ht, hl, hf⟩, hc⟩
    · rw [hc]
      refine Or.inl ⟨_, _, rfl, ?_⟩
      have hev : ∀ e ∈ evs, e.failed = false ∧ e.is_backpressure = false := by
        intro e he
        obtain ⟨h1, h2⟩ := hl e he
        refine ⟨h2, ?_⟩
        cases e <;> simp_all [Event.is_locale, Event.is_backpressure]
      rcases hw with ⟨-, rfl⟩ | ⟨-, -, rfl⟩
      · exact ⟨evs, ht, hev⟩
      · refine ⟨evs ++ [Event.log_warning w1.shared_pool_total_allocated
          w1.FLAGS_shared_pool_max_size], by simp [ht], ?_⟩
        intro e he
        rcases List.mem_append.1 he with h | h
        · exact hev e h
        · simp only [List.mem_singleton] at h
          subst h
          exact ⟨rfl, rfl⟩
    · rw [hc]
      refine Or.inr ⟨_, rfl, evs, ht, ?_, hf⟩
      intro e he
      have := hl e he
      cases e <;> simp_all [Event.is_locale, Event.is_backpressure]
  · exact absurd e (hnb _)

theorem init_ok {c : Consts} {env : Env} {align object_size chunk_count : Nat} {w : World}
    {s0 : State}
    (h : aligned_pool_allocator_init c env align object_size chunk_count w = Res.ok s0) :
    s0.apa.aa = aligned_allocator_init align (u64 (max object_size c.sizeof_pointer * chunk_count))
    ∧ s0.apa.object_size = max object_size c.sizeof_pointer
    ∧ s0.apa.allocated_objects = 0 ∧ s0.apa.newly_allocated_objects = 0
    ∧ s0.apa.first_index = 0
    ∧ s0.apa.firsts = List.replicate c.ALLOCATOR_PREFETCH_DISTANCE 0 := by
  unfold aligned_pool_allocator_init locale_call at h
  simp only [] at h
  split_ifs at h with h0
  injection h with h
  subst h
  exact ⟨rfl, rfl, rfl, rfl, rfl, rfl⟩

/-- A returning call on a pool whose buckets are empty is a carve: a call of the ChunkSource
in a world whose history extends the history at the start of the call. -/
theorem alloc_loop_carved (c : Consts) (env : Env) (hst : env.single_task) (fuel : Nat)
    (y : Bool) (s : State) (hempty : all_empty s.apa) (p : Nat) (s1 : State)
    (h : alloc_loop c env fuel y s = Outcome.returned p s1) :
    ∃ (w0 : World) (aa1 : aligned_allocator) (w1 : World),
      (∀ e ∈ s.w.trace, e ∈ w0.trace) ∧
      aligned_allocator_alloc c env s.apa.aa s.apa.object_size w0 = Res.ok (p, aa1, w1) ∧
      s1.apa = { s.apa with
        newly_allocated_objects := s.apa.newly_allocated_objects + 1, aa := aa1 } ∧
      (∀ e ∈ w1.trace, e ∈ s1.w.trace) := by
  rcases alloc_loop_final_pass c env fuel y s with
    ⟨s2, evs, h2, -⟩ | ⟨y1, s2, evs, e1, -, e3, -, e5⟩
  · rw [h2] at h
    exact Outcome.noConfusion h
  · rw [e1] at h
    have hapa := e5 hst
    have hempty2 : all_empty s2.apa := by rw [hapa]; exact hempty
    simp only [alloc_loop, alloc_pass_all_empty c env y1 s2 hempty2] at h
    split_ifs at h with hm
    · simp only [] at h
      rcases carve_cases c env s2 with ⟨q, aa1, w1, w2, ha, -, hc, hw⟩ | ⟨w1, -, -, hc⟩
      · rw [hc] at h
        simp only [Outcome.returned.injEq] at h
        obtain ⟨rfl, rfl⟩ := h
        rw [hapa] at ha
        refine ⟨s2.w, aa1, w1, ?_, ha, by simp only []; rw [hapa], ?_⟩
        · intro e he
          rw [e3]
          exact List.mem_append.2 (Or.inl he)
        · intro e he
          rcases hw with ⟨-, rfl⟩ | ⟨-, -, rfl⟩
          · exact he
          · exact List.mem_append.2 (Or.inl he)
      · rw [hc] at h
        exact Outcome.noConfusion h

theorem exact_round_pos {x y : Nat} (hx : 1 ≤ x) (hy : 1 ≤ y) : 1 ≤ exact_round x y :=
  le_trans hx (exact_round_bounds x y hy).1

/-- One carve keeps the invariant of carving and yields an object that is non-null and was not
carved before. -/
theorem carve_inv_step (c : Consts) (env : Env) (henv : env.in_address_space)
    (hfresh : env.fresh) (hst : env.single_task) (fuel : Nat) (y : Bool) (s : State)
    (H : List Nat) (hinv : carve_inv s H) (hempty : all_empty s.apa) (p : Nat) (s1 : State)
    (h : alloc_loop c env fuel y s = Outcome.returned p s1) :
    carve_inv s1 (H ++ [p]) ∧ p ≠ 0 ∧ all_empty s1.apa ∧
      s1.apa.firsts = s.apa.firsts ∧ s1.apa.first_index = s.apa.first_index ∧
      s1.apa.newly_allocated_objects = s.apa.newly_allocated_objects + 1 ∧
      s1.apa.allocated_objects = s.apa.allocated_objects := by
  obtain ⟨⟨k1, k2, k3⟩, hos, hdis, hev, hH, hnd⟩ := hinv
  obtain ⟨w0, aa1, w1, t0, ha, hs1, t1⟩ := alloc_loop_carved c env hst fuel y s hempty p s1 h
  obtain ⟨pre, last, rfl, rfl, -, g1, g2, g3, g4, fr, hcase⟩ :=
    aligned_allocator_alloc_sane k2 k3 henv k1 ha
  have hrs := exact_round_pos hos k2
  -- facts about the chain before the bump
  have hpre_sub : ∀ ch ∈ pre, ch ∈ s.apa.aa.chain := by
    intro ch hch
    rcases hcase with ⟨e, -⟩ | ⟨e, -, -⟩
    · rw [e]; exact List.mem_append.2 (Or.inl hch)
    · rw [e]; exact hch
  have hpre_last : ∀ ch ∈ pre, disjoint_chunks ch last := by
    intro ch hch
    rcases hcase with ⟨e, -⟩ | ⟨e, f, -⟩
    · rw [e, List.pairwise_append] at hdis
      exact hdis.2.2 ch hch last (by simp)
    · obtain ⟨-, -, -, ⟨tr, al, hsub, hb⟩, -⟩ := f
      have hmem : Event.locale_alloc ch.chunk_size ch.chunk ∈ tr :=
        hsub _ (t0 _ (hev ch (hpre_sub ch hch)))
      have hne : env.locale_alloc_aligned tr al last.chunk_size ≠ 0 := by rw [← hb]; exact g1
      have := hfresh tr al last.chunk_size hne ch.chunk_size ch.chunk hmem
        (k1 ch (hpre_sub ch hch)).1
      rw [← hb] at this
      unfold disjoint_chunks
      omega
  have hpre_pair : pre.Pairwise disjoint_chunks := by
    rcases hcase with ⟨e, -⟩ | ⟨e, -, -⟩
    · rw [e, List.pairwise_append] at hdis
      exact hdis.1
    · rw [← e]; exact hdis
  have hold : ∀ ch ∈ s.apa.aa.chain, ch ∈ pre ∨ (ch = last ∧ s.apa.aa.chain = pre ++ [last]) := by
    intro ch hch
    rcases hcase with ⟨e, -⟩ | ⟨e, -, -⟩
    · rw [e] at hch
      rcases List.mem_append.1 hch with g | g
      · exact Or.inl g
      · simp only [List.mem_singleton] at g
        exact Or.inr ⟨g, e⟩
    · rw [e] at hch
      exact Or.inl hch
  -- the new object is not below any old cursor
  have hnew : (last.chunk + last.offset) ∉ H := by
    intro hp
    obtain ⟨ch, hch, b1, b2⟩ := hH _ hp
    rcases hold ch hch with g | ⟨rfl, -⟩
    · have := hpre_last ch g
      have := (k1 ch hch).2.1
      unfold disjoint_chunks at *
      omega
    · omega
  unfold carve_inv pool_ok
  rw [hs1]
  refine ⟨⟨⟨?_, k2, ?_⟩, hos, ?_, ?_, ?_, ?_⟩, by omega, hempty, rfl, rfl, rfl, rfl⟩
  · -- chain_ok
    intro ch hch
    simp only [] at hch
    rcases List.mem_append.1 hch with g | g
    · exact g4 ch g
    · simp only [List.mem_singleton] at g
      subst g
      exact ⟨g1, g2, g3⟩
  · exact k3
  · -- disjoint buffers
    simp only []
    rw [List.pairwise_append]
    refine ⟨hpre_pair, List.pairwise_singleton _ _, ?_⟩
    intro a ha b hb
    simp only [List.mem_singleton] at hb
    subst hb
    exact hpre_last a ha
  · -- recorded in the history
    intro ch hch
    simp only [] at hch
    rcases List.mem_append.1 hch with g | g
    · exact t1 _ (trace_ok_subset fr.2.2.2.2 _ (t0 _ (hev ch (hpre_sub ch g))))
    · simp only [List.mem_singleton] at g
      subst g
      simp only []
      rcases hcase with ⟨e, rfl⟩ | ⟨e, f, -⟩
      · exact t1 _ (t0 _ (hev last (by rw [e]; simp)))
      · exact t1 _ f.2.2.2.2
  · -- every carved object is below a cursor
    intro q hq
    simp only []
    rcases List.mem_append.1 hq with g | g
    · obtain ⟨ch, hch, b1, b2⟩ := hH q g
      rcases hold ch hch with g2' | ⟨rfl, -⟩
      · exact ⟨ch, List.mem_append.2 (Or.inl g2'), b1, b2⟩
      · exact ⟨_, List.mem_append.2 (Or.inr (List.mem_singleton.2 rfl)), b1,
          by simp only []; omega⟩
    · simp only [List.mem_singleton] at g
      subst g
      exact ⟨_, List.mem_append.2 (Or.inr (List.mem_singleton.2 rfl)), by simp,
        by simp only []; omega⟩
  · -- no object twice
    rw [List.nodup_append]
    refine ⟨hnd, List.nodup_singleton _, ?_⟩
    intro a ha1 ha2
    simp only [List.mem_singleton] at ha2
    subst ha2
    exact hnew ha1

theorem set_getD_self (bs : List (List Nat)) (j : Nat) : bs.set j (bs.getD j []) = bs := by
  induction bs generalizing j with
  | nil => simp
  | cons b bs ih =>
    cases j with
    | zero => simp
    | succ j =>
      have := ih j
      simp only [List.getD_eq_getElem?_getD] at this
      simp [this]

theorem getD_set_self_lists (bs : List (List Nat)) (j : Nat) (l : List Nat)
    (h : j < bs.length) : (bs.set j l).getD j [] = l := by
  rw [List.getD_eq_getElem _ _ (by simpa using h)]
  simp

theorem getD_set_other_lists (bs : List (List Nat)) (i j : Nat) (l : List Nat) (h : j ≠ i) :
    (bs.set i l).getD j [] = bs.getD j [] := by
  simp only [List.getD_eq_getElem?_getD]
  rw [List.getElem?_set_ne (Ne.symm h)]

theorem mem_flatten_of_getD (bs : List (List Nat)) (j : Nat) (x : Nat)
    (h : x ∈ bs.getD j []) : x ∈ bs.flatten := by
  by_cases hj : j < bs.length
  · rw [List.getD_eq_getElem _ _ hj] at h
    exact List.mem_flatten.2 ⟨_, List.getElem_mem hj, h⟩
  · rw [List.getD_eq_default _ _ (by omega)] at h
    simp at h

/-- Pushing an object on one bucket adds it to the objects of the free lists. -/
theorem flatten_set_cons_perm (bs : List (List Nat)) (j p : Nat) (t : List Nat)
    (h : j < bs.length) :
    (bs.set j (p :: t)).flatten.Perm (p :: (bs.set j t).flatten) := by
  induction bs generalizing j with
  | nil => simp at h
  | cons b bs ih =>
    cases j with
    | zero => simp
    | succ j =>
      simp only [List.set_cons_succ, List.flatten_cons]
      have h1 := ih j (by simpa using h)
      have h2 : (b ++ (bs.set j (p :: t)).flatten).Perm (b ++ p :: (bs.set j t).flatten) :=
        List.Perm.append_left b h1
      exact h2.trans List.perm_middle

/-- An empty list is held only by a null head. -/
theorem is_list_head_zero (mem : Nat → Nat) (l : List Nat) (h : is_list mem 0 l) : l = [] := by
  cases l with
  | nil => rfl
  | cons p t =>
    simp only [is_list] at h
    exact absurd h.1.symm h.2.1

/-- A non-null head holds a list that starts with it. -/
theorem is_list_head_ne_zero (mem : Nat → Nat) (head : Nat) (l : List Nat)
    (h : is_list mem head l) (h0 : head ≠ 0) :
    ∃ t, l = head :: t ∧ is_list mem (mem head) t := by
  cases l with
  | nil => simp only [is_list] at h; exact absurd h h0
  | cons p t =>
    simp only [is_list] at h
    obtain ⟨rfl, -, h3⟩ := h
    exact ⟨t, rfl, h3⟩

/-- `free(p)` of a non-null object that is not in the free lists pushes it on the current
bucket. -/
theorem free_lists_ok (c : Consts) (s : State) (bs : List (List Nat)) (p : Nat)
    (hok : lists_ok c s bs) (hp : p ≠ 0) (hnew : p ∉ bs.flatten) :
    lists_ok c (aligned_pool_allocator_free c s p)
      (bs.set s.apa.first_index (p :: bs.getD s.apa.first_index [])) ∧
    (bs.set s.apa.first_index (p :: bs.getD s.apa.first_index [])).flatten.Perm
      (p :: bs.flatten) := by
  obtain ⟨h1, h2, h3, h4, h5⟩ := hok
  have hperm : (bs.set s.apa.first_index (p :: bs.getD s.apa.first_index [])).flatten.Perm
      (p :: bs.flatten) := by
    have := flatten_set_cons_perm bs s.apa.first_index p (bs.getD s.apa.first_index [])
      (by omega)
    rw [set_getD_self] at this
    exact this
  refine ⟨⟨by simp [h1], by simp [aligned_pool_allocator_free, h2], ?_, ?_, ?_⟩, hperm⟩
  · exact Nat.mod_lt _ (by omega)
  · intro j hj
    have hpj : p ∉ bs.getD j [] := fun hm => hnew (mem_flatten_of_getD bs j p hm)
    unfold bucket_holds
    by_cases hji : j = s.apa.first_index
    · subst hji
      simp only [aligned_pool_allocator_free]
      rw [getD_set_self _ _ _ (by omega), getD_set_self_lists _ _ _ (by omega)]
      simp only [is_list, Function.update_same, true_and]
      exact ⟨hp, (is_list_update s.w.mem p _ _ _ hpj).2 (h4 _ hj)⟩
    · simp only [aligned_pool_allocator_free]
      rw [getD_set_other _ _ _ _ hji, getD_set_other_lists _ _ _ _ hji]
      exact (is_list_update s.w.mem p _ _ _ hpj).2 (h4 _ hj)
  · exact (List.Perm.nodup_iff hperm).2 (List.nodup_cons.2 ⟨hnew, h5⟩)

/-- A scan that reaches `D` has seen only null heads. -/
theorem scan_firsts_none (D : Nat) (l : List Nat) :
    ∀ fuel index, D ≤ scan_firsts D l fuel index → D ≤ index + fuel →
      ∀ j, index ≤ j → j < D → l.getD j 0 = 0 := by
  intro fuel
  induction fuel with
  | zero => intro index _ h2 j h3 h4; omega
  | succ m ihm =>
    intro index h1 h2 j h3 h4
    simp only [scan_firsts] at h1
    split_ifs at h1 with k1 k2
    · omega
    · rcases Nat.eq_or_lt_of_le h3 with rfl | hlt
      · simpa using k2
      · exact ihm (index + 1) h1 (by omega) j hlt h4
    · omega

/-- When `find_free` finds nothing, every bucket is empty. -/
theorem find_free_zero (c : Consts) (apa : aligned_pool_allocator)
    (h : (find_free c apa).2 = 0) :
    ∀ j, j < c.ALLOCATOR_PREFETCH_DISTANCE → apa.firsts.getD j 0 = 0 := by
  unfold find_free at h
  simp only [] at h
  split_ifs at h with g1 g2
  · exact absurd h (scan_firsts_found _ apa.firsts _ 0 g2 (by omega))
  · intro j hj
    exact scan_firsts_none c.ALLOCATOR_PREFETCH_DISTANCE apa.firsts
      c.ALLOCATOR_PREFETCH_DISTANCE 0 (not_lt.1 g2) (by omega) j (Nat.zero_le _) hj
  · exact absurd h g1

/-- The rotation index after `find_free` is the old one or below `D`. -/
theorem find_free_index (c : Consts) (apa : aligned_pool_allocator) :
    (find_free c apa).1.first_index = apa.first_index ∨
      (find_free c apa).1.first_index < c.ALLOCATOR_PREFETCH_DISTANCE := by
  unfold find_free
  simp only []
  split_ifs with g1 g2
  · exact Or.inr g2
  · exact Or.inl rfl
  · exact Or.inl rfl

/-- `alloc()` on a pool whose free lists hold at least one object: it is decided by the first
pass, which pops the head of a bucket; the world is unchanged except for the link field of the
popped object, and the ChunkSource and the fresh-carve counter are unchanged. -/
theorem pop_lists_ok (c : Consts) (env : Env) (fuel : Nat) (y : Bool) (s : State)
    (bs : List (List Nat)) (hok : lists_ok c s bs) (hne : bs.flatten ≠ []) :
    ∃ (p : Nat) (s1 : State) (j : Nat) (t : List Nat),
      alloc_loop c env (fuel + 1) y s = Outcome.returned p s1 ∧
      bs.getD j [] = p :: t ∧ lists_ok c s1 (bs.set j t) ∧
      bs.flatten.Perm (p :: (bs.set j t).flatten) ∧
      s1.w = { s.w with mem := s1.w.mem } ∧
      s1.apa.aa = s.apa.aa ∧
      s1.apa.newly_allocated_objects = s.apa.newly_allocated_objects ∧
      s1.apa.object_size = s.apa.object_size := by
  obtain ⟨h1, h2, h3, h4, h5⟩ := hok
  simp only [alloc_loop, alloc_pass_eq]
  have hspec := find_free_spec c s.apa
  have hindex := find_free_index c s.apa
  have hzero := find_free_zero c s.apa
  obtain ⟨A, ret, hA⟩ : ∃ A r, find_free c s.apa = (A, r) := ⟨_, _, rfl⟩
  rw [hA] at hspec hindex hzero ⊢
  simp only [] at hspec hindex hzero ⊢
  rcases hspec with ⟨h0, -⟩ | ⟨h0, hget, i, hapa⟩
  · -- nothing found: impossible, the free lists are not empty
    exfalso
    apply hne
    have hz := hzero h0
    rw [List.flatten_eq_nil_iff]
    intro l hl
    obtain ⟨j, hj, rfl⟩ := List.getElem_of_mem hl
    have hb := h4 j (by omega)
    unfold bucket_holds at hb
    rw [hz j (by omega), List.getD_eq_getElem _ _ hj] at hb
    exact is_list_head_zero _ _ hb
  · rw [if_neg h0]
    have hidx : A.first_index < c.ALLOCATOR_PREFETCH_DISTANCE := by
      rcases hindex with g | g
      · rw [g]; exact h3
      · exact g
    have hfirsts : A.firsts = s.apa.firsts := by rw [hapa]
    rw [hfirsts] at hget
    -- the bucket at the rotation index holds ret :: t
    have hb := h4 A.first_index hidx
    unfold bucket_holds at hb
    rw [hget] at hb
    obtain ⟨t, hl, ht⟩ := is_list_head_ne_zero _ _ _ hb h0
    have hperm : bs.flatten.Perm (ret :: (bs.set A.first_index t).flatten) := by
      have := flatten_set_cons_perm bs A.first_index ret t (by omega)
      rw [← hl, set_getD_self] at this
      exact this
    have hnd : (ret :: (bs.set A.first_index t).flatten).Nodup :=
      (List.Perm.nodup_iff hperm).1 h5
    have hnotin : ∀ k, ret ∉ (bs.set A.first_index t).getD k [] := fun k hm =>
      (List.nodup_cons.1 hnd).1 (mem_flatten_of_getD _ k ret hm)
    have hpop1 : (pop_current c { apa := A, w := s.w }).1 = ret := by
      simp only [pop_current, hfirsts, hget]
    refine ⟨_, _, A.first_index, t, rfl, by rw [hpop1]; exact hl,
      ⟨by simp [h1], ?_, ?_, ?_, (List.nodup_cons.1 hnd).2⟩,
      by rw [hpop1]; exact hperm, ?_, ?_, ?_, ?_⟩
    · simp only [pop_current, hfirsts, List.length_set]
      exact h2
    · simp only [pop_current]
      exact Nat.mod_lt _ (by omega)
    · intro k hk
      unfold bucket_holds
      simp only [pop_current, hfirsts, hget]
      by_cases hkj : k = A.first_index
      · subst hkj
        rw [getD_set_self _ _ _ (by omega), getD_set_self_lists _ _ _ (by omega)]
        have := hnotin A.first_index
        rw [getD_set_self_lists _ _ _ (by omega)] at this
        exact (is_list_update s.w.mem ret 0 t _ this).2 ht
      · rw [getD_set_other _ _ _ _ hkj, getD_set_other_lists _ _ _ _ hkj]
        have := hnotin k
        rw [getD_set_other_lists _ _ _ _ hkj] at this
        exact (is_list_update s.w.mem ret 0 _ _ this).2 (h4 k hk)
    · simp only [pop_current]
    · simp only [pop_current]; rw [hapa]
    · simp only [pop_current]; rw [hapa]
    · simp only [pop_current]; rw [hapa]

/-- A batch of allocations on a pool whose buckets are empty: every call carves a new non-null
object, and the buckets and the rotation index are untouched. -/
theorem fresh_batch (c : Consts) (env : Env) (henv : env.in_address_space)
    (hfresh : env.fresh) (hst : env.single_task) (fuel : Nat) :
    ∀ (K : Nat) (s : State) (H : List Nat), carve_inv s H → all_empty s.apa →
      ∀ (ps : List Nat) (s1 : State),
        run_ops c env fuel (List.replicate K Op.alloc) s = (ps, some s1) →
        carve_inv s1 (H ++ ps) ∧ 0 ∉ ps ∧ ps.length = K ∧
        s1.apa.firsts = s.apa.firsts ∧ s1.apa.first_index = s.apa.first_index ∧
        s1.apa.newly_allocated_objects = s.apa.newly_allocated_objects + K ∧
        s1.apa.allocated_objects = s.apa.allocated_objects := by
  intro K
  induction K with
  | zero =>
    intro s H hinv _ ps s1 h
    simp only [List.replicate_zero, run_ops, Prod.mk.injEq, Option.some.injEq] at h
    obtain ⟨rfl, rfl⟩ := h
    simp only [List.append_nil, List.not_mem_nil, not_false_eq_true, List.length_nil,
      Nat.cast_zero, add_zero, and_self, and_true]
    exact hinv
  | succ K ih =>
    intro s H hinv hempty ps s1 h
    simp only [List.replicate_succ, run_ops] at h
    cases ho : aligned_pool_allocator_alloc c env fuel s with
    | returned p s2 =>
      rw [ho] at h
      simp only [Prod.mk.injEq] at h
      obtain ⟨rfl, h⟩ := h
      obtain ⟨a1, a2, a3, a4, a5, a6, a7⟩ :=
        carve_inv_step c env henv hfresh hst fuel false s H hinv hempty p s2 ho
      obtain ⟨b1, b2, b3, b4, b5, b6, b7⟩ :=
        ih s2 (H ++ [p]) a1 a3 (run_ops c env fuel (List.replicate K Op.alloc) s2).1 s1
          (Prod.ext rfl h)
      refine ⟨by simpa using b1, ?_, by simp [b3], b4.trans a4, b5.trans a5, ?_, b7.trans a7⟩
      · intro hm
        simp only [List.mem_cons] at hm
        rcases hm with g | g
        · exact a2 g.symm
        · exact b2 g
      · rw [b6, a6]
        push_cast
        ring
    | aborted w1 => rw [ho] at h; simp at h
    | undefined w1 => rw [ho] at h; simp at h
    | out_of_fuel s2 => rw [ho] at h; simp at h

/-- Freeing objects that are pairwise distinct, non-null and not in the free lists puts all
of them in the free lists and changes nothing but the buckets, the rotation index, the in-use
counter and link fields. -/
theorem frees_run (c : Consts) (env : Env) (fuel : Nat) :
    ∀ (qs : List Nat) (s : State) (bs : List (List Nat)), lists_ok c s bs →
      (qs ++ bs.flatten).Nodup → 0 ∉ qs →
      ∃ (s2 : State) (bs2 : List (List Nat)),
        run_ops c env fuel (qs.map Op.free) s = ([], some s2) ∧
        lists_ok c s2 bs2 ∧ bs2.flatten.Perm (qs ++ bs.flatten) ∧
        s2.apa.aa = s.apa.aa ∧
        s2.apa.newly_allocated_objects = s.apa.newly_allocated_objects ∧
        s2.w = { s.w with mem := s2.w.mem } := by
  intro qs
  induction qs with
  | nil =>
    intro s bs hok _ _
    exact ⟨s, bs, rfl, hok, by simp, rfl, rfl, rfl⟩
  | cons q qs ih =>
    intro s bs hok hnd h0
    simp only [List.cons_append, List.nodup_cons, List.mem_append, not_or] at hnd
    obtain ⟨⟨hq1, hq2⟩, hnd2⟩ := hnd
    have hq0 : q ≠ 0 := fun h => h0 (by simp [h])
    have h0' : 0 ∉ qs := fun h => h0 (List.mem_cons_of_mem _ h)
    obtain ⟨f1, f2⟩ := free_lists_ok c s bs q hok hq0 hq2
    have hnd3 : (qs ++ (bs.set s.apa.first_index
        (q :: bs.getD s.apa.first_index [])).flatten).Nodup := by
      have hp : (qs ++ (bs.set s.apa.first_index
          (q :: bs.getD s.apa.first_index [])).flatten).Perm (q :: (qs ++ bs.flatten)) :=
        (List.Perm.append_left qs f2).trans List.perm_middle
      rw [List.Perm.nodup_iff hp, List.nodup_cons]
      exact ⟨by simp [hq1, hq2], hnd2⟩
    obtain ⟨s2, bs2, g1, g2, g3, g4, g5, g6⟩ := ih _ _ f1 hnd3 h0'
    refine ⟨s2, bs2, by simp only [List.map_cons, run_ops]; exact g1, g2, ?_, g4, g5, ?_⟩
    · exact g3.trans ((List.Perm.append_left qs f2).trans List.perm_middle)
    · rw [g6]
      simp [aligned_pool_allocator_free]

/-- As many allocations as there are objects in the free lists are all served from the free
lists: each is decided by its first pass, nothing is carved, and the world is unchanged except
for link fields. -/
theorem pops_run (c : Consts) (env : Env) (fuel : Nat) :
    ∀ (n : Nat) (s : State) (bs : List (List Nat)), lists_ok c s bs → bs.flatten.length = n →
      ∃ (rs : List Nat) (s3 : State),
        run_ops c env (fuel + 1) (List.replicate n Op.alloc) s = (rs, some s3) ∧
        rs.Perm bs.flatten ∧
        s3.apa.aa = s.apa.aa ∧
        s3.apa.newly_allocated_objects = s.apa.newly_allocated_objects ∧
        s3.w = { s.w with mem := s3.w.mem } := by
  intro n
  induction n with
  | zero =>
    intro s bs _ hlen
    refine ⟨[], s, rfl, ?_, rfl, rfl, rfl⟩
    rw [List.length_eq_zero.1 hlen]
  | succ n ih =>
    intro s bs hok hlen
    have hne : bs.flatten ≠ [] := by
      intro h
      rw [h] at hlen
      simp at hlen
    obtain ⟨p, s1, j, t, e1, e2, e3, e4, e5, e6, e7, -⟩ := pop_lists_ok c env fuel false s bs hok hne
    have hlen2 : (bs.set j t).flatten.length = n := by
      have := e4.length_eq
      simp only [List.length_cons] at this
      omega
    obtain ⟨rs, s3, g1, g2, g3, g4, g5⟩ := ih s1 _ e3 hlen2
    refine ⟨p :: rs, s3, ?_, ?_, g3.trans e6, g4.trans e7, ?_⟩
    · simp only [List.replicate_succ, run_ops, aligned_pool_allocator_alloc, e1]
      rw [g1]
    · exact (List.Perm.cons p g2).trans e4.symm
    · rw [g5, e5]

theorem trace_top_ge (tr : List Event) (m r : Nat) (h : Event.locale_alloc m r ∈ tr) :
    r + m ≤ trace_top tr := by
  induction tr with
  | nil => simp at h
  | cons e tr ih =>
    simp only [List.mem_cons] at h
    rcases h with rfl | h
    · simp only [trace_top]
      exact le_max_left _ _
    · have := ih h
      cases e with
      | locale_alloc m1 r1 => simp only [trace_top]; exact le_trans this (le_max_right _ _)
      | log_warning a b => simpa only [trace_top] using this
      | poll => simpa only [trace_top] using this
      | yield => simpa only [trace_top] using this

theorem env_pages_fresh : env_pages.fresh := by
  intro tr al n h m r hmem _
  have hge := trace_top_ge tr m r hmem
  simp only [env_pages] at h ⊢
  split_ifs at h ⊢ with hc
  · right
    have := Nat.lt_div_mul_add (a := trace_top tr) (b := 4096) (by norm_num)
    omega
  · exact absurd rfl h

theorem flatten_replicate_nil (D : Nat) : (List.replicate D ([] : List Nat)).flatten = [] := by
  induction D with
  | zero => rfl
  | succ n ih => simp [List.replicate_succ, ih]

/-- A pool whose heads are all null holds the empty lists. -/
theorem lists_ok_of_empty (c : Consts) (s : State)
    (hD : 1 ≤ c.ALLOCATOR_PREFETCH_DISTANCE)
    (hfirsts : s.apa.firsts = List.replicate c.ALLOCATOR_PREFETCH_DISTANCE 0)
    (hidx : s.apa.first_index = 0) :
    lists_ok c s (List.replicate c.ALLOCATOR_PREFETCH_DISTANCE []) := by
  refine ⟨by simp, by simp [hfirsts], by omega, ?_, ?_⟩
  · intro i hi
    unfold bucket_holds
    have h1 : s.apa.firsts.getD i 0 = 0 := by
      apply getD_eq_zero_of_all_zero
      intro x hx
      rw [hfirsts] at hx
      exact (List.mem_replicate.1 hx).2
    have h2 : (List.replicate c.ALLOCATOR_PREFETCH_DISTANCE ([] : List Nat)).getD i [] = [] := by
      rw [List.getD_eq_getElem _ _ (by simpa using hi)]
      simp
    rw [h1, h2]
    rfl
  · rw [flatten_replicate_nil]
    exact List.nodup_nil

/-- The scan stops at the lowest index below `D` whose head is non-null. -/
theorem scan_firsts_least (D : Nat) (l : List Nat) (j : Nat) (hj : j < D)
    (hne : l.getD j 0 ≠ 0) (hz : ∀ k, k < j → l.getD k 0 = 0) :
    ∀ fuel index, index ≤ j → j < index + fuel → scan_firsts D l fuel index = j := by
  intro fuel
  induction fuel with
  | zero => intro index h1 h2; omega
  | succ m ih =>
    intro index h1 h2
    simp only [scan_firsts]
    rw [if_pos (by omega)]
    rcases Nat.eq_or_lt_of_le h1 with rfl | hlt
    · rw [if_pos hne]
    · rw [if_neg (by simpa using hz index hlt)]
      exact ih (index + 1) hlt (by omega)

/-- `find_free` when the current bucket is non-empty: nothing moves. -/
theorem find_free_fast (c : Consts) (apa : aligned_pool_allocator)
    (hne : apa.firsts.getD apa.first_index 0 ≠ 0) :
    find_free c apa = (apa, apa.firsts.getD apa.first_index 0) := by
  unfold find_free
  simp only [if_neg hne]

/-- `find_free` when the current bucket is empty and `j` is the lowest non-empty bucket. -/
theorem find_free_scan (c : Consts) (apa : aligned_pool_allocator) (j : Nat)
    (hcur : apa.firsts.getD apa.first_index 0 = 0)
    (hj : j < c.ALLOCATOR_PREFETCH_DISTANCE) (hne : apa.firsts.getD j 0 ≠ 0)
    (hz : ∀ k, k < j → apa.firsts.getD k 0 = 0) :
    find_free c apa = ({ apa with first_index := j }, apa.firsts.getD j 0) := by
  have hs := scan_firsts_least c.ALLOCATOR_PREFETCH_DISTANCE apa.firsts j hj hne hz
    c.ALLOCATOR_PREFETCH_DISTANCE 0 (Nat.zero_le _) (by omega)
  unfold find_free
  simp only [hcur, if_true, hs, if_pos hj]

/-- A pass on a pool where `find_free` finds a non-null `ret`: it pops. -/
theorem alloc_loop_pop (c : Consts) (env : Env) (fuel : Nat) (y : Bool) (s : State)
    (apa1 : aligned_pool_allocator) (ret : Nat) (hf : find_free c s.apa = (apa1, ret))
    (hne : ret ≠ 0) :
    alloc_loop c env (fuel + 1) y s =
      Outcome.returned (pop_current c { s with apa := apa1 }).1
        (pop_current c { s with apa := apa1 }).2 := by
  simp only [alloc_loop, alloc_pass_eq, hf, if_neg hne]

/-- A call on a chain whose tail has room does not append: it bumps the tail and leaves the
world as it is. -/
theorem alloc_no_append (c : Consts) (env : Env) (aa : aligned_allocator) (size : Nat)
    (w : World) (tail : memory_chunk) (ht : aa.chain.getLast? = some tail)
    (hroom : ¬ remaining tail < ALIGN_UP size aa.align_on) :
    aligned_allocator_alloc c env aa size w =
      Res.ok (u64 (tail.chunk + tail.offset),
        { aa with chain := aa.chain.dropLast ++ [bumped tail (ALIGN_UP size aa.align_on)] }, w) := by
  have hne : ¬ aa.chain.getLast? = none := by rw [ht]; simp
  unfold aligned_allocator_alloc
  simp only [append_if_empty, if_neg hne]
  simp only [append_if_short, ht]
  have hroom2 : ¬ u64_sub tail.chunk_size tail.offset < ALIGN_UP size aa.align_on := hroom
  rw [if_neg hroom2]
  simp only [bump, ht, bumped]

theorem append_chunk_abort_metric {c : Consts} {env : Env} {aa : aligned_allocator} {m : Nat}
    {w w1 : World} (h : _aligned_allocator_append_chunk c env aa m w = Res.abort w1) :
    w1.chunkallocator_append = w.chunkallocator_append + 1 := by
  unfold _aligned_allocator_append_chunk locale_call at h
  simp only [] at h
  split_ifs at h with h1 h2
  · simp only [Res.abort.injEq] at h
    subst h
    rfl
  · simp only [Res.abort.injEq] at h
    subst h
    rfl

theorem toInt64_of_range {x : Int} (h1 : -(2 ^ 63) ≤ x) (h2 : x < 2 ^ 63) : toInt64 x = x := by
  unfold toInt64
  rw [Int.emod_eq_of_lt (by omega) (by omega)]
  omega

/-- The failing calls of `aligned_allocator_alloc`: an append was entered, so the chain was
empty or a tail had no room; the append counter moved by one, or by two when the chunk
appended first had no room. -/
theorem aligned_allocator_alloc_abort {c : Consts} {env : Env} {aa : aligned_allocator}
    {size : Nat} {w w1 : World}
    (h : aligned_allocator_alloc c env aa size w = Res.abort w1) :
    (aa.chain = [] ∧ w1.chunkallocator_append = w.chunkallocator_append + 1) ∨
    (aa.chain = [] ∧ w1.chunkallocator_append = w.chunkallocator_append + 2 ∧
      ∃ (x : memory_chunk) (w0 : World),
        fresh_chunk env w w0 aa (ALIGN_UP size aa.align_on) x ∧
        remaining x < ALIGN_UP size aa.align_on) ∨
    ((∃ tail, aa.chain.getLast? = some tail ∧ remaining tail < ALIGN_UP size aa.align_on) ∧
      w1.chunkallocator_append = w.chunkallocator_append + 1) := by
  unfold aligned_allocator_alloc at h
  simp only [] at h
  generalize ALIGN_UP size aa.align_on = rs at h ⊢
  by_cases hempty : aa.chain = []
  · have hl : aa.chain.getLast? = none := by rw [hempty]; rfl
    simp only [append_if_empty, hl, if_true] at h
    cases h1 : _aligned_allocator_append_chunk c env aa rs w with
    | abort w2 =>
      rw [h1] at h
      simp only [Res.abort.injEq] at h
      subst h
      exact Or.inl ⟨hempty, append_chunk_abort_metric h1⟩
    | undefined w2 => rw [h1] at h; exact Res.noConfusion h
    | ok a =>
      obtain ⟨aa1, w2⟩ := a
      rw [h1] at h
      simp only [] at h
      obtain ⟨x, fx, rfl, -, hc1⟩ := append_chunk_fresh h1
      have hlx : (aa.chain ++ [x]).getLast? = some x := by simp
      simp only [append_if_short, hlx] at h
      by_cases hshort : u64_sub x.chunk_size x.offset < rs
      · rw [if_pos hshort] at h
        cases h2 : _aligned_allocator_append_chunk c env
            { aa with chain := aa.chain ++ [x] } rs w2 with
        | abort w3 =>
          rw [h2] at h
          simp only [Res.abort.injEq] at h
          subst h
          refine Or.inr (Or.inl ⟨hempty, ?_, x, w2, fx, hshort⟩)
          rw [append_chunk_abort_metric h2, hc1]
          ring
        | undefined w3 => rw [h2] at h; exact Res.noConfusion h
        | ok a =>
          obtain ⟨aa3, w3⟩ := a
          rw [h2] at h
          simp only [] at h
          obtain ⟨y, -, rfl, -, -⟩ := append_chunk_fresh h2
          have hly : (aa.chain ++ [x] ++ [y]).getLast? = some y := by simp
          simp only [bump, hly] at h
          exact Res.noConfusion h
      · rw [if_neg hshort] at h
        simp only [bump, hlx] at h
        exact Res.noConfusion h
  · obtain ⟨old, hold⟩ : ∃ old, aa.chain.getLast? = some old := by
      cases hl : aa.chain.getLast? with
      | none => rw [List.getLast?_eq_none_iff] at hl; exact absurd hl hempty
      | some old => exact ⟨old, rfl⟩
    have hne : ¬ aa.chain.getLast? = none := by rw [hold]; simp
    simp only [append_if_empty, if_neg hne] at h
    simp only [append_if_short, hold] at h
    by_cases hshort : u64_sub old.chunk_size old.offset < rs
    · rw [if_pos hshort] at h
      cases h2 : _aligned_allocator_append_chunk c env aa rs w with
      | abort w3 =>
        rw [h2] at h
        simp only [Res.abort.injEq] at h
        subst h
        exact Or.inr (Or.inr ⟨⟨old, hold, hshort⟩, append_chunk_abort_metric h2⟩)
      | undefined w3 => rw [h2] at h; exact Res.noConfusion h
      | ok a =>
        obtain ⟨aa3, w3⟩ := a
        rw [h2] at h
        simp only [] at h
        obtain ⟨y, -, rfl, -, -⟩ := append_chunk_fresh h2
        have hly : (aa.chain ++ [y]).getLast? = some y := by simp
        simp only [bump, hly] at h
        exact Res.noConfusion h
    · rw [if_neg hshort] at h
      simp only [bump, hold] at h
      exact Res.noConfusion h

/-- Single-task access keeps the rotation index in range. -/
theorem keeps_index_of_single_task (env : Env) (c : Consts) (hst : env.single_task) :
    env.keeps_index c := by
  intro s hs
  rw [(hst s).1, (hst s).2]
  exact ⟨hs, hs⟩

/-- A round of backpressure keeps the rotation index in range. -/
theorem backpressure_index (c : Consts) (env : Env) (henv : env.keeps_index c) (y : Bool)
    (s : State) (hs : index_in_range c s.apa) :
    index_in_range c (backpressure env y s).apa := by
  unfold backpressure
  simp only []
  apply (henv _ _).2
  apply (henv _ _).1
  split_ifs <;> exact hs

/-- The search for a non-empty bucket keeps the rotation index in range. -/
theorem find_free_index_in_range (c : Consts) (apa : aligned_pool_allocator)
    (hs : index_in_range c apa) : index_in_range c (find_free c apa).1 := by
  rcases find_free_index c apa with h | h
  · rcases find_free_fst_firsts c apa with e | ⟨i, e⟩
    · rw [e]; exact hs
    · rw [e] at h ⊢
      simp only [] at h
      obtain ⟨h1, h2, h3⟩ := hs
      exact ⟨by simpa [h] using h1, by simpa [h] using h2, h3⟩
  · rcases find_free_fst_firsts c apa with e | ⟨i, e⟩
    · rw [e]; exact hs
    · rw [e] at h ⊢
      simp only [] at h
      obtain ⟨h1, h2, h3⟩ := hs
      exact ⟨h, by simpa [h3] using h, h3⟩

/-- Every way out of the loop of `alloc()` leaves the rotation index in range. -/
theorem alloc_loop_index (c : Consts) (env : Env) (hD : 1 ≤ c.ALLOCATOR_PREFETCH_DISTANCE)
    (henv : env.keeps_index c) :
    ∀ (fuel : Nat) (y : Bool) (s : State), index_in_range c s.apa →
      (∀ p s1, alloc_loop c env fuel y s = Outcome.returned p s1 → index_in_range c s1.apa) ∧
      (∀ s1, alloc_loop c env fuel y s = Outcome.out_of_fuel s1 → index_in_range c s1.apa) := by
  intro fuel
  induction fuel with
  | zero =>
    intro y s hs
    refine ⟨fun p s1 h => ?_, fun s1 h => ?_⟩
    · simp [alloc_loop] at h
    · simp only [alloc_loop, Outcome.out_of_fuel.injEq] at h
      rw [← h]; exact hs
  | succ n ih =>
    intro y s hs
    have hf := find_free_index_in_range c s.apa hs
    simp only [alloc_loop, alloc_pass_eq]
    by_cases h0 : (find_free c s.apa).2 = 0
    · simp only [if_pos h0]
      by_cases hc : may_carve s.w = true
      · simp only [if_pos hc]
        rcases carve_cases c env { s with apa := (find_free c s.apa).1 } with
          ⟨p, aa1, w1, w2, -, -, e, -⟩ | ⟨w1, -, -, e⟩
        · rw [e]
          refine ⟨fun p s1 h => ?_, fun s1 h => ?_⟩
          · simp only [Outcome.returned.injEq] at h
            rw [← h.2]
            exact hf
          · exact Outcome.noConfusion h
        · rw [e]
          exact ⟨fun p s1 h => Outcome.noConfusion h, fun s1 h => Outcome.noConfusion h⟩
      · simp only [if_neg hc]
        exact ih true _ (backpressure_index c env henv y _ hf)
    · simp only [if_neg h0]
      have hpop : index_in_range c
          (pop_current c { s with apa := (find_free c s.apa).1 }).2.apa := by
        obtain ⟨h1, h2, h3⟩ := hf
        have hlt : ((find_free c s.apa).1.first_index + 1) % c.ALLOCATOR_PREFETCH_DISTANCE
            < c.ALLOCATOR_PREFETCH_DISTANCE := Nat.mod_lt _ (by omega)
        refine ⟨hlt, ?_, ?_⟩
        · simp only [pop_current, List.length_set]
          rw [h3]; exact hlt
        · simp only [pop_current, List.length_set]
          exact h3
      refine ⟨fun p s1 h => ?_, fun s1 h => ?_⟩
      · simp only [Outcome.returned.injEq] at h
        rw [← h.2]
        exact hpop
      · exact Outcome.noConfusion h

/-- A pass that ends in backpressure: no bucket has an object, carving is not permitted, and
the round is performed on the state in which the pass started. -/
theorem alloc_pass_blocked {c : Consts} {env : Env} {y : Bool} {s s2 : State}
    (h : alloc_pass c env y s = Pass.blocked s2) :
    s2 = backpressure env y s ∧
    (∀ j, j < c.ALLOCATOR_PREFETCH_DISTANCE → s.apa.firsts.getD j 0 = 0) ∧
    s.w.FLAGS_shared_pool_max_size ≤ s.w.shared_pool_total_allocated ∧
    s.w.in_no_switch_region = false := by
  rw [alloc_pass_eq] at h
  split_ifs at h with h0 hc
  simp only [Pass.blocked.injEq] at h
  have hapa : (find_free c s.apa).1 = s.apa := by
    rcases find_free_spec c s.apa with ⟨-, e⟩ | ⟨hne, -⟩
    · exact e
    · exact absurd h0 hne
  rw [hapa] at h
  have hm : ¬ (s.w.in_no_switch_region = true ∨
      s.w.shared_pool_total_allocated < s.w.FLAGS_shared_pool_max_size) :=
    fun hx => hc ((may_carve_iff s.w).2 hx)
  refine ⟨h.symm, find_free_zero c s.apa h0, ?_, ?_⟩
  · exact not_lt.1 (fun hx => hm (Or.inr hx))
  · cases hb : s.w.in_no_switch_region
    · rfl
    · exact absurd (Or.inl hb) hm

/-- The first pass recorded after a state is that state itself. -/
theorem blocked_passes_head (c : Consts) (env : Env) (fuel : Nat) (y : Bool) (s : State) :
    ((blocked_passes c env fuel y s)[0]?).getD (after_rounds c env fuel y s) = s := by
  cases fuel with
  | zero => simp [blocked_passes, after_rounds]
  | succ n =>
    simp only [blocked_passes, after_rounds]
    cases alloc_pass c env y s <;> simp

/-- A pass of `alloc()` that returns leaves the yield-event counter as it is. -/
theorem final_pass_yielded (c : Consts) (env : Env) (y : Bool) (s : State) (p : Nat)
    (s1 : State) (h : alloc_loop c env 1 y s = Outcome.returned p s1) :
    s1.w.chunkallocator_yielded = s.w.chunkallocator_yielded := by
  simp only [alloc_loop, alloc_pass_eq] at h
  split_ifs at h with h0 hc
  · simp only [] at h
    rcases carve_cases c env { s with apa := (find_free c s.apa).1 } with
      ⟨p2, aa1, w1, w2, ha, -, e, hw⟩ | ⟨w1, -, -, e⟩
    · rw [e] at h
      simp only [Outcome.returned.injEq] at h
      obtain ⟨-, -, -, -, hf, -⟩ := aligned_allocator_alloc_ok ha
      rw [← h.2]
      rcases hw with ⟨-, rfl⟩ | ⟨-, -, rfl⟩
      · exact hf.2.2.2.1
      · exact hf.2.2.2.1
    · rw [e] at h
      exact Outcome.noConfusion h
  · simp only [Outcome.returned.injEq] at h
    rw [← h.2]
    rfl

/-- A round of backpressure counts a yield event when the flag of the call is not set. -/
theorem backpressure_yielded (env : Env) (hk : env.keeps_yield_count) (y : Bool) (s : State) :
    (backpressure env y s).w.chunkallocator_yielded
      = s.w.chunkallocator_yielded + (if y = true then 0 else 1) := by
  unfold backpressure
  simp only []
  rw [(hk _).2]
  simp only []
  rw [(hk _).1]
  cases y <;> simp

/-- The rounds of a call that returns, for any value of the flag at the start. -/
theorem rounds_spec (c : Consts) (env : Env) :
    ∀ (fuel : Nat) (y : Bool) (s : State) (p : Nat) (s1 : State),
      alloc_loop c env fuel y s = Outcome.returned p s1 →
      (∀ k st, (blocked_passes c env fuel y s)[k]? = some st →
        (∀ j, j < c.ALLOCATOR_PREFETCH_DISTANCE → st.apa.firsts.getD j 0 = 0) ∧
        st.w.FLAGS_shared_pool_max_size ≤ st.w.shared_pool_total_allocated ∧
        st.w.in_no_switch_region = false ∧
        ((blocked_passes c env fuel y s)[k + 1]?).getD (after_rounds c env fuel y s)
          = backpressure env (y || decide (0 < k)) st) ∧
      alloc_loop c env 1 (y || decide (0 < (blocked_passes c env fuel y s).length))
        (after_rounds c env fuel y s) = Outcome.returned p s1 ∧
      (after_rounds c env fuel y s).w.trace = s.w.trace ++
        (List.replicate (blocked_passes c env fuel y s).length
          [Event.poll, Event.yield]).flatten ∧
      (env.keeps_yield_count →
        (after_rounds c env fuel y s).w.chunkallocator_yielded
          = s.w.chunkallocator_yielded +
            (if y = true then 0 else min (blocked_passes c env fuel y s).length 1)) := by
  intro fuel
  induction fuel with
  | zero =>
    intro y s p s1 h
    simp [alloc_loop] at h
  | succ n ih =>
    intro y s p s1 h
    cases hp : alloc_pass c env y s with
    | blocked s2 =>
      have hl : alloc_loop c env n true s2 = Outcome.returned p s1 := by
        simpa only [alloc_loop, hp] using h
      obtain ⟨hs2, hnull, hmax, hns⟩ := alloc_pass_blocked hp
      obtain ⟨iA, iB, iC, iD⟩ := ih true s2 p s1 hl
      have eR : blocked_passes c env (n + 1) y s = s :: blocked_passes c env n true s2 := by
        simp only [blocked_passes, hp]
      have eS : after_rounds c env (n + 1) y s = after_rounds c env n true s2 := by
        simp only [after_rounds, hp]
      rw [eR, eS]
      refine ⟨?_, ?_, ?_, ?_⟩
      · intro k st hk
        cases k with
        | zero =>
          simp only [List.getElem?_cons_zero, Option.some.injEq] at hk
          subst hk
          refine ⟨hnull, hmax, hns, ?_⟩
          simp only [List.getElem?_cons_succ, lt_self_iff_false, decide_False, Bool.or_false]
          rw [blocked_passes_head, hs2]
        | succ k =>
          simp only [List.getElem?_cons_succ] at hk ⊢
          obtain ⟨a1, a2, a3, a4⟩ := iA k st hk
          refine ⟨a1, a2, a3, ?_⟩
          rw [a4]
          simp
      · simpa using iB
      · rw [iC, hs2, backpressure_trace]
        simp [List.replicate_succ]
      · intro hk
        rw [iD hk, hs2, backpressure_yielded env hk]
        cases y <;> simp
    | popped q s2 =>
      have eR : blocked_passes c env (n + 1) y s = [] := by
        simp only [blocked_passes, hp]
      have eS : after_rounds c env (n + 1) y s = s := by
        simp only [after_rounds, hp]
      rw [eR, eS]
      refine ⟨by simp, ?_, by simp, fun _ => by cases y <;> simp⟩
      have hnb : ∀ s3, alloc_pass c env y s ≠ Pass.blocked s3 := by
        intro s3 e; rw [hp] at e; exact Pass.noConfusion e
      rw [alloc_loop_succ_of_pass c env n y s hnb] at h
      simpa using h
    | carved o =>
      have eR : blocked_passes c env (n + 1) y s = [] := by
        simp only [blocked_passes, hp]
      have eS : after_rounds c env (n + 1) y s = s := by
        simp only [after_rounds, hp]
      rw [eR, eS]
      refine ⟨by simp, ?_, by simp, fun _ => by cases y <;> simp⟩
      have hnb : ∀ s3, alloc_pass c env y s ≠ Pass.blocked s3 := by
        intro s3 e; rw [hp] at e; exact Pass.noConfusion e
      rw [alloc_loop_succ_of_pass c env n y s hnb] at h
      simpa using h

/-- One request of 16 bytes in the scenario: the chain has a chunk more exactly when the tail
has served 4 objects (or there is no chunk yet). -/
theorem scenario_step (c : Consts) (env : Env) (henv : env.in_address_space)
    (aa aa2 : aligned_allocator) (k : Nat) (w w2 : World) (p : Nat)
    (ha : aa.align_on = 8) (hc : aa.chunk_size = 64) (hok : chain_ok aa.chain)
    (hlen : aa.chain.length = (k + 3) / 4)
    (htail : 0 < k → ∃ (tail : memory_chunk) (pad : Nat), aa.chain.getLast? = some tail ∧
      tail.chunk_size = 72 ∧ pad < 8 ∧ tail.offset = pad + 16 * ((k - 1) % 4 + 1))
    (h : aligned_allocator_alloc c env aa 16 w = Res.ok (p, aa2, w2)) :
    aa2.align_on = 8 ∧ aa2.chunk_size = 64 ∧ chain_ok aa2.chain ∧
    aa2.chain.length = (k + 4) / 4 ∧
    ∃ (tail : memory_chunk) (pad : Nat), aa2.chain.getLast? = some tail ∧
      tail.chunk_size = 72 ∧ pad < 8 ∧ tail.offset = pad + 16 * (k % 4 + 1) := by
  have ha1 : 1 ≤ aa.align_on := by omega
  have hex : exact_round 16 aa.align_on = 16 := by rw [ha]; rfl
  have hnw : no_wrap aa 16 := by
    unfold no_wrap
    rw [hex, hc, ha]
    norm_num [WORD]
  obtain ⟨c1, c2, c3⟩ := alloc_chain_ok_step ha1 hnw henv hok h
  obtain ⟨pre, last, e2, -, hAU, -, hfit, -, -, -, hcase⟩ :=
    aligned_allocator_alloc_sane ha1 hnw henv hok h
  rw [hex] at hAU hfit e2
  refine ⟨c2.trans ha, c3.trans hc, c1, ?_⟩
  rcases hcase with ⟨e, -⟩ | ⟨e, hf, -⟩
  · have hk : 0 < k := by
      rcases Nat.eq_zero_or_pos k with h0 | h0
      · rw [e, h0] at hlen; simp at hlen
      · exact h0
    obtain ⟨tail, pad, ht, hsz, hpad, hoff⟩ := htail hk
    rw [e] at ht hlen
    have ht2 : (pre ++ [last]).getLast? = some last := by simp
    rw [ht2] at ht
    injection ht with ht
    subst ht
    rw [hoff] at hfit
    rw [hsz] at hfit
    rw [e2]
    refine ⟨?_, { last with offset := last.offset + 16 }, pad, by simp, hsz, hpad, ?_⟩
    · simp only [List.length_append, List.length_singleton] at hlen ⊢
      omega
    · show last.offset + 16 = pad + 16 * (k % 4 + 1)
      rw [hoff]
      omega
  · have hk4 : k % 4 = 0 := by
      rcases Nat.eq_zero_or_pos k with h0 | h0
      · rw [h0]
      · obtain ⟨tail, pad, ht, hsz, hpad, hoff⟩ := htail h0
        by_contra hne
        have hroom : ¬ remaining tail < ALIGN_UP 16 aa.align_on := by
          rw [hAU]
          unfold remaining
          rw [u64_sub_of_le (by rw [hsz, hoff]; omega) (by rw [hsz]; norm_num [WORD]), hsz, hoff]
          omega
        have h2 := alloc_no_append c env aa 16 w tail ht hroom
        rw [h2] at h
        simp only [Res.ok.injEq, Prod.mk.injEq] at h
        have h3 := congrArg (fun a => a.chain.length) h.2.1
        simp only [] at h3
        rw [e2] at h3
        simp only [List.length_append, List.length_singleton, List.length_dropLast] at h3
        rw [← e] at h3
        have hpos : 0 < aa.chain.length := by rw [hlen]; omega
        omega
    obtain ⟨f1, f2, -⟩ := fresh_chunk_sane ha1 hnw henv hf
    rw [hex, hc, ha] at f1
    rw [ha] at f2
    rw [e2]
    refine ⟨?_, { last with offset := last.offset + 16 }, last.offset, by simp, f1, f2, ?_⟩
    · simp only [List.length_append, List.length_singleton]
      rw [← e, hlen]
      omega
    · show last.offset + 16 = last.offset + 16 * (k % 4 + 1)
      omega

/-- One `alloc()` that returns in the scenario is a fresh carve. -/
theorem scenario_alloc (c : Consts) (env : Env) (henv : env.in_address_space)
    (hst : env.single_task) (fuel : Nat) (y : Bool) (s : State) (k : Nat) (p : Nat)
    (s1 : State) (hinv : scenario_inv k s.apa)
    (h : alloc_loop c env fuel y s = Outcome.returned p s1) :
    scenario_inv (k + 1) s1.apa := by
  obtain ⟨h1, h2, h3, h4, h5, h6, h7, h8, h9⟩ := hinv
  obtain ⟨w0, aa1, w1, -, ha, hs1, -⟩ := alloc_loop_carved c env hst fuel y s h1 p s1 h
  rw [h2] at ha
  obtain ⟨a1, a2, a3, a4, a5⟩ := scenario_step c env henv s.apa.aa aa1 k w0 w1 p h3 h4 h5 h6 h9 ha
  unfold scenario_inv
  rw [hs1]
  refine ⟨h1, h2, a1, a2, a3, a4, ?_, h8, fun _ => ?_⟩
  · simp only []
    rw [h7]
    push_cast
    ring
  · simpa using a5

/-- A run of `n` calls of `alloc()` that return in the scenario. -/
theorem scenario_run (c : Consts) (env : Env) (henv : env.in_address_space)
    (hst : env.single_task) (fuel : Nat) :
    ∀ (n k : Nat) (s : State) (ps : List Nat) (s1 : State), scenario_inv k s.apa →
      run_ops c env fuel (List.replicate n Op.alloc) s = (ps, some s1) →
      scenario_inv (k + n) s1.apa ∧ ps.length = n := by
  intro n
  induction n with
  | zero =>
    intro k s ps s1 hinv h
    simp only [List.replicate_zero, run_ops, Prod.mk.injEq, Option.some.injEq] at h
    obtain ⟨rfl, rfl⟩ := h
    exact ⟨hinv, rfl⟩
  | succ n ih =>
    intro k s ps s1 hinv h
    simp only [List.replicate_succ, run_ops] at h
    cases ho : aligned_pool_allocator_alloc c env fuel s with
    | returned p s2 =>
      rw [ho] at h
      simp only [Prod.mk.injEq] at h
      obtain ⟨hps, hs⟩ := h
      have hstep := scenario_alloc c env henv hst fuel false s k p s2 hinv ho
      obtain ⟨i1, i2⟩ := ih (k + 1) s2 _ s1 hstep (Prod.ext rfl hs)
      refine ⟨?_, ?_⟩
      · have e : k + (n + 1) = k + 1 + n := by omega
        rw [e]; exact i1
      · rw [← hps]
        simp [i2]
    | aborted w1 => rw [ho] at h; simp at h
    | undefined w1 => rw [ho] at h; simp at h
    | out_of_fuel s2 => rw [ho] at h; simp at h

/-- A carved object is not null. -/
theorem carved_ne_zero {s : State} {H : List Nat} (hinv : carve_inv s H) {p : Nat}
    (hp : p ∈ H) : p ≠ 0 := by
  obtain ⟨⟨hok, -, -⟩, -, -, -, hin, -⟩ := hinv
  obtain ⟨ch, hch, h1, -⟩ := hin p hp
  have := (hok ch hch).1
  omega

/-- The invariant of a used pool is kept by `free()` of a held object. -/
theorem pool_inv_free (c : Consts) (s : State) (held carved : List Nat) (bs : List (List Nat))
    (p : Nat) (hinv : pool_inv c s held carved bs) (hp : p ∈ held) :
    ∃ bs1, pool_inv c (aligned_pool_allocator_free c s p) (held.erase p) carved bs1 := by
  obtain ⟨hc, hl, hperm, hcnt, hnew⟩ := hinv
  have hnd : (bs.flatten ++ held).Nodup := (List.Perm.nodup_iff hperm).2 hc.2.2.2.2.2
  have hnotin : p ∉ bs.flatten := fun hx => (List.nodup_append.1 hnd).2.2 hx hp
  have hp0 : p ≠ 0 := carved_ne_zero hc (hperm.subset (List.mem_append_right _ hp))
  obtain ⟨f1, f2⟩ := free_lists_ok c s bs p hl hp0 hnotin
  refine ⟨_, hc, f1, ?_, ?_, hnew⟩
  · have h1 : ((bs.set s.apa.first_index (p :: bs.getD s.apa.first_index [])).flatten
        ++ held.erase p).Perm ((p :: bs.flatten) ++ held.erase p) :=
      List.Perm.append_right _ f2
    have h2 : ((p :: bs.flatten) ++ held.erase p).Perm (bs.flatten ++ (p :: held.erase p)) := by
      exact List.perm_middle.symm
    have h3 : (bs.flatten ++ (p :: held.erase p)).Perm (bs.flatten ++ held) :=
      List.Perm.append_left _ (List.perm_cons_erase hp).symm
    exact ((h1.trans h2).trans h3).trans hperm
  · show s.apa.allocated_objects - 1 = _
    rw [hcnt, f2.length_eq]
    simp only [List.length_cons]
    push_cast
    ring

/-- A call of `alloc()` on a pool whose free lists are not empty counts one more object in
use. -/
theorem pop_counter (c : Consts) (env : Env) (fuel : Nat) (y : Bool) (s : State)
    (bs : List (List Nat)) (hok : lists_ok c s bs) (hne : bs.flatten ≠ []) (p : Nat)
    (s1 : State) (h : alloc_loop c env (fuel + 1) y s = Outcome.returned p s1) :
    s1.apa.allocated_objects = s.apa.allocated_objects + 1 := by
  obtain ⟨h1, h2, h3, h4, h5⟩ := hok
  obtain ⟨A, ret, hA⟩ : ∃ A r, find_free c s.apa = (A, r) := ⟨_, _, rfl⟩
  have hzero := find_free_zero c s.apa
  have hfst := find_free_fst_firsts c s.apa
  rw [hA] at hzero hfst
  simp only [] at hzero hfst
  have hret : ret ≠ 0 := by
    intro h0
    apply hne
    have hz := hzero h0
    rw [List.flatten_eq_nil_iff]
    intro l hl
    obtain ⟨j, hj, rfl⟩ := List.getElem_of_mem hl
    have hb := h4 j (by omega)
    unfold bucket_holds at hb
    rw [hz j (by omega), List.getD_eq_getElem _ _ hj] at hb
    exact is_list_head_zero _ _ hb
  rw [alloc_loop_pop c env fuel y s A ret hA hret] at h
  simp only [Outcome.returned.injEq] at h
  rw [← h.2]
  show A.allocated_objects + 1 = _
  rcases hfst with e | ⟨i, e⟩ <;> rw [e]

/-- The invariant of a used pool is kept by a call of `alloc()` that returns, and the object
returned is not one the caller holds. -/
theorem pool_inv_alloc (c : Consts) (env : Env) (henv : env.in_address_space)
    (hfresh : env.fresh) (hst : env.single_task) (fuel : Nat) (y : Bool) (s : State)
    (held carved : List Nat) (bs : List (List Nat)) (hinv : pool_inv c s held carved bs)
    (p : Nat) (s1 : State) (h : alloc_loop c env fuel y s = Outcome.returned p s1) :
    p ∉ held ∧ p ≠ 0 ∧ ∃ carved1 bs1, pool_inv c s1 (p :: held) carved1 bs1 := by
  obtain ⟨hc, hl, hperm, hcnt, hnew⟩ := hinv
  have hnd : (bs.flatten ++ held).Nodup := (List.Perm.nodup_iff hperm).2 hc.2.2.2.2.2
  by_cases hne : bs.flatten = []
  · -- nothing in the free lists: the call carves
    obtain ⟨l1, l2, l3, l4, l5⟩ := hl
    have hnil : ∀ i, i < c.ALLOCATOR_PREFETCH_DISTANCE → bs.getD i [] = [] := by
      intro i hi
      have hi2 : i < bs.length := by omega
      rw [List.getD_eq_getElem _ _ hi2]
      exact (List.flatten_eq_nil_iff.1 hne) _ (List.getElem_mem hi2)
    have hempty : all_empty s.apa := by
      intro x hx
      obtain ⟨j, hj, rfl⟩ := List.getElem_of_mem hx
      have hb := l4 j (by omega)
      unfold bucket_holds at hb
      rw [hnil j (by omega), List.getD_eq_getElem _ _ hj] at hb
      exact hb
    obtain ⟨a1, a2, -, a4, a5, a6, a7⟩ :=
      carve_inv_step c env henv hfresh hst fuel y s carved hc hempty p s1 h
    have hheld : held.Perm carved := by simpa [hne] using hperm
    have hpn : p ∉ carved := by
      have := a1.2.2.2.2.2
      rw [List.nodup_append] at this
      exact fun hx => this.2.2 hx (List.mem_singleton_self p)
    refine ⟨fun hx => hpn (hheld.subset hx), a2, carved ++ [p], bs, a1,
      ⟨l1, by rw [a4]; exact l2, by rw [a5]; exact l3, ?_, l5⟩, ?_, ?_, ?_⟩
    · intro i hi
      have hb := l4 i hi
      unfold bucket_holds at hb ⊢
      rw [hnil i hi] at hb ⊢
      rw [a4]
      exact hb
    · rw [hne, List.nil_append]
      exact (List.Perm.cons p hheld).trans (List.perm_append_singleton p carved).symm
    · rw [a7, hcnt]
    · rw [a6, hnew]
      simp
  · -- the free lists hold an object: the call pops
    cases fuel with
    | zero => simp [alloc_loop] at h
    | succ n =>
      have hcount := pop_counter c env n y s bs hl hne p s1 h
      obtain ⟨p2, s2, j, t, e, -, g3, g4, g5, g6, g7, g8⟩ := pop_lists_ok c env n y s bs hl hne
      rw [h] at e
      simp only [Outcome.returned.injEq] at e
      obtain ⟨rfl, rfl⟩ := e
      have hpin : p ∈ bs.flatten := g4.symm.subset (List.mem_cons_self _ _)
      have htrace : s1.w.trace = s.w.trace := by rw [g5]
      have hc1 : carve_inv s1 carved := by
        unfold carve_inv pool_ok at hc ⊢
        rw [g6, g8, htrace]
        exact hc
      refine ⟨fun hx => (List.nodup_append.1 hnd).2.2 hpin hx,
        carved_ne_zero hc (hperm.subset (List.mem_append_left _ hpin)),
        carved, bs.set j t, hc1, g3, ?_, ?_, ?_⟩
      · have h1 : ((bs.set j t).flatten ++ (p :: held)).Perm
            ((p :: (bs.set j t).flatten) ++ held) := by
          exact List.perm_middle
        exact (h1.trans (List.Perm.append_right _ g4.symm)).trans hperm
      · rw [hcount, hcnt, g4.length_eq]
        simp only [List.length_cons]
        push_cast
        ring
      · rw [g7, hnew]

/-- The invariant of a used pool over a sequence of calls in which the caller frees only
objects it holds. -/
theorem pool_inv_run (c : Consts) (env : Env) (henv : env.in_address_space)
    (hfresh : env.fresh) (hst : env.single_task) (fuel : Nat) :
    ∀ (ops : List Op) (s : State) (held carved : List Nat) (bs : List (List Nat)),
      pool_inv c s held carved bs → frees_held c env fuel ops s held = true →
      never_twice c env fuel ops s held = true ∧
      ∀ ps s1, run_ops c env fuel ops s = (ps, some s1) →
        ∃ carved1 bs1, pool_inv c s1 (held_after c env fuel ops s held) carved1 bs1 := by
  intro ops
  induction ops with
  | nil =>
    intro s held carved bs hinv _
    refine ⟨rfl, ?_⟩
    intro ps s1 h
    simp only [run_ops, Prod.mk.injEq, Option.some.injEq] at h
    rw [← h.2]
    exact ⟨carved, bs, hinv⟩
  | cons op ops ih =>
    intro s held carved bs hinv hd
    cases op with
    | free p =>
      simp only [frees_held, Bool.and_eq_true, decide_eq_true_eq] at hd
      obtain ⟨bs1, hinv1⟩ := pool_inv_free c s held carved bs p hinv hd.1
      obtain ⟨i1, i2⟩ := ih _ _ _ _ hinv1 hd.2
      refine ⟨by simpa only [never_twice] using i1, ?_⟩
      intro ps s1 h
      simp only [run_ops] at h
      simpa only [held_after] using i2 ps s1 h
    | alloc =>
      cases ho : aligned_pool_allocator_alloc c env fuel s with
      | returned p s2 =>
        simp only [frees_held, ho] at hd
        obtain ⟨n1, -, carved1, bs1, hinv1⟩ :=
          pool_inv_alloc c env henv hfresh hst fuel false s held carved bs hinv p s2 ho
        obtain ⟨i1, i2⟩ := ih _ _ _ _ hinv1 hd
        refine ⟨by simp only [never_twice, ho, Bool.and_eq_true, decide_eq_true_eq]; exact ⟨n1, i1⟩,
          ?_⟩
        intro ps s1 h
        simp only [run_ops, ho, Prod.mk.injEq] at h
        simpa only [held_after, ho] using i2 _ s1 (Prod.ext rfl h.2)
      | aborted w1 =>
        refine ⟨by simp only [never_twice, ho], ?_⟩
        intro ps s1 h
        simp [run_ops, ho] at h
      | undefined w1 =>
        refine ⟨by simp only [never_twice, ho], ?_⟩
        intro ps s1 h
        simp [run_ops, ho] at h
      | out_of_fuel s2 =>
        refine ⟨by simp only [never_twice, ho], ?_⟩
        intro ps s1 h
        simp [run_ops, ho] at h

/-- A freshly initialised pool satisfies the invariant of a used pool, with nothing carved and
nothing held. -/
theorem pool_inv_init (c : Consts) (env : Env) (hD : 1 ≤ c.ALLOCATOR_PREFETCH_DISTANCE)
    (hptr : 1 ≤ c.sizeof_pointer) (align object_size chunk_count : Nat) (w : World) (s0 : State)
    (hinit : aligned_pool_allocator_init c env align object_size chunk_count w = Res.ok s0)
    (halign : 1 ≤ align) (hcfg : no_wrap s0.apa.aa s0.apa.object_size) :
    pool_inv c s0 [] [] (List.replicate c.ALLOCATOR_PREFETCH_DISTANCE []) := by
  obtain ⟨i1, i2, i3, i4, i5, i6⟩ := init_ok hinit
  have hinv0 : carve_inv s0 [] := by
    refine ⟨⟨?_, ?_, hcfg⟩, ?_, ?_, ?_, by simp, List.nodup_nil⟩
    · rw [i1]; intro ch hch; simp [aligned_allocator_init] at hch
    · rw [i1]; exact halign
    · rw [i2]; exact le_trans hptr (le_max_right _ _)
    · rw [i1]; exact List.Pairwise.nil
    · rw [i1]; intro ch hch; simp [aligned_allocator_init] at hch
  refine ⟨hinv0, lists_ok_of_empty c s0 hD i6 i5, ?_, ?_, ?_⟩
  · rw [flatten_replicate_nil]; exact List.Perm.refl _
  · rw [flatten_replicate_nil, i3]; rfl
  · rw [i4]; rfl

/-- The fresh-carve branch on a sound pool, with a node-local allocator whose buffers lie
inside the address space: either it returns the address `p` of the cursor of the tail chunk
(the old tail when it has room for the rounded object size, a chunk appended in this call
otherwise), which is not null, moves that cursor forward by the object size rounded up to the
alignment, which is at least `object_size` and fits in the buffer of the chunk, counts one
fresh carve, and sets the latch (with one warning) exactly when the byte counter is above the
maximum and the latch is clear; or a node-local allocation of a chunk append failed and the
process aborts. -/
theorem carve_sound (c : Consts) (env : Env) (henv : env.in_address_space) (s : State)
    (hok : pool_ok s) :
    (∃ (p : Nat) (pre : List memory_chunk) (last : memory_chunk) (w1 w2 : World),
      carve c env s = Outcome.returned p
        { apa := { object_size := s.apa.object_size
                   aa := { chain := pre ++ [{ chunk := last.chunk, chunk_size := last.chunk_size,
                                              offset := last.offset +
                                                exact_round s.apa.object_size s.apa.aa.align_on }]
                           align_on := s.apa.aa.align_on
                           chunk_size := s.apa.aa.chunk_size }
                   allocated_objects := s.apa.allocated_objects
                   newly_allocated_objects := s.apa.newly_allocated_objects + 1
                   first_index := s.apa.first_index
                   firsts := s.apa.firsts }
          w := w2 } ∧
      p = last.chunk + last.offset ∧ p ≠ 0 ∧
      s.apa.object_size ≤ exact_round s.apa.object_size s.apa.aa.align_on ∧
      last.offset + exact_round s.apa.object_size s.apa.aa.align_on ≤ last.chunk_size ∧
      last.chunk + last.chunk_size < WORD ∧
      ((s.apa.aa.chain = pre ++ [last] ∧ w1 = s.w) ∨
       (s.apa.aa.chain = pre ∧
        fresh_chunk env s.w w1 s.apa.aa (exact_round s.apa.object_size s.apa.aa.align_on) last ∧
        w1.chunkallocator_append = s.w.chunkallocator_append + 1)) ∧
      world_frame s.w w1 ∧
      ((¬ (w1.shared_pool_total_allocated > w1.FLAGS_shared_pool_max_size ∧
            w1.shared_pool_max_exceeded = false) ∧ w2 = w1) ∨
        (w1.shared_pool_total_allocated > w1.FLAGS_shared_pool_max_size ∧
         w1.shared_pool_max_exceeded = false ∧
         w2 = { w1 with
            shared_pool_max_exceeded := true
            trace := w1.trace ++ [Event.log_warning w1.shared_pool_total_allocated
                                    w1.FLAGS_shared_pool_max_size] }))) ∨
    (∃ w1, carve c env s = Outcome.aborted w1 ∧ trace_failed s.w w1) := by
  obtain ⟨hchain, ha, hnw⟩ := hok
  rcases carve_cases c env s with ⟨p, aa1, w1, w2, e, -, hc, hw⟩ | ⟨w1, -, t, hc⟩
  · left
    obtain ⟨pre, last, rfl, rfl, -, hl0, hfit, hlw, -, hframe, hcase⟩ :=
      aligned_allocator_alloc_sane ha hnw henv hchain e
    refine ⟨_, pre, last, w1, w2, hc, rfl, by omega,
      (exact_round_bounds _ _ ha).1, hfit, hlw, hcase, hframe, hw⟩
  · right
    exact ⟨w1, hc, t⟩

/-- With all buckets empty and carving permitted, a call of `alloc()` with any positive fuel
is the fresh-carve branch. -/
theorem alloc_eq_carve (c : Consts) (env : Env) (fuel : Nat) (y : Bool) (s : State)
    (hempty : all_empty s.apa) (hm : may_carve s.w = true) :
    alloc_loop c env (fuel + 1) y s = carve c env s := by
  simp only [alloc_loop, alloc_pass_all_empty c env y s hempty, if_pos hm]

/-- The objects of a bucket of a pool with sound free lists are among the objects of the free
lists. -/
theorem listed_of_lists_ok (c : Consts) (s : State) (bs : List (List Nat))
    (hok : lists_ok c s bs) (j : Nat) (l : List Nat) (h : bucket_holds s j l) :
    ∀ q ∈ l, q ∈ bs.flatten := by
  obtain ⟨h1, h2, -, h4, -⟩ := hok
  by_cases hj : j < c.ALLOCATOR_PREFETCH_DISTANCE
  · have := is_list_unique s.w.mem _ _ _ h (h4 j hj)
    rw [this]
    intro q hq
    exact mem_flatten_of_getD bs j q hq
  · have h0 : s.apa.firsts.getD j 0 = 0 := by
      rw [List.getD_eq_default]
      omega
    unfold bucket_holds at h
    rw [h0] at h
    rw [is_list_head_zero _ _ h]
    intro q hq
    simp at hq

/-! ## Properties of the allocator -/

set_option maxRecDepth 20000

/-- C2 (as amended): for every `K`, every bucket count `D >= 1` and every quota state: on a
freshly initialised pool (alignment at least 1, an object size that does not wrap 64-bit
arithmetic, pointers of at least one byte), with single-task access and a node-local allocator
that returns non-overlapping buffers inside the address space, after `K` `alloc()` calls that
returned (all of them are fresh carves: the fresh-carve counter is `K`), followed by `free()` of
those `K` objects in any order `qs`, the next `K` `alloc()` calls all return at their first pass,
served from the free lists: they return exactly the `K` objects of the first batch (each once),
nothing is carved (the ChunkSource is untouched and `newly_allocated_objects` stays `K`), and the
world is unchanged except for link fields: no chunk is appended, nothing is traced (no node-local
allocation, no `poll()`, no `yield()`). -/
theorem round_trip_recycles (c : Consts) (env : Env) (henv : env.in_address_space)
    (hfresh : env.fresh) (hst : env.single_task)
    (hD : 1 ≤ c.ALLOCATOR_PREFETCH_DISTANCE) (hptr : 1 ≤ c.sizeof_pointer)
    (align object_size chunk_count : Nat) (w : World) (s0 : State)
    (hinit : aligned_pool_allocator_init c env align object_size chunk_count w = Res.ok s0)
    (halign : 1 ≤ align) (hcfg : no_wrap s0.apa.aa s0.apa.object_size)
    (K fuel1 : Nat) (ps : List Nat) (s1 : State)
    (hfirst : run_ops c env fuel1 (List.replicate K Op.alloc) s0 = (ps, some s1))
    (qs : List Nat) (hperm : qs.Perm ps) (fuel2 : Nat) :
    s1.apa.newly_allocated_objects = K ∧
    ∃ (s2 : State) (rs : List Nat) (s3 : State),
      run_ops c env fuel1 (qs.map Op.free) s1 = ([], some s2) ∧
      run_ops c env (fuel2 + 1) (List.replicate K Op.alloc) s2 = (rs, some s3) ∧
      rs.Perm ps ∧
      s3.apa.newly_allocated_objects = K ∧
      s3.apa.aa = s2.apa.aa ∧
      s3.w = { s2.w with mem := s3.w.mem } := by
  obtain ⟨i1, i2, -, i4, i5, i6⟩ := init_ok hinit
  have hinv0 : carve_inv s0 [] := by
    refine ⟨⟨?_, ?_, hcfg⟩, ?_, ?_, ?_, by simp, List.nodup_nil⟩
    · rw [i1]; intro ch hch; simp [aligned_allocator_init] at hch
    · rw [i1]; exact halign
    · rw [i2]; exact le_trans hptr (le_max_right _ _)
    · rw [i1]; exact List.Pairwise.nil
    · rw [i1]; intro ch hch; simp [aligned_allocator_init] at hch
  have hempty0 : all_empty s0.apa := by
    unfold all_empty
    rw [i6]
    intro x hx
    exact (List.mem_replicate.1 hx).2
  obtain ⟨a1, a2, a3, a4, a5, a6, -⟩ :=
    fresh_batch c env henv hfresh hst fuel1 K s0 [] hinv0 hempty0 ps s1 hfirst
  have hok1 : lists_ok c s1 (List.replicate c.ALLOCATOR_PREFETCH_DISTANCE []) :=
    lists_ok_of_empty c s1 hD (a4.trans i6) (a5.trans i5)
  have hps_nodup : ps.Nodup := by
    have := a1.2.2.2.2.2
    simpa using this
  have hqs_nodup : (qs ++ (List.replicate c.ALLOCATOR_PREFETCH_DISTANCE
      ([] : List Nat)).flatten).Nodup := by
    rw [flatten_replicate_nil, List.append_nil]
    exact (List.Perm.nodup_iff hperm).2 hps_nodup
  have hqs0 : 0 ∉ qs := fun h => a2 (hperm.subset h)
  obtain ⟨s2, bs2, f1, f2, f3, f4, f5, -⟩ := frees_run c env fuel1 qs s1 _ hok1 hqs_nodup hqs0
  rw [flatten_replicate_nil, List.append_nil] at f3
  have hlen : bs2.flatten.length = K := by
    rw [f3.length_eq, hperm.length_eq, a3]
  obtain ⟨rs, s3, g1, g2, g3, g4, g5⟩ := pops_run c env fuel2 K s2 bs2 f2 hlen
  have hK : s1.apa.newly_allocated_objects = K := by rw [a6, i4]; simp
  exact ⟨hK, s2, rs, s3, f1, g1, (g2.trans f3).trans hperm, by rw [g4, f5, hK], g3, g5⟩

/-- Witness of C2 (as amended): three allocations on a fresh two-bucket pool, freed in the order third,
first, second, are handed out again by the next three allocations. -/
theorem round_trip_recycles_witness :
    aligned_pool_allocator_init consts2 env_pages 8 16 4 (world0 1000000 false)
      = Res.ok (state_init 1000000) ∧
    (run_ops consts2 env_pages 1 (List.replicate 3 Op.alloc) (state_init 1000000)).1
      = [16384, 16400, 16416] ∧
    ∃ (s1 s2 : State) (rs : List Nat) (s3 : State),
      run_ops consts2 env_pages 1 (List.replicate 3 Op.alloc) (state_init 1000000)
        = ([16384, 16400, 16416], some s1) ∧
      run_ops consts2 env_pages 1 ([16416, 16384, 16400].map Op.free) s1 = ([], some s2) ∧
      run_ops consts2 env_pages (0 + 1) (List.replicate 3 Op.alloc) s2 = (rs, some s3) ∧
      rs.Perm [16384, 16400, 16416] ∧
      s3.apa.newly_allocated_objects = (3 : Nat) :=
  ⟨rfl, by decide,
    have h := round_trip_recycles consts2 env_pages env_pages_in_address_space env_pages_fresh
      (fun _ => ⟨rfl, rfl⟩) (by decide) (by decide) 8 16 4 (world0 1000000 false)
      (state_init 1000000) rfl (by decide) (by decide) 3 1 [16384, 16400, 16416] _ rfl
      [16416, 16384, 16400] (by decide) 0
    ⟨_, h.2.choose, h.2.choose_spec.choose, h.2.choose_spec.choose_spec.choose, rfl,
      h.2.choose_spec.choose_spec.choose_spec.1,
      h.2.choose_spec.choose_spec.choose_spec.2.1,
      h.2.choose_spec.choose_spec.choose_spec.2.2.1,
      h.2.choose_spec.choose_spec.choose_spec.2.2.2.1⟩⟩

/-- Counterexample to C2 as stated: a one-bucket pool initialised with alignment 8 and an
object size of `2 ^ 64 - 4` bytes (the size rounded up to the alignment wraps to 0): three
`alloc()` calls are served by the fresh-carve path and all return 16384; after `free()` of
these three objects the next three `alloc()` calls return 16384 three times, but the third
finds the bucket empty and carves again: the fresh-carve counter ends at 4, not 3. -/
theorem round_trip_of_wrapped_size_carves_again :
    ∃ s, aligned_pool_allocator_init consts1 env_pages 8 (2 ^ 64 - 4) 1 (world0 1000000 false)
        = Res.ok s ∧
      (run_ops consts1 env_pages 1 (List.replicate 3 Op.alloc) s).1
        = [16384, 16384, 16384] ∧
      (run_ops consts1 env_pages 1 (List.replicate 3 Op.alloc) s).2.map
        (fun s1 => s1.apa.newly_allocated_objects) = some 3 ∧
      (run_ops consts1 env_pages 1
        (List.replicate 3 Op.alloc ++ [Op.free 16384, Op.free 16384, Op.free 16384]
          ++ List.replicate 3 Op.alloc) s).1
        = [16384, 16384, 16384, 16384, 16384, 16384] ∧
      (run_ops consts1 env_pages 1
        (List.replicate 3 Op.alloc ++ [Op.free 16384, Op.free 16384, Op.free 16384]
          ++ List.replicate 3 Op.alloc) s).2.map
        (fun s1 => s1.apa.newly_allocated_objects) = some 4 :=
  ⟨_, rfl, by decide, by decide, by decide, by decide⟩

/-- C3: for every ChunkSource initialised with an alignment `2 ^ k` (a positive power of two
of type `size_t`, so `k < 64`), every default chunk size, every sequence of requested sizes
and every behaviour of the node-local allocator (whatever the addresses of the chunk buffers
it returns), every pointer returned by `aligned_allocator_alloc` is a multiple of the
alignment. -/
theorem returned_pointers_aligned (c : Consts) (env : Env) (k : Nat) (hk : k < 64)
    (default_chunk_size : Nat) (sizes : List Nat) (w : World) :
    ∀ sv ∈ (alloc_seq c env sizes (aligned_allocator_init (2 ^ k) default_chunk_size) w).1,
      sv.ptr % 2 ^ k = 0 := by
  apply alloc_seq_aligned c env (2 ^ k) (pow_two_dvd_WORD hk) sizes _ w rfl
  intro ch hch
  simp [aligned_allocator_init] at hch

/-- Witness of C3: alignment 8, default chunk size 64, requests of 1, 16, 100 and 7 bytes
served from buffers at odd addresses. -/
theorem returned_pointers_aligned_witness :
    (3 < 64) ∧
    (alloc_seq consts2 env_odd [1, 16, 100, 7] (aligned_allocator_init (2 ^ 3) 64)
        (world0 1000 false)).1.map (fun sv => sv.ptr)
      = [8200, 8208, 16392, 24584] ∧
    ∀ sv ∈ (alloc_seq consts2 env_odd [1, 16, 100, 7] (aligned_allocator_init (2 ^ 3) 64)
        (world0 1000 false)).1, sv.ptr % 2 ^ 3 = 0 :=
  ⟨by decide, by decide,
    returned_pointers_aligned consts2 env_odd 3 (by decide) 64 [1, 16, 100, 7]
      (world0 1000 false)⟩

/-- C4 (as amended): for a ChunkSource with an alignment of at least 1, a node-local allocator
whose buffers lie inside the address space, and every sequence of `alloc` calls none of whose
sizes wraps 64-bit arithmetic (neither in the rounding to the alignment nor in the chunk size
`max(rounded, default) + alignment`), any two allocations served from the same chunk occupy
disjoint byte ranges: if `alloc(s1)` returned `p1` and a later `alloc(s2)` returned `p2` from
the same chunk, then `p1 + s1 <= p2`. -/
theorem same_chunk_regions_disjoint (c : Consts) (env : Env) (henv : env.in_address_space)
    (a default_chunk_size : Nat) (ha : 1 ≤ a) (sizes : List Nat)
    (hsizes : ∀ size ∈ sizes, no_wrap (aligned_allocator_init a default_chunk_size) size)
    (w : World) :
    (alloc_seq c env sizes (aligned_allocator_init a default_chunk_size) w).1.Pairwise
      no_overlap :=
  (alloc_seq_sound c env henv sizes (aligned_allocator_init a default_chunk_size) w ha hsizes
    (by intro ch hch; simp [aligned_allocator_init] at hch)).2.2.2.2.2.2

/-- Witness of C4 (as amended): requests of 1, 16, 100, 7 and 8 bytes with alignment 8 and
default chunk size 64. -/
theorem same_chunk_regions_disjoint_witness :
    (alloc_seq consts2 env_pages [1, 16, 100, 7, 8] (aligned_allocator_init 8 64)
        (world0 1000 false)).1.map (fun sv => (sv.ptr, sv.chunk_index))
      = [(12288, 0), (12296, 0), (20480, 1), (20584, 1), (28672, 2)] ∧
    (alloc_seq consts2 env_pages [1, 16, 100, 7, 8] (aligned_allocator_init 8 64)
        (world0 1000 false)).1.Pairwise no_overlap :=
  ⟨by decide,
    same_chunk_regions_disjoint consts2 env_pages env_pages_in_address_space 8 64 (by decide)
      [1, 16, 100, 7, 8] (by decide) (world0 1000 false)⟩

/-- Counterexample to C4 as stated: with alignment 8 and default chunk size 64 the request of
`2 ^ 64 - 4` bytes is rounded to 0 bytes, so it and the next request of 8 bytes are both served
at address 12288 from the same chunk, and `p1 + s1 <= p2` fails. -/
theorem rounding_wrap_regions_overlap :
    (alloc_seq consts2 env_pages [2 ^ 64 - 4, 8] (aligned_allocator_init 8 64)
        (world0 1000 false)).1
      = [{ size := 2 ^ 64 - 4, ptr := 12288, chunk_index := 0 },
         { size := 8, ptr := 12288, chunk_index := 0 }] ∧
    ¬ no_overlap { size := 2 ^ 64 - 4, ptr := 12288, chunk_index := 0 }
        { size := 8, ptr := 12288, chunk_index := 0 } := by
  refine ⟨by decide, ?_⟩
  unfold no_overlap
  decide

/-- C5 (as amended): for a ChunkSource with a power-of-two alignment, a node-local allocator
whose buffers lie inside the address space, and every sequence of `alloc` calls none of whose
sizes wraps 64-bit arithmetic, every chunk in the chain satisfies `offset <= chunk_size`, so
the unsigned subtraction `chunk_size - offset` of the capacity test does not underflow, and
each returned region `[p, p + rounded size)` lies inside the backing buffer of its chunk. -/
theorem cursor_within_chunk (c : Consts) (env : Env) (henv : env.in_address_space)
    (k default_chunk_size : Nat) (sizes : List Nat)
    (hsizes : ∀ size ∈ sizes, no_wrap (aligned_allocator_init (2 ^ k) default_chunk_size) size)
    (w : World) :
    (∀ ch ∈ (alloc_seq c env sizes (aligned_allocator_init (2 ^ k) default_chunk_size)
          w).2.1.chain,
      ch.offset ≤ ch.chunk_size ∧ remaining ch = ch.chunk_size - ch.offset) ∧
    (∀ sv ∈ (alloc_seq c env sizes (aligned_allocator_init (2 ^ k) default_chunk_size) w).1,
      ∃ ch : memory_chunk,
        (alloc_seq c env sizes (aligned_allocator_init (2 ^ k) default_chunk_size)
          w).2.1.chain[sv.chunk_index]? = some ch ∧
        ch.chunk ≤ sv.ptr ∧ sv.ptr + ALIGN_UP sv.size (2 ^ k) ≤ ch.chunk + ch.chunk_size) := by
  have ha : 1 ≤ (aligned_allocator_init (2 ^ k) default_chunk_size).align_on :=
    Nat.one_le_two_pow
  obtain ⟨h1, -, -, -, h5, -, -⟩ :=
    alloc_seq_sound c env henv sizes (aligned_allocator_init (2 ^ k) default_chunk_size) w ha
      hsizes (by intro ch hch; simp [aligned_allocator_init] at hch)
  refine ⟨?_, ?_⟩
  · intro ch hch
    obtain ⟨-, g2, g3⟩ := h1 ch hch
    exact ⟨g2, u64_sub_of_le g2 (by omega)⟩
  · intro sv hsv
    obtain ⟨ch, e, g1, g2⟩ := h5 sv hsv
    have hmem := List.getElem?_mem e
    obtain ⟨-, g3, -⟩ := h1 ch hmem
    have hnw := hsizes sv.size (alloc_seq_sizes c env sizes _ w sv hsv)
    have hrs : ALIGN_UP sv.size (2 ^ k) = exact_round sv.size (2 ^ k) := by
      apply ALIGN_UP_eq_exact
      have hnw : max (exact_round sv.size (2 ^ k)) default_chunk_size + 2 ^ k < WORD := hnw
      have hpos : 0 < 2 ^ k := Nat.two_pow_pos k
      have : exact_round sv.size (2 ^ k)
          ≤ max (exact_round sv.size (2 ^ k)) default_chunk_size := le_max_left _ _
      omega
    refine ⟨ch, e, g1, ?_⟩
    rw [hrs]
    have g2 : sv.ptr + exact_round sv.size (2 ^ k) ≤ ch.chunk + ch.offset := g2
    omega

/-- Witness of C5 (as amended): requests of 1, 16, 100, 7 and 8 bytes with alignment 8 and
default chunk size 64. -/
theorem cursor_within_chunk_witness :
    (∀ size ∈ [1, 16, 100, 7, 8], no_wrap (aligned_allocator_init (2 ^ 3) 64) size) ∧
    (alloc_seq consts2 env_pages [1, 16, 100, 7, 8] (aligned_allocator_init (2 ^ 3) 64)
        (world0 1000 false)).2.1.chain
      = [{ chunk := 12288, chunk_size := 72, offset := 24 },
         { chunk := 20480, chunk_size := 112, offset := 112 },
         { chunk := 28672, chunk_size := 72, offset := 8 }] ∧
    ∀ ch ∈ (alloc_seq consts2 env_pages [1, 16, 100, 7, 8] (aligned_allocator_init (2 ^ 3) 64)
        (world0 1000 false)).2.1.chain,
      ch.offset ≤ ch.chunk_size ∧ remaining ch = ch.chunk_size - ch.offset :=
  ⟨by decide, by decide,
    (cursor_within_chunk consts2 env_pages env_pages_in_address_space 3 64 [1, 16, 100, 7, 8]
      (by decide) (world0 1000 false)).1⟩

/-- Counterexample to C5 as stated: with alignment 8 and default chunk size 64 a request of
`2 ^ 64 - 8` bytes makes the chunk size `max(size, 64) + 8` wrap to 0; the call returns the
pointer 20480 and leaves a chunk of 0 bytes with cursor `2 ^ 64 - 8`, so `offset <= chunk_size`
fails and `chunk_size - offset` underflows. -/
theorem chunk_size_wrap_cursor_outside :
    (alloc_seq consts2 env_pages [2 ^ 64 - 8] (aligned_allocator_init (2 ^ 3) 64)
        (world0 1000 false)).1
      = [{ size := 2 ^ 64 - 8, ptr := 20480, chunk_index := 1 }] ∧
    (alloc_seq consts2 env_pages [2 ^ 64 - 8] (aligned_allocator_init (2 ^ 3) 64)
        (world0 1000 false)).2.1.chain
      = [{ chunk := 12288, chunk_size := 0, offset := 0 },
         { chunk := 20480, chunk_size := 0, offset := 2 ^ 64 - 8 }] ∧
    ¬ (∀ ch ∈ (alloc_seq consts2 env_pages [2 ^ 64 - 8] (aligned_allocator_init (2 ^ 3) 64)
        (world0 1000 false)).2.1.chain, ch.offset ≤ ch.chunk_size) := by
  refine ⟨by decide, by decide, by decide⟩

/-- C6 (as amended): when the scheduler reports a no-switch region, `alloc()` is decided by a
single pass of its loop for every pool state and every value of the byte counter and of the
maximum: one pass of fuel is enough and more fuel changes nothing; the call either returns or
aborts on a failed node-local allocation; it performs no `poll()` and no `yield()`.  When all
buckets are empty the call is the fresh-carve branch: if the ChunkSource returns `p`, the call
returns `p`, the fresh-carve counter is one larger and the rest of the pool structure is
unchanged.  When moreover the ChunkSource of the pool is sound (alignment at least 1, an
object size that does not wrap 64-bit arithmetic, chunks that are non-null buffers inside the
address space with their cursor inside the buffer) and the node-local allocator returns
buffers inside the address space, the object returned is freshly carved: it is the non-null
address of the cursor of the tail chunk (the old tail when it has room, a chunk appended in
this call otherwise), that cursor moves forward by the object size rounded up to the
alignment, which is at least `object_size` and stays inside the buffer of the chunk, and the
latch is set, with one warning, exactly when the byte counter is above the maximum and the
latch is clear. -/
theorem no_switch_single_pass (c : Consts) (env : Env) (s : State)
    (h : s.w.in_no_switch_region = true) :
    (∀ fuel, aligned_pool_allocator_alloc c env (fuel + 1) s
        = aligned_pool_allocator_alloc c env 1 s) ∧
    ((∃ p s1, aligned_pool_allocator_alloc c env 1 s = Outcome.returned p s1) ∨
      (∃ w1, aligned_pool_allocator_alloc c env 1 s = Outcome.aborted w1)) ∧
    (∃ evs, (aligned_pool_allocator_alloc c env 1 s).world.trace = s.w.trace ++ evs ∧
      ∀ e ∈ evs, e.is_backpressure = false) ∧
    (all_empty s.apa →
      ((∃ p aa1 w1 w2,
          aligned_allocator_alloc c env s.apa.aa s.apa.object_size s.w = Res.ok (p, aa1, w1) ∧
          aligned_pool_allocator_alloc c env 1 s = Outcome.returned p
            { apa := { object_size := s.apa.object_size
                       aa := aa1
                       allocated_objects := s.apa.allocated_objects
                       newly_allocated_objects := s.apa.newly_allocated_objects + 1
                       first_index := s.apa.first_index
                       firsts := s.apa.firsts }
              w := w2 }) ∨
       (∃ w1, aligned_allocator_alloc c env s.apa.aa s.apa.object_size s.w = Res.abort w1 ∧
          trace_failed s.w w1 ∧
          aligned_pool_allocator_alloc c env 1 s = Outcome.aborted w1))) ∧
    (all_empty s.apa → pool_ok s → env.in_address_space →
      ((∃ (p : Nat) (pre : List memory_chunk) (last : memory_chunk) (w1 w2 : World),
        aligned_pool_allocator_alloc c env 1 s = Outcome.returned p
          { apa := { object_size := s.apa.object_size
                     aa := { chain := pre ++
                               [{ chunk := last.chunk, chunk_size := last.chunk_size,
                                  offset := last.offset +
                                    exact_round s.apa.object_size s.apa.aa.align_on }]
                             align_on := s.apa.aa.align_on
                             chunk_size := s.apa.aa.chunk_size }
                     allocated_objects := s.apa.allocated_objects
                     newly_allocated_objects := s.apa.newly_allocated_objects + 1
                     first_index := s.apa.first_index
                     firsts := s.apa.firsts }
            w := w2 } ∧
        p = last.chunk + last.offset ∧ p ≠ 0 ∧
        s.apa.object_size ≤ exact_round s.apa.object_size s.apa.aa.align_on ∧
        last.offset + exact_round s.apa.object_size s.apa.aa.align_on ≤ last.chunk_size ∧
        last.chunk + last.chunk_size < WORD ∧
        ((s.apa.aa.chain = pre ++ [last] ∧ w1 = s.w) ∨
         (s.apa.aa.chain = pre ∧
          fresh_chunk env s.w w1 s.apa.aa
            (exact_round s.apa.object_size s.apa.aa.align_on) last ∧
          w1.chunkallocator_append = s.w.chunkallocator_append + 1)) ∧
        world_frame s.w w1 ∧
        ((¬ (w1.shared_pool_total_allocated > w1.FLAGS_shared_pool_max_size ∧
              w1.shared_pool_max_exceeded = false) ∧ w2 = w1) ∨
          (w1.shared_pool_total_allocated > w1.FLAGS_shared_pool_max_size ∧
           w1.shared_pool_max_exceeded = false ∧
           w2 = { w1 with
              shared_pool_max_exceeded := true
              trace := w1.trace ++ [Event.log_warning w1.shared_pool_total_allocated
                                      w1.FLAGS_shared_pool_max_size] }))) ∨
      (∃ w1, aligned_pool_allocator_alloc c env 1 s = Outcome.aborted w1 ∧
        trace_failed s.w w1))) := by
  have hnb := alloc_pass_not_blocked c env false s h
  refine ⟨fun fuel => alloc_loop_succ_of_pass c env fuel false s hnb, ?_, ?_, ?_, ?_⟩
  · unfold aligned_pool_allocator_alloc
    simp only [alloc_loop]
    rcases alloc_pass_cases c env false s with ⟨p, s2, e, -⟩ | ⟨apa1, e, -⟩ | ⟨apa1, e, -⟩
    · rw [e]; exact Or.inl ⟨p, s2, rfl⟩
    · rw [e]
      simp only []
      rcases carve_cases c env { s with apa := apa1 } with
        ⟨p, aa1, w1, w2, -, -, hc, -⟩ | ⟨w1, -, -, hc⟩
      · exact Or.inl ⟨_, _, hc⟩
      · exact Or.inr ⟨_, hc⟩
    · exact absurd e (hnb _)
  · unfold aligned_pool_allocator_alloc
    simp only [alloc_loop]
    rcases alloc_pass_cases c env false s with ⟨p, s2, e, -, ht⟩ | ⟨apa1, e, -⟩ | ⟨apa1, e, -⟩
    · rw [e]
      exact ⟨[], by simp [Outcome.world, ht], by simp⟩
    · rw [e]
      exact carve_no_backpressure c env { s with apa := apa1 }
    · exact absurd e (hnb _)
  · intro hempty
    have hp := alloc_pass_all_empty c env false s hempty
    have hm : may_carve s.w = true := (may_carve_iff s.w).2 (Or.inl h)
    unfold aligned_pool_allocator_alloc
    simp only [alloc_loop, hp, if_pos hm]
    rcases carve_cases c env s with ⟨p, aa1, w1, w2, e, -, hc, -⟩ | ⟨w1, e, t, hc⟩
    · exact Or.inl ⟨p, aa1, w1, w2, e, hc⟩
    · exact Or.inr ⟨w1, e, t, hc⟩
  · intro hempty hok henv
    have hm : may_carve s.w = true := (may_carve_iff s.w).2 (Or.inl h)
    unfold aligned_pool_allocator_alloc
    rw [alloc_eq_carve c env 0 false s hempty hm]
    exact carve_sound c env henv s hok

/-- Witness of C6 (as amended): a fresh pool in a no-switch region whose byte counter (0) is
already at the maximum (0): the call returns the non-null start 12288 of the chunk it appends
and counts one fresh carve. -/
theorem no_switch_single_pass_witness :
    (world0 0 true).in_no_switch_region = true ∧ all_empty (pool0 2) ∧
    pool_ok { apa := pool0 2, w := world0 0 true } ∧ env_pages.in_address_space ∧
    (∀ fuel, aligned_pool_allocator_alloc consts2 env_pages (fuel + 1)
        { apa := pool0 2, w := world0 0 true }
      = aligned_pool_allocator_alloc consts2 env_pages 1
          { apa := pool0 2, w := world0 0 true }) ∧
    ∃ s1, aligned_pool_allocator_alloc consts2 env_pages 1
        { apa := pool0 2, w := world0 0 true } = Outcome.returned 12288 s1 ∧
      s1.apa.newly_allocated_objects = 1 ∧
      s1.apa.aa.chain = [{ chunk := 12288, chunk_size := 72, offset := 16 }] ∧
      ∃ (p : Nat) (s2 : State),
        aligned_pool_allocator_alloc consts2 env_pages 1
          { apa := pool0 2, w := world0 0 true } = Outcome.returned p s2 ∧ p ≠ 0 := by
  have hok : pool_ok { apa := pool0 2, w := world0 0 true } :=
    ⟨by decide, by decide, by decide⟩
  have h := no_switch_single_pass consts2 env_pages { apa := pool0 2, w := world0 0 true } rfl
  obtain ⟨s1, hs1⟩ : ∃ s1, aligned_pool_allocator_alloc consts2 env_pages 1
      { apa := pool0 2, w := world0 0 true } = Outcome.returned 12288 s1 := ⟨_, rfl⟩
  have hn : s1.apa.newly_allocated_objects = 1 ∧
      s1.apa.aa.chain = [{ chunk := 12288, chunk_size := 72, offset := 16 }] := by
    have e : aligned_pool_allocator_alloc consts2 env_pages 1
        { apa := pool0 2, w := world0 0 true } = Outcome.returned 12288 _ := rfl
    rw [e] at hs1
    injection hs1 with _ hs
    rw [← hs]
    exact ⟨by decide, by decide⟩
  refine ⟨rfl, by decide, hok, env_pages_in_address_space, h.1, s1, hs1, hn.1, hn.2, ?_⟩
  rcases h.2.2.2.2 (by decide) hok env_pages_in_address_space with
    ⟨p, pre, last, w1, w2, e, -, hp0, -⟩ | ⟨w1, e, -⟩
  · exact ⟨p, _, e, hp0⟩
  · rw [hs1] at e
    exact Outcome.noConfusion e

/-- Counterexample to C6 as stated: a pool initialised with alignment 8 and an object size of
`2 ^ 64 - 4` bytes, in a no-switch region: the object size rounded up to the alignment wraps
to 0, the chunk appended by the first `alloc()` has 4 bytes, the call returns the address
16384 of its cursor and leaves the cursor where it is; the second `alloc()`, again with all
buckets empty, returns 16384 again: an object that was handed out before, not a fresh one. -/
theorem no_switch_carve_not_fresh :
    ∃ s, aligned_pool_allocator_init consts2 env_pages 8 (2 ^ 64 - 4) 1 (world0 0 true)
        = Res.ok s ∧
      all_empty s.apa ∧ s.w.in_no_switch_region = true ∧
      (run_ops consts2 env_pages 1 [Op.alloc, Op.alloc] s).1 = [16384, 16384] ∧
      (run_ops consts2 env_pages 1 [Op.alloc, Op.alloc] s).2.map
        (fun s1 => (s1.apa.newly_allocated_objects,
          s1.apa.aa.chain.map (fun ch => (ch.chunk, ch.chunk_size, ch.offset))))
        = some (2, [(16384, 4, 0)]) :=
  ⟨_, rfl, by decide, rfl, by decide, by decide⟩

/-- C7: for every configured byte maximum and every run of fresh allocations on a pool with no
frees, starting with the latch `shared_pool_max_exceeded` clear: after `n` allocations the latch
is set if and only if the accumulated-bytes counter was above the maximum on return from one of
the allocations made so far, and the number of over-budget warnings emitted is 1 if the latch
is set and 0 otherwise.  So the latch goes from false to true at the first allocation after
which the counter exceeds the maximum and stays set, and the warning is emitted exactly once,
in that allocation. -/
theorem latch_fires_once (c : Consts) (env : Env) (fuel : Nat) (hst : env.single_task)
    (hq : env.keeps_latch) (s : State) (hempty : all_empty s.apa)
    (hclear : s.w.shared_pool_max_exceeded = false) (n : Nat) (sn : State)
    (hrun : after_allocs c env fuel n s = some sn) :
    (sn.w.shared_pool_max_exceeded = true ↔
      ∃ k sk, 1 ≤ k ∧ k ≤ n ∧ after_allocs c env fuel k s = some sk ∧
        sk.w.shared_pool_total_allocated > s.w.FLAGS_shared_pool_max_size) ∧
    warnings sn.w.trace = warnings s.w.trace +
      (if sn.w.shared_pool_max_exceeded = true then 1 else 0) ∧
    sn.w.FLAGS_shared_pool_max_size = s.w.FLAGS_shared_pool_max_size := by
  obtain ⟨h1, h2, h3⟩ := latch_over_run c env fuel hst hq n s sn hempty hrun
  refine ⟨?_, ?_, h1⟩
  · rw [h2]
    constructor
    · rintro (h | h)
      · rw [hclear] at h; exact Bool.noConfusion h
      · exact h
    · exact fun h => Or.inr h
  · rw [h3]
    simp [hclear]

/-- Witness of C7: five fresh allocations in a no-switch region with a maximum of 100 bytes;
the first chunk append takes the counter to 136 and exactly one warning is emitted. -/
theorem latch_fires_once_witness :
    ∃ sn, after_allocs consts2 env_pages 1 5 { apa := pool0 2, w := world0 100 true } = some sn ∧
      warnings sn.w.trace = 1 ∧ sn.w.shared_pool_max_exceeded = true :=
  ⟨_, rfl,
    (latch_fires_once consts2 env_pages 1 (fun _ => ⟨rfl, rfl⟩) (fun _ => ⟨rfl, rfl, rfl, rfl⟩)
      { apa := pool0 2, w := world0 100 true } (by decide) rfl 5 _ rfl).2.1,
    rfl⟩

/-- C9 (as amended): in one pass with all `D` buckets empty, the fresh-carve branch is taken if
and only if the scheduler is in a no-switch region or the accumulated-bytes counter is strictly
below the maximum (so not when the counter equals the maximum outside a no-switch region).
When it is taken the call ends in this pass: it calls `aligned_allocator_alloc` for
`object_size` bytes on the pool's ChunkSource, and when that returns `p` the call returns `p`
with the fresh-carve counter one larger and the rotation index, the in-use counter and the
buckets unchanged (the pop of lines 237-246 is skipped); the only other outcome is the abort
of a failed chunk append.  When moreover the ChunkSource of the pool is sound (alignment at
least 1, an object size that does not wrap 64-bit arithmetic, chunks that are non-null buffers
inside the address space with their cursor inside the buffer) and the node-local allocator
returns buffers inside the address space, the carve is a bump allocation of at least
`object_size` bytes: the call returns the non-null address of the cursor of the tail chunk
(the old tail when it has room, a chunk appended in this call otherwise), that cursor moves
forward by the object size rounded up to the alignment, which stays inside the buffer of the
chunk, and the latch is set, with one warning, exactly when the byte counter is above the
maximum and the latch is clear. -/
theorem carve_iff_permitted (c : Consts) (env : Env) (y : Bool) (s : State)
    (hempty : all_empty s.apa) :
    ((∃ o, alloc_pass c env y s = Pass.carved o) ↔
      (s.w.in_no_switch_region = true ∨
        s.w.shared_pool_total_allocated < s.w.FLAGS_shared_pool_max_size)) ∧
    (s.w.in_no_switch_region = false →
      s.w.shared_pool_total_allocated = s.w.FLAGS_shared_pool_max_size →
      alloc_pass c env y s = Pass.blocked (backpressure env y s)) ∧
    (∀ o, alloc_pass c env y s = Pass.carved o →
      (∀ fuel, alloc_loop c env (fuel + 1) y s = o) ∧
      ((∃ p aa1 w1 w2,
          aligned_allocator_alloc c env s.apa.aa s.apa.object_size s.w = Res.ok (p, aa1, w1) ∧
          o = Outcome.returned p
            { apa := { object_size := s.apa.object_size
                       aa := aa1
                       allocated_objects := s.apa.allocated_objects
                       newly_allocated_objects := s.apa.newly_allocated_objects + 1
                       first_index := s.apa.first_index
                       firsts := s.apa.firsts }
              w := w2 }) ∨
       (∃ w1, aligned_allocator_alloc c env s.apa.aa s.apa.object_size s.w = Res.abort w1 ∧
          trace_failed s.w w1 ∧ o = Outcome.aborted w1))) ∧
    (pool_ok s → env.in_address_space → ∀ o, alloc_pass c env y s = Pass.carved o →
      ((∃ (p : Nat) (pre : List memory_chunk) (last : memory_chunk) (w1 w2 : World),
        o = Outcome.returned p
          { apa := { object_size := s.apa.object_size
                     aa := { chain := pre ++
                               [{ chunk := last.chunk, chunk_size := last.chunk_size,
                                  offset := last.offset +
                                    exact_round s.apa.object_size s.apa.aa.align_on }]
                             align_on := s.apa.aa.align_on
                             chunk_size := s.apa.aa.chunk_size }
                     allocated_objects := s.apa.allocated_objects
                     newly_allocated_objects := s.apa.newly_allocated_objects + 1
                     first_index := s.apa.first_index
                     firsts := s.apa.firsts }
            w := w2 } ∧
        p = last.chunk + last.offset ∧ p ≠ 0 ∧
        s.apa.object_size ≤ exact_round s.apa.object_size s.apa.aa.align_on ∧
        last.offset + exact_round s.apa.object_size s.apa.aa.align_on ≤ last.chunk_size ∧
        last.chunk + last.chunk_size < WORD ∧
        ((s.apa.aa.chain = pre ++ [last] ∧ w1 = s.w) ∨
         (s.apa.aa.chain = pre ∧
          fresh_chunk env s.w w1 s.apa.aa
            (exact_round s.apa.object_size s.apa.aa.align_on) last ∧
          w1.chunkallocator_append = s.w.chunkallocator_append + 1)) ∧
        world_frame s.w w1 ∧
        ((¬ (w1.shared_pool_total_allocated > w1.FLAGS_shared_pool_max_size ∧
              w1.shared_pool_max_exceeded = false) ∧ w2 = w1) ∨
          (w1.shared_pool_total_allocated > w1.FLAGS_shared_pool_max_size ∧
           w1.shared_pool_max_exceeded = false ∧
           w2 = { w1 with
              shared_pool_max_exceeded := true
              trace := w1.trace ++ [Event.log_warning w1.shared_pool_total_allocated
                                      w1.FLAGS_shared_pool_max_size] }))) ∨
      (∃ w1, o = Outcome.aborted w1 ∧ trace_failed s.w w1))) := by
  have hp := alloc_pass_all_empty c env y s hempty
  refine ⟨?_, ?_, ?_, ?_⟩
  · rw [hp, ← may_carve_iff]
    constructor
    · rintro ⟨o, ho⟩
      by_contra hm
      rw [if_neg hm] at ho
      exact Pass.noConfusion ho
    · intro hm
      exact ⟨_, by rw [if_pos hm]⟩
  · intro hns heq
    have hm : ¬ may_carve s.w = true := by
      rw [may_carve_iff]
      rintro (h | h)
      · rw [hns] at h
        exact Bool.noConfusion h
      · rw [heq] at h
        exact lt_irrefl _ h
    rw [hp, if_neg hm]
  · intro o ho
    have hm : may_carve s.w = true := by
      by_contra hm
      rw [hp, if_neg hm] at ho
      exact Pass.noConfusion ho
    rw [hp, if_pos hm] at ho
    have ho : carve c env s = o := by injection ho
    refine ⟨?_, ?_⟩
    · intro fuel
      simp only [alloc_loop, hp, if_pos hm]
      exact ho
    · rcases carve_cases c env s with ⟨p, aa1, w1, w2, e, -, hc, -⟩ | ⟨w1, e, t, hc⟩
      · exact Or.inl ⟨p, aa1, w1, w2, e, by rw [← ho, hc]⟩
      · exact Or.inr ⟨w1, e, t, by rw [← ho, hc]⟩
  · intro hok henv o ho
    have hm : may_carve s.w = true := by
      by_contra hm
      rw [hp, if_neg hm] at ho
      exact Pass.noConfusion ho
    rw [hp, if_pos hm] at ho
    have ho : carve c env s = o := by injection ho
    rw [← ho]
    exact carve_sound c env henv s hok

/-- Witness of C9 (as amended) on a fresh pool of two buckets with a budget of 1000 bytes: the
pass carves, and the call returns the non-null start 12288 of the chunk it appends. -/
theorem carve_iff_permitted_witness :
    all_empty (pool0 2) ∧
    pool_ok { apa := pool0 2, w := world0 1000 false } ∧ env_pages.in_address_space ∧
    ((∃ o, alloc_pass consts2 env_pages false { apa := pool0 2, w := world0 1000 false }
        = Pass.carved o) ↔
      ((world0 1000 false).in_no_switch_region = true ∨
        (world0 1000 false).shared_pool_total_allocated
          < (world0 1000 false).FLAGS_shared_pool_max_size)) ∧
    ∃ s1, alloc_pass consts2 env_pages false { apa := pool0 2, w := world0 1000 false }
        = Pass.carved (Outcome.returned 12288 s1) ∧
      s1.apa.aa.chain = [{ chunk := 12288, chunk_size := 72, offset := 16 }] ∧
      ∃ (p : Nat) (s2 : State), Outcome.returned 12288 s1 = Outcome.returned p s2 ∧ p ≠ 0 := by
  have hok : pool_ok { apa := pool0 2, w := world0 1000 false } :=
    ⟨by decide, by decide, by decide⟩
  have h := carve_iff_permitted consts2 env_pages false
    { apa := pool0 2, w := world0 1000 false } (by decide)
  obtain ⟨s1, hs1⟩ : ∃ s1, alloc_pass consts2 env_pages false
      { apa := pool0 2, w := world0 1000 false }
      = Pass.carved (Outcome.returned 12288 s1) := ⟨_, rfl⟩
  have hn : s1.apa.aa.chain = [{ chunk := 12288, chunk_size := 72, offset := 16 }] := by
    have e : alloc_pass consts2 env_pages false { apa := pool0 2, w := world0 1000 false }
        = Pass.carved (Outcome.returned 12288 _) := rfl
    rw [e] at hs1
    injection hs1 with hs
    injection hs with _ hs
    rw [← hs]
    decide
  refine ⟨by decide, hok, env_pages_in_address_space, h.1, s1, hs1, hn, ?_⟩
  rcases h.2.2.2 hok env_pages_in_address_space _ hs1 with
    ⟨p, pre, last, w1, w2, e, -, hp0, -⟩ | ⟨w1, e, -⟩
  · exact ⟨p, _, e, hp0⟩
  · exact Outcome.noConfusion e

/-- Counterexample to C9 as stated: a pool initialised with alignment 8 and an object size of
`2 ^ 64 - 4` bytes, below its budget: with all buckets empty the pass carves and the call
returns 16384, but the object size rounded up to the alignment wraps to 0 and the size of the
appended chunk wraps to 4: the cursor of the chunk is at 0 before and after the carve, so no
`object_size` bytes were bump-allocated (the chunk has 4 bytes). -/
theorem carve_of_wrapped_size_bumps_nothing :
    ∃ s, aligned_pool_allocator_init consts2 env_pages 8 (2 ^ 64 - 4) 1 (world0 1000000 false)
        = Res.ok s ∧
      all_empty s.apa ∧ s.apa.object_size = 2 ^ 64 - 4 ∧
      ∃ s1, alloc_pass consts2 env_pages false s = Pass.carved (Outcome.returned 16384 s1) ∧
        s1.apa.aa.chain = [{ chunk := 16384, chunk_size := 4, offset := 0 }] ∧
        s1.apa.newly_allocated_objects = 1 :=
  ⟨_, rfl, by decide, by decide, _, rfl, by decide, by decide⟩

/-- C10 (as amended): for every pool state with rotation index `i < D` and every pointer `p`
whose link field (its first `sizeof(void *)` bytes, at least one) lies in handed-out memory of
a chunk buffer of the pool and does not overlap the link field of any object in a free-list
bucket (so `p` is non-null and in no bucket), `free(p)` pushes `p` onto the head of bucket
`i` (the link of `p` becomes the old head, so bucket `i` holds `p` followed by its old
contents), sets the rotation index to
`(i + 1) mod D`, decrements the in-use counter by one, and leaves every other bucket (head and
contents), the fresh-carve counter, the ChunkSource, the quota state, the trace and every link
field that does not overlap the link field of `p` unchanged. -/
theorem free_pushes_on_current_bucket (c : Consts) (s : State) (p : Nat)
    (hlen : s.apa.firsts.length = c.ALLOCATOR_PREFETCH_DISTANCE)
    (hi : s.apa.first_index < c.ALLOCATOR_PREFETCH_DISTANCE)
    (hptr : 1 ≤ c.sizeof_pointer)
    (hown : link_in_pool c s p)
    (hfree : ∀ j l, bucket_holds s j l → ∀ q ∈ l, links_apart c p q) :
    p ≠ 0 ∧ (∀ j l, bucket_holds s j l → p ∉ l) ∧
    (aligned_pool_allocator_free c s p).w.mem p = s.apa.firsts.getD s.apa.first_index 0 ∧
    (∀ l, bucket_holds s s.apa.first_index l →
      bucket_holds (aligned_pool_allocator_free c s p) s.apa.first_index (p :: l)) ∧
    (∀ j, j ≠ s.apa.first_index →
      (aligned_pool_allocator_free c s p).apa.firsts.getD j 0 = s.apa.firsts.getD j 0 ∧
      ∀ l, bucket_holds s j l → bucket_holds (aligned_pool_allocator_free c s p) j l) ∧
    (aligned_pool_allocator_free c s p).apa.first_index
      = (s.apa.first_index + 1) % c.ALLOCATOR_PREFETCH_DISTANCE ∧
    (aligned_pool_allocator_free c s p).apa.allocated_objects = s.apa.allocated_objects - 1 ∧
    (aligned_pool_allocator_free c s p).apa.newly_allocated_objects
      = s.apa.newly_allocated_objects ∧
    (aligned_pool_allocator_free c s p).apa.aa = s.apa.aa ∧
    (aligned_pool_allocator_free c s p).apa.object_size = s.apa.object_size ∧
    (aligned_pool_allocator_free c s p).w.shared_pool_total_allocated
      = s.w.shared_pool_total_allocated ∧
    (aligned_pool_allocator_free c s p).w.shared_pool_max_exceeded
      = s.w.shared_pool_max_exceeded ∧
    (aligned_pool_allocator_free c s p).w.FLAGS_shared_pool_max_size
      = s.w.FLAGS_shared_pool_max_size ∧
    (aligned_pool_allocator_free c s p).w.trace = s.w.trace ∧
    (∀ q, links_apart c p q → (aligned_pool_allocator_free c s p).w.mem q = s.w.mem q) := by
  have hi2 : s.apa.first_index < s.apa.firsts.length := by rw [hlen]; exact hi
  have hp : p ≠ 0 := by
    obtain ⟨ch, -, h0, h1, -⟩ := hown
    omega
  have hnotin : ∀ j l, bucket_holds s j l → p ∉ l := by
    intro j l hl hx
    have := hfree j l hl p hx
    unfold links_apart at this
    omega
  refine ⟨hp, hnotin, ?_, ?_, ?_, rfl, rfl, rfl, rfl, rfl, rfl, rfl, rfl, rfl, ?_⟩
  · simp [aligned_pool_allocator_free]
  · intro l hl
    have hpl : p ∉ l := hnotin _ l hl
    unfold bucket_holds at hl ⊢
    simp only [aligned_pool_allocator_free, getD_set_self _ _ _ hi2, is_list,
      Function.update_same, true_and]
    exact ⟨hp, (is_list_update s.w.mem p _ l _ hpl).2 hl⟩
  · intro j hj
    refine ⟨?_, ?_⟩
    · simp only [aligned_pool_allocator_free, getD_set_other _ _ _ _ hj]
    · intro l hl
      have hpl : p ∉ l := hnotin _ l hl
      unfold bucket_holds at hl ⊢
      simp only [aligned_pool_allocator_free, getD_set_other _ _ _ _ hj]
      exact (is_list_update s.w.mem p _ l _ hpl).2 hl
  · intro q hq
    have hqp : q ≠ p := by
      unfold links_apart at hq
      omega
    simp [aligned_pool_allocator_free, Function.update_noteq hqp]

/-- Witness of C10 (as amended): on the two-bucket pool whose bucket 0 holds the object at
16384 and whose caller holds the object at 16400 (both carved from the chunk at 16384, whose
cursor is at 32), with rotation index 1, `free(16400)` puts the object in bucket 1 and leaves
bucket 0 as it is. -/
theorem free_pushes_on_current_bucket_witness :
    state_held_listed.apa.first_index = 1 ∧
    bucket_holds state_held_listed 0 [16384] ∧ bucket_holds state_held_listed 1 [] ∧
    link_in_pool consts2 state_held_listed 16400 ∧ links_apart consts2 16400 16384 ∧
    bucket_holds (aligned_pool_allocator_free consts2 state_held_listed 16400) 1 [16400] ∧
    bucket_holds (aligned_pool_allocator_free consts2 state_held_listed 16400) 0 [16384] := by
  have hok : lists_ok consts2 state_held_listed [[16384], []] :=
    ⟨by decide, by decide, by decide, by decide, by decide⟩
  have hfree : ∀ j l, bucket_holds state_held_listed j l →
      ∀ q ∈ l, links_apart consts2 16400 q := by
    intro j l hl q hq
    have hq2 := listed_of_lists_ok consts2 state_held_listed _ hok j l hl q hq
    simp only [List.flatten_cons, List.flatten_nil, List.append_nil, List.singleton_append,
      List.mem_singleton] at hq2
    rw [hq2]
    decide
  have h := free_pushes_on_current_bucket consts2 state_held_listed 16400 (by decide)
    (by decide) (by decide) (by decide) hfree
  exact ⟨by decide, by decide, by decide, by decide, by decide,
    h.2.2.2.1 [] (by decide), (h.2.2.2.2.1 0 (by decide)).2 [16384] (by decide)⟩

/-- Counterexample to C10 as stated: a one-bucket pool is initialised, `alloc()` returns the
object at 16384 and `free(16384)` puts it in bucket 0; the rotation index is 0.  A second
`free(16384)` makes the link field of 16384 point to 16384 itself, so bucket 0 is a cycle and
does not hold `16384` followed by its old contents. -/
theorem free_of_listed_object_not_push :
    aligned_pool_allocator_init consts1 env_pages 8 16 4 (world0 1000000 false)
      = Res.ok state_init1 ∧
    aligned_pool_allocator_alloc consts1 env_pages 1 state_init1
      = Outcome.returned 16384 state_one_alloc ∧
    state_one_free.apa.first_index < consts1.ALLOCATOR_PREFETCH_DISTANCE ∧
    bucket_holds state_one_free 0 [16384] ∧
    (aligned_pool_allocator_free consts1 state_one_free 16384).w.mem 16384 = 16384 ∧
    ¬ bucket_holds (aligned_pool_allocator_free consts1 state_one_free 16384) 0
        [16384, 16384] := by
  refine ⟨rfl, rfl, by decide, by decide, by decide, by decide⟩

/-- C11: for every pool state whose bucket at the current rotation index `i` is non-empty with
head `h`, `alloc()` returns `h` at its first pass, for every quota state, without polling,
yielding or carving: the state after the call is the state before it with the head of bucket
`i` replaced by the former link of `h`, the link field of `h` set to null, the rotation index
set to `(i + 1) mod D` and the in-use counter one larger; the other heads, the fresh-carve
counter, the ChunkSource, the quota state, the metrics and the trace are unchanged.  In terms of
contents: if bucket `i` held `h` followed by `t` (with `h` not again in `t`), it now holds `t`,
and every other bucket that does not contain `h` holds what it held. -/
theorem fast_path_pops_head (c : Consts) (env : Env) (fuel : Nat) (s : State) (h : Nat)
    (hhead : s.apa.firsts.getD s.apa.first_index 0 = h) (hne : h ≠ 0) :
    aligned_pool_allocator_alloc c env (fuel + 1) s =
      Outcome.returned h
        { apa := { s.apa with
            allocated_objects := s.apa.allocated_objects + 1
            firsts := s.apa.firsts.set s.apa.first_index (s.w.mem h)
            first_index := (s.apa.first_index + 1) % c.ALLOCATOR_PREFETCH_DISTANCE }
          w := { s.w with mem := Function.update s.w.mem h 0 } } ∧
    (s.apa.firsts.set s.apa.first_index (s.w.mem h)).getD s.apa.first_index 0 = s.w.mem h ∧
    (∀ j, j ≠ s.apa.first_index →
      (s.apa.firsts.set s.apa.first_index (s.w.mem h)).getD j 0 = s.apa.firsts.getD j 0) ∧
    (∀ t, bucket_holds s s.apa.first_index (h :: t) → h ∉ t →
      is_list (Function.update s.w.mem h 0) (s.w.mem h) t) ∧
    (∀ j l, j ≠ s.apa.first_index → bucket_holds s j l → h ∉ l →
      is_list (Function.update s.w.mem h 0) (s.apa.firsts.getD j 0) l) := by
  have hne2 : s.apa.firsts.getD s.apa.first_index 0 ≠ 0 := by rw [hhead]; exact hne
  have hlt : s.apa.first_index < s.apa.firsts.length := by
    by_contra hc
    rw [List.getD_eq_default _ _ (by omega)] at hne2
    exact hne2 rfl
  refine ⟨?_, getD_set_self _ _ _ hlt, fun j hj => getD_set_other _ _ _ _ hj, ?_, ?_⟩
  · unfold aligned_pool_allocator_alloc
    rw [alloc_loop_pop c env fuel false s s.apa _ (find_free_fast c s.apa hne2) hne2]
    simp only [pop_current, hhead]
  · intro t ht hnt
    unfold bucket_holds at ht
    simp only [is_list] at ht
    exact (is_list_update s.w.mem h 0 t _ hnt).2 ht.2.2
  · intro j l _ hl hnl
    exact (is_list_update s.w.mem h 0 l _ hnl).2 hl

/-- Witness of C11: the one-bucket pool whose bucket 0 holds the object at 16384. -/
theorem fast_path_pops_head_witness :
    state_one_free.apa.firsts.getD state_one_free.apa.first_index 0 = 16384 ∧
    aligned_pool_allocator_alloc consts1 env_pages (0 + 1) state_one_free =
      Outcome.returned 16384
        { apa := { state_one_free.apa with
            allocated_objects := state_one_free.apa.allocated_objects + 1
            firsts := state_one_free.apa.firsts.set state_one_free.apa.first_index
              (state_one_free.w.mem 16384)
            first_index := (state_one_free.apa.first_index + 1)
              % consts1.ALLOCATOR_PREFETCH_DISTANCE }
          w := { state_one_free.w with mem := Function.update state_one_free.w.mem 16384 0 } } :=
  ⟨by decide,
    (fast_path_pops_head consts1 env_pages 0 state_one_free 16384 (by decide) (by decide)).1⟩

/-- C12 (as amended): for every pool state, `freelist_size()` returns the arithmetic negation
of the in-use counter as a signed 64-bit value (`-allocated_objects` modulo `2 ^ 64`): exactly
`-allocated_objects` when the counter is above `-2 ^ 63`, and `-2 ^ 63` when the counter is
`-2 ^ 63`; it reads the counter and modifies nothing.  On a pool freshly initialised (alignment
at least 1, an object size that does not wrap 64-bit arithmetic, at least one bucket, pointers
of at least one byte), with single-task access and a node-local allocator that returns
non-overlapping buffers inside the address space, after every sequence of `alloc()` and
`free()` calls that returned and in which the caller freed only objects it held, this value is
the number of objects held in the free lists of the `D` buckets (as a signed 64-bit value:
exactly that number when it is below `2 ^ 63`). -/
theorem freelist_size_counts_free_objects (c : Consts) (env : Env)
    (henv : env.in_address_space) (hfresh : env.fresh) (hst : env.single_task)
    (hD : 1 ≤ c.ALLOCATOR_PREFETCH_DISTANCE) (hptr : 1 ≤ c.sizeof_pointer)
    (align object_size chunk_count : Nat) (w : World) (s0 : State)
    (hinit : aligned_pool_allocator_init c env align object_size chunk_count w = Res.ok s0)
    (halign : 1 ≤ align) (hcfg : no_wrap s0.apa.aa s0.apa.object_size)
    (fuel : Nat) (ops : List Op) (hdisc : frees_held c env fuel ops s0 [] = true)
    (ps : List Nat) (s1 : State) (hrun : run_ops c env fuel ops s0 = (ps, some s1)) :
    (∀ apa : aligned_pool_allocator,
      aligned_pool_allocator_freelist_size apa = toInt64 (-apa.allocated_objects)) ∧
    (∀ apa : aligned_pool_allocator,
      -(2 ^ 63) < apa.allocated_objects → apa.allocated_objects ≤ 2 ^ 63 →
      aligned_pool_allocator_freelist_size apa = -apa.allocated_objects) ∧
    (∀ apa : aligned_pool_allocator, apa.allocated_objects = -(2 ^ 63) →
      aligned_pool_allocator_freelist_size apa = -(2 ^ 63)) ∧
    ∃ bs : List (List Nat),
      bs.length = c.ALLOCATOR_PREFETCH_DISTANCE ∧
      (∀ i, i < c.ALLOCATOR_PREFETCH_DISTANCE → bucket_holds s1 i (bs.getD i [])) ∧
      aligned_pool_allocator_freelist_size s1.apa = toInt64 (bs.flatten.length : Int) ∧
      (bs.flatten.length < 2 ^ 63 →
        aligned_pool_allocator_freelist_size s1.apa = (bs.flatten.length : Int)) := by
  have h0 := pool_inv_init c env hD hptr align object_size chunk_count w s0 hinit halign hcfg
  obtain ⟨-, h2⟩ := pool_inv_run c env henv hfresh hst fuel ops s0 [] [] _ h0 hdisc
  obtain ⟨carved, bs, -, hl, -, hcnt, -⟩ := h2 ps s1 hrun
  have hdef : ∀ apa : aligned_pool_allocator,
      aligned_pool_allocator_freelist_size apa = toInt64 (-apa.allocated_objects) := by
    intro apa
    unfold aligned_pool_allocator_freelist_size
    rw [neg_one_mul]
  refine ⟨hdef, ?_, ?_, bs, hl.1, hl.2.2.2.1, ?_, ?_⟩
  · intro apa h1 h2
    rw [hdef]
    exact toInt64_of_range (by omega) (by omega)
  · intro apa h1
    rw [hdef, h1]
    norm_num [toInt64]
  · rw [hdef, hcnt, neg_neg]
  · intro hlt
    rw [hdef, hcnt, neg_neg]
    have hlt2 : ((bs.flatten.length : Nat) : Int) < 2 ^ 63 := by exact_mod_cast hlt
    exact toInt64_of_range (by omega) hlt2

/-- Witness of C12 (as amended): after two allocations and the free of both objects on the
two-bucket pool, `freelist_size()` is 2 and the buckets hold two objects. -/
theorem freelist_size_counts_free_objects_witness :
    frees_held consts2 env_pages 1
      [Op.alloc, Op.alloc, Op.free 16384, Op.free 16400] (state_init 1000000) [] = true ∧
    ∃ s1, run_ops consts2 env_pages 1
        [Op.alloc, Op.alloc, Op.free 16384, Op.free 16400] (state_init 1000000)
        = ([16384, 16400], some s1) ∧
      aligned_pool_allocator_freelist_size s1.apa = 2 ∧
      ∃ bs : List (List Nat), bs.length = 2 ∧
        (∀ i, i < 2 → bucket_holds s1 i (bs.getD i [])) ∧
        aligned_pool_allocator_freelist_size s1.apa = toInt64 (bs.flatten.length : Int) ∧
        (bs.flatten.length < 2 ^ 63 →
          aligned_pool_allocator_freelist_size s1.apa = (bs.flatten.length : Int)) := by
  obtain ⟨s1, hs1⟩ : ∃ s1, run_ops consts2 env_pages 1
      [Op.alloc, Op.alloc, Op.free 16384, Op.free 16400] (state_init 1000000)
      = ([16384, 16400], some s1) := ⟨_, rfl⟩
  have h := freelist_size_counts_free_objects consts2 env_pages env_pages_in_address_space
    env_pages_fresh env_pages_single_task (by decide) (by decide) 8 16 4
    (world0 1000000 false) (state_init 1000000) rfl (by decide) (by decide) 1
    [Op.alloc, Op.alloc, Op.free 16384, Op.free 16400] (by decide) [16384, 16400] s1 hs1
  have hv : aligned_pool_allocator_freelist_size s1.apa = 2 := by
    have e : run_ops consts2 env_pages 1
        [Op.alloc, Op.alloc, Op.free 16384, Op.free 16400] (state_init 1000000)
        = ([16384, 16400], some _) := rfl
    rw [e] at hs1
    injection hs1 with _ hs
    injection hs with hs
    rw [← hs]
    rfl
  exact ⟨by decide, s1, hs1, hv, h.2.2.2⟩

/-- Counterexample to C12 as stated: after `alloc()` and `free()` of the object it returned, on
the two-bucket pool, `freelist_size()` returns 1, and 1 is the number of objects held in the
free lists: bucket 0 holds the object at 16384 and bucket 1 holds nothing. -/
theorem freelist_size_is_free_list_length :
    aligned_pool_allocator_freelist_size state_two_free.apa = 1 ∧
    bucket_holds state_two_free 0 [16384] ∧ bucket_holds state_two_free 1 [] ∧
    ([[16384], []] : List (List Nat)).flatten.length = 1 :=
  ⟨by rfl, by decide, by decide, by decide⟩

/-- C13: in the scenario (alignment 8, object size 16, 4 objects per default chunk, so a default
chunk size of 64 and chunks of 72 bytes; pointers of at most 16 bytes; no frees; a node-local
allocator whose buffers lie inside the address space; single-task access), on a fresh pool,
for every `n`: after `n` calls of `alloc()` that returned, the chain has exactly `ceil(n / 4)`
chunks, that is, each appended chunk serves exactly 4 objects (whatever the padding of its
buffer) before another chunk is appended; all `n` calls were served by the fresh-carve path
(the fresh-carve counter is `n`, the in-use counter is still 0 and the buckets are still
empty).  For 5 allocations this is 2 chunks and a fresh-carve counter of 5. -/
theorem four_objects_per_chunk (c : Consts) (env : Env) (henv : env.in_address_space)
    (hst : env.single_task) (hptr : c.sizeof_pointer ≤ 16) (w : World) (s0 : State)
    (hinit : aligned_pool_allocator_init c env 8 16 4 w = Res.ok s0)
    (n fuel : Nat) (ps : List Nat) (s1 : State)
    (hrun : run_ops c env fuel (List.replicate n Op.alloc) s0 = (ps, some s1)) :
    s0.apa.aa.chain = [] ∧ s0.apa.aa.chunk_size = 64 ∧
    ps.length = n ∧
    s1.apa.aa.chain.length = (n + 3) / 4 ∧
    s1.apa.newly_allocated_objects = n ∧
    s1.apa.allocated_objects = 0 ∧
    all_empty s1.apa ∧
    (0 < n → ∃ (tail : memory_chunk) (pad : Nat), s1.apa.aa.chain.getLast? = some tail ∧
      tail.chunk_size = 72 ∧ pad < 8 ∧ tail.offset = pad + 16 * ((n - 1) % 4 + 1)) ∧
    (n = 5 → s1.apa.aa.chain.length = 2 ∧ s1.apa.newly_allocated_objects = 5) := by
  obtain ⟨i1, i2, i3, i4, i5, i6⟩ := init_ok hinit
  have hos : max 16 c.sizeof_pointer = 16 := max_eq_left hptr
  rw [hos] at i1 i2
  have hcs : u64 (16 * 4) = 64 := by norm_num [u64, WORD]
  rw [hcs] at i1
  have hinv0 : scenario_inv 0 s0.apa := by
    refine ⟨?_, i2, by rw [i1]; rfl, by rw [i1]; rfl, ?_, by rw [i1]; rfl, by rw [i4]; rfl, i3,
      fun h => absurd h (lt_irrefl 0)⟩
    · unfold all_empty
      rw [i6]
      intro x hx
      exact (List.mem_replicate.1 hx).2
    · rw [i1]; intro ch hch; simp [aligned_allocator_init] at hch
  obtain ⟨⟨j1, j2, j3, j4, j5, j6, j7, j8, j9⟩, hlen⟩ :=
    scenario_run c env henv hst fuel n 0 s0 ps s1 hinv0 hrun
  rw [Nat.zero_add] at j6 j7 j9
  refine ⟨by rw [i1]; rfl, by rw [i1]; rfl, hlen, j6, j7, j8, j1, j9, ?_⟩
  intro h5
  subst h5
  exact ⟨j6, by rw [j7]; rfl⟩

/-- Witness of C13: five allocations on the fresh two-bucket pool with the page allocator: the
fifth object is the first of a second chunk, and two chunks were appended. -/
theorem four_objects_per_chunk_witness :
    env_pages.in_address_space ∧ env_pages.single_task ∧ consts2.sizeof_pointer ≤ 16 ∧
    aligned_pool_allocator_init consts2 env_pages 8 16 4 (world0 1000000 false)
      = Res.ok (state_init 1000000) ∧
    ∃ s5, run_ops consts2 env_pages 1 (List.replicate 5 Op.alloc) (state_init 1000000)
        = ([16384, 16400, 16416, 16432, 24576], some s5) ∧
      s5.apa.aa.chain.length = (5 + 3) / 4 ∧
      s5.apa.newly_allocated_objects = 5 ∧
      s5.w.chunkallocator_append = 2 := by
  have h := four_objects_per_chunk consts2 env_pages env_pages_in_address_space
    env_pages_single_task (by decide) (world0 1000000 false) (state_init 1000000) rfl 5 1
    [16384, 16400, 16416, 16432, 24576] _ rfl
  exact ⟨env_pages_in_address_space, env_pages_single_task, by decide, rfl, _, rfl,
    h.2.2.2.1, h.2.2.2.2.1, by decide⟩

/-- C14: for every ChunkSource state and request size, a call `alloc(size)` that returns has
appended a new tail chunk if and only if the chain was empty or the remaining space
`chunk_size - offset` of the tail chunk was strictly less than the size rounded up to the
alignment.  The chunk that serves the request after an append is the new tail (the last chunk
of the chain, with no successor); it has `chunk_size = max(rounded size, default_chunk_size) +
alignment` (in 64-bit unsigned arithmetic), its initial offset is the padding that aligns its
buffer address, and the pointer returned is that aligned address.  Without an append the chain
keeps its length and the world is unchanged.  A call that does not return entered an append,
and no call dereferences a null pointer. -/
theorem append_iff_tail_short (c : Consts) (env : Env) (aa : aligned_allocator) (size : Nat)
    (w : World) :
    (∀ p aa2 w2, aligned_allocator_alloc c env aa size w = Res.ok (p, aa2, w2) →
      (aa.chain.length < aa2.chain.length ↔
        (aa.chain = [] ∨ ∃ tail, aa.chain.getLast? = some tail ∧
          remaining tail < ALIGN_UP size aa.align_on)) ∧
      (aa.chain.length < aa2.chain.length →
        ∃ new : memory_chunk,
          aa2.chain.getLast? = some (bumped new (ALIGN_UP size aa.align_on)) ∧
          new.chunk ≠ 0 ∧
          new.chunk_size = u64 (max (ALIGN_UP size aa.align_on) aa.chunk_size + aa.align_on) ∧
          new.offset = u64_sub (ALIGN_UP new.chunk aa.align_on) new.chunk ∧
          p = u64 (new.chunk + new.offset)) ∧
      (¬ aa.chain.length < aa2.chain.length →
        aa2.chain.length = aa.chain.length ∧ w2 = w)) ∧
    (∀ w1, aligned_allocator_alloc c env aa size w = Res.abort w1 →
      (aa.chain = [] ∨ ∃ tail, aa.chain.getLast? = some tail ∧
        remaining tail < ALIGN_UP size aa.align_on)) ∧
    (∀ w1, aligned_allocator_alloc c env aa size w ≠ Res.undefined w1) := by
  refine ⟨?_, ?_, ?_⟩
  · intro p aa2 w2 h
    obtain ⟨pre, last, rfl, rfl, -, hcase⟩ := aligned_allocator_alloc_ok h
    have hfresh : fresh_chunk env w w2 aa (ALIGN_UP size aa.align_on) last →
        ∃ new : memory_chunk,
          (pre ++ [bumped last (ALIGN_UP size aa.align_on)]).getLast?
            = some (bumped new (ALIGN_UP size aa.align_on)) ∧
          new.chunk ≠ 0 ∧
          new.chunk_size = u64 (max (ALIGN_UP size aa.align_on) aa.chunk_size + aa.align_on) ∧
          new.offset = u64_sub (ALIGN_UP new.chunk aa.align_on) new.chunk ∧
          u64 (last.chunk + last.offset) = u64 (new.chunk + new.offset) :=
      fun f => ⟨last, by simp, f.1, f.2.1, f.2.2.1, rfl⟩
    rcases hcase with ⟨e, hroom, rfl⟩ | ⟨e, rfl, f, -, -⟩ | ⟨e, x, rfl, -, -, f, -⟩ |
      ⟨e, ⟨old, ho, hs⟩, f, -⟩
    · have hlast : aa.chain.getLast? = some last := by rw [e]; simp
      have hlen : ¬ aa.chain.length < (pre ++ [bumped last (ALIGN_UP size aa.align_on)]).length := by
        rw [e]; simp
      have hcond : ¬ (aa.chain = [] ∨ ∃ tail, aa.chain.getLast? = some tail ∧
          remaining tail < ALIGN_UP size aa.align_on) := by
        rintro (h0 | ⟨tail, h1, h2⟩)
        · rw [h0] at hlast; simp at hlast
        · rw [hlast] at h1
          injection h1 with h1
          subst h1
          exact hroom h2
      refine ⟨⟨fun h => absurd h hlen, fun h => absurd h hcond⟩, fun h => absurd h hlen, ?_⟩
      intro _
      exact ⟨by rw [e]; simp, rfl⟩
    · have hlen : aa.chain.length
          < ([] ++ [bumped last (ALIGN_UP size aa.align_on)]).length := by rw [e]; simp
      exact ⟨⟨fun _ => Or.inl e, fun _ => hlen⟩, fun _ => hfresh f, fun h => absurd hlen h⟩
    · have hlen : aa.chain.length
          < ([x] ++ [bumped last (ALIGN_UP size aa.align_on)]).length := by rw [e]; simp
      exact ⟨⟨fun _ => Or.inl e, fun _ => hlen⟩, fun _ => hfresh f, fun h => absurd hlen h⟩
    · have hlen : aa.chain.length
          < (pre ++ [bumped last (ALIGN_UP size aa.align_on)]).length := by rw [e]; simp
      exact ⟨⟨fun _ => Or.inr ⟨old, ho, hs⟩, fun _ => hlen⟩, fun _ => hfresh f,
        fun h => absurd hlen h⟩
  · intro w1 h
    rcases aligned_allocator_alloc_abort h with ⟨e, -⟩ | ⟨e, -⟩ | ⟨e, -⟩
    · exact Or.inl e
    · exact Or.inl e
    · exact Or.inr e
  · intro w1 h
    rcases aligned_allocator_alloc_trace c env aa size w with ⟨p, aa1, w2, e, -⟩ | ⟨w2, e, -⟩
    · rw [e] at h; exact Res.noConfusion h
    · rw [e] at h; exact Res.noConfusion h

/-- Witness of C14: the first request of 16 bytes on an empty ChunkSource (alignment 8, default
chunk size 64) appends a chunk of 72 bytes and is served at its start. -/
theorem append_iff_tail_short_witness :
    ∃ p aa2 w2,
      aligned_allocator_alloc consts2 env_pages (aligned_allocator_init 8 64) 16
        (world0 1000 false) = Res.ok (p, aa2, w2) ∧
      p = 12288 ∧
      aa2.chain = [{ chunk := 12288, chunk_size := 72, offset := 16 }] ∧
      ((aligned_allocator_init 8 64).chain.length < aa2.chain.length ↔
        ((aligned_allocator_init 8 64).chain = [] ∨
          ∃ tail, (aligned_allocator_init 8 64).chain.getLast? = some tail ∧
            remaining tail < ALIGN_UP 16 (aligned_allocator_init 8 64).align_on)) :=
  ⟨_, _, _, rfl, by decide, by decide,
    ((append_iff_tail_short consts2 env_pages (aligned_allocator_init 8 64) 16
      (world0 1000 false)).1 _ _ _ rfl).1⟩

/-- C15: for every pool state whose bucket at the current rotation index is empty while at
least one bucket is non-empty, with `j` the lowest index of a non-empty bucket and `h` its
head: `alloc()` returns `h` at its first pass, regardless of the quota state, without carving,
polling or yielding: the state after the call is the state before it with the head of bucket
`j` replaced by the former link of `h`, the link field of `h` set to null, the rotation index
set to `(j + 1) mod D` and the in-use counter one larger. -/
theorem scan_path_pops_lowest (c : Consts) (env : Env) (fuel : Nat) (s : State) (j h : Nat)
    (hcur : s.apa.firsts.getD s.apa.first_index 0 = 0)
    (hj : j < c.ALLOCATOR_PREFETCH_DISTANCE)
    (hhead : s.apa.firsts.getD j 0 = h) (hne : h ≠ 0)
    (hz : ∀ k, k < j → s.apa.firsts.getD k 0 = 0) :
    aligned_pool_allocator_alloc c env (fuel + 1) s =
      Outcome.returned h
        { apa := { s.apa with
            allocated_objects := s.apa.allocated_objects + 1
            firsts := s.apa.firsts.set j (s.w.mem h)
            first_index := (j + 1) % c.ALLOCATOR_PREFETCH_DISTANCE }
          w := { s.w with mem := Function.update s.w.mem h 0 } } := by
  have hne2 : s.apa.firsts.getD j 0 ≠ 0 := by rw [hhead]; exact hne
  unfold aligned_pool_allocator_alloc
  rw [alloc_loop_pop c env fuel false s _ _ (find_free_scan c s.apa j hcur hj hne2 hz) hne2]
  simp only [pop_current, hhead]

/-- Witness of C15: the two-bucket pool whose bucket 0 holds the object at 16384 while the
rotation index is 1. -/
theorem scan_path_pops_lowest_witness :
    state_two_free.apa.first_index = 1 ∧
    state_two_free.apa.firsts = [16384, 0] ∧
    aligned_pool_allocator_alloc consts2 env_pages (0 + 1) state_two_free =
      Outcome.returned 16384
        { apa := { state_two_free.apa with
            allocated_objects := state_two_free.apa.allocated_objects + 1
            firsts := state_two_free.apa.firsts.set 0 (state_two_free.w.mem 16384)
            first_index := (0 + 1) % consts2.ALLOCATOR_PREFETCH_DISTANCE }
          w := { state_two_free.w with mem := Function.update state_two_free.w.mem 16384 0 } } :=
  ⟨by decide, by decide,
    scan_path_pops_lowest consts2 env_pages 0 state_two_free 0 16384 (by decide) (by decide)
      (by decide) (by decide) (by intro k hk; omega)⟩

/-- C16: whatever other tasks do to the pool and to the quota during `poll()` and `yield()`, for
every `alloc()` call that returns after `n >= 0` rounds of backpressure (`n` is the number of
passes of its loop that ended in a round): each round happens in a state in which all `D`
buckets are empty, the byte counter is at least the maximum and the scheduler is not in a
no-switch region; round `k` is one `poll()` followed by one `yield()` (exactly these two events
are added to the history, in this order), it counts a yield event only when `k = 0`, and the
next pass starts, with the inspection of the current bucket, in the state the round left; the
call returns from the pass after the last round, which performs no `poll()` and no `yield()`;
and when other tasks do not count yield events on behalf of this call, the yield-event counter
increases by `min(n, 1)` over the whole call. -/
theorem backpressure_rounds (c : Consts) (env : Env) (fuel : Nat) (s : State) (p : Nat)
    (s1 : State) (h : aligned_pool_allocator_alloc c env fuel s = Outcome.returned p s1) :
    (∀ k st, (blocked_passes c env fuel false s)[k]? = some st →
      (∀ j, j < c.ALLOCATOR_PREFETCH_DISTANCE → st.apa.firsts.getD j 0 = 0) ∧
      st.w.FLAGS_shared_pool_max_size ≤ st.w.shared_pool_total_allocated ∧
      st.w.in_no_switch_region = false ∧
      ((blocked_passes c env fuel false s)[k + 1]?).getD (after_rounds c env fuel false s)
        = backpressure env (decide (0 < k)) st ∧
      (backpressure env (decide (0 < k)) st).w.trace
        = st.w.trace ++ [Event.poll, Event.yield]) ∧
    alloc_loop c env 1 (decide (0 < (blocked_passes c env fuel false s).length))
      (after_rounds c env fuel false s) = Outcome.returned p s1 ∧
    (∃ evs, s1.w.trace = s.w.trace ++
        (List.replicate (blocked_passes c env fuel false s).length
          [Event.poll, Event.yield]).flatten ++ evs ∧
      ∀ e ∈ evs, e.is_backpressure = false) ∧
    (env.keeps_yield_count →
      s1.w.chunkallocator_yielded
        = s.w.chunkallocator_yielded + min (blocked_passes c env fuel false s).length 1) := by
  obtain ⟨hA, hB, hC, hD⟩ := rounds_spec c env fuel false s p s1 h
  simp only [Bool.false_or] at hA hB
  refine ⟨?_, hB, ?_, ?_⟩
  · intro k st hk
    obtain ⟨a1, a2, a3, a4⟩ := hA k st hk
    exact ⟨a1, a2, a3, a4, backpressure_trace env _ st⟩
  · have hnb : ∀ s2, alloc_pass c env
        (decide (0 < (blocked_passes c env fuel false s).length))
        (after_rounds c env fuel false s) ≠ Pass.blocked s2 := by
      intro s2 e
      simp only [alloc_loop, e] at hB
      exact Outcome.noConfusion hB
    rcases alloc_loop_one_pass c env _ _ hnb with ⟨p2, s2, e, evs, ht, hev⟩ | ⟨w1, e, -⟩
    · rw [hB] at e
      simp only [Outcome.returned.injEq] at e
      obtain ⟨-, rfl⟩ := e
      exact ⟨evs, by rw [ht, hC], fun e he => (hev e he).2⟩
    · rw [hB] at e
      exact Outcome.noConfusion e
  · intro hk
    rw [final_pass_yielded c env _ _ p s1 hB, hD hk]
    simp

/-- Witness of C16: on the two-bucket pool over its budget, `alloc()` goes through two rounds of
backpressure (another task frees the object at 16384 during the second `yield()`), then pops
that object; the history grows by `poll, yield, poll, yield` and the yield-event counter
by 1. -/
theorem backpressure_rounds_witness :
    (blocked_passes consts2 env_release 3 false state_over_budget).length = 2 ∧
    env_release.keeps_yield_count ∧
    ∃ s1, aligned_pool_allocator_alloc consts2 env_release 3 state_over_budget
        = Outcome.returned 16384 s1 ∧
      s1.w.chunkallocator_yielded
        = state_over_budget.w.chunkallocator_yielded
          + min (blocked_passes consts2 env_release 3 false state_over_budget).length 1 := by
  have hk : env_release.keeps_yield_count := by
    intro s
    refine ⟨rfl, ?_⟩
    show (if 1 ≤ s.w.trace.count Event.yield then aligned_pool_allocator_free consts2 s 16384
      else s).w.chunkallocator_yielded = s.w.chunkallocator_yielded
    split_ifs <;> rfl
  exact ⟨by decide, hk, _, rfl,
    (backpressure_rounds consts2 env_release 3 state_over_budget 16384 _ rfl).2.2.2 hk⟩

/-- C17: every chunk append that completes adds exactly one to the append-event counter
`chunkallocator_append` and adds to the shared accumulated-bytes counter
`shared_pool_total_allocated` the cache-line-rounded size of the chunk control block and then
`max(chunk_size, CACHE_LINE_SIZE)` for the buffer, each addition being an `int64_t` addition;
while the counter stays within the range of `int64_t` the increase is exactly that sum, which is
at least the `chunk_size` of the new chunk.  An append that aborts has also counted one append
event.  A `ChunkSource.alloc` call that returns without appending a chunk leaves the whole world
(both counters included) unchanged, a pool `alloc()` served from a free list and `free()` leave
both counters unchanged. -/
theorem append_moves_counters (c : Consts) (env : Env) :
    (∀ aa m w aa1 w1, _aligned_allocator_append_chunk c env aa m w = Res.ok (aa1, w1) →
      ∃ ch : memory_chunk,
        aa1 = { aa with chain := aa.chain ++ [ch] } ∧
        w1.chunkallocator_append = w.chunkallocator_append + 1 ∧
        w1.shared_pool_total_allocated =
          toInt64 (toInt64 (w.shared_pool_total_allocated
              + max c.sizeof_memory_chunk c.CACHE_LINE_SIZE)
            + max ch.chunk_size c.CACHE_LINE_SIZE) ∧
        (-(2 ^ 63) ≤ w.shared_pool_total_allocated →
          w.shared_pool_total_allocated + max c.sizeof_memory_chunk c.CACHE_LINE_SIZE
            + max ch.chunk_size c.CACHE_LINE_SIZE < 2 ^ 63 →
          w1.shared_pool_total_allocated =
            w.shared_pool_total_allocated + max c.sizeof_memory_chunk c.CACHE_LINE_SIZE
              + max ch.chunk_size c.CACHE_LINE_SIZE ∧
          w.shared_pool_total_allocated + ch.chunk_size ≤ w1.shared_pool_total_allocated)) ∧
    (∀ aa m w w1, _aligned_allocator_append_chunk c env aa m w = Res.abort w1 →
      w1.chunkallocator_append = w.chunkallocator_append + 1) ∧
    (∀ aa size w p aa2 w2, aligned_allocator_alloc c env aa size w = Res.ok (p, aa2, w2) →
      aa2.chain.length = aa.chain.length → w2 = w) ∧
    (∀ fuel s apa1 ret, find_free c s.apa = (apa1, ret) → ret ≠ 0 →
      ∃ p s1, aligned_pool_allocator_alloc c env (fuel + 1) s = Outcome.returned p s1 ∧
        s1.w.shared_pool_total_allocated = s.w.shared_pool_total_allocated ∧
        s1.w.chunkallocator_append = s.w.chunkallocator_append) ∧
    (∀ s p,
      (aligned_pool_allocator_free c s p).w.shared_pool_total_allocated
        = s.w.shared_pool_total_allocated ∧
      (aligned_pool_allocator_free c s p).w.chunkallocator_append
        = s.w.chunkallocator_append) := by
  refine ⟨?_, ?_, ?_, ?_, ?_⟩
  · intro aa m w aa1 w1 h
    obtain ⟨ch, e, -, -, -, r, -, -, -, -, -, -, -, happ, -, htot⟩ := append_chunk_ok h
    refine ⟨ch, e, happ, htot, ?_⟩
    intro hlo hhi
    have h1 : (0 : Int) ≤ ((max c.sizeof_memory_chunk c.CACHE_LINE_SIZE : Nat) : Int) :=
      Int.ofNat_nonneg _
    have h2 : (0 : Int) ≤ ((max ch.chunk_size c.CACHE_LINE_SIZE : Nat) : Int) :=
      Int.ofNat_nonneg _
    have h3 : ((ch.chunk_size : Nat) : Int) ≤ ((max ch.chunk_size c.CACHE_LINE_SIZE : Nat) : Int) :=
      Int.ofNat_le.mpr (le_max_left _ _)
    push_cast at h1 h2 h3 hhi
    have e1 : toInt64 (w.shared_pool_total_allocated
        + max (c.sizeof_memory_chunk : Int) (c.CACHE_LINE_SIZE : Int))
        = w.shared_pool_total_allocated
          + max (c.sizeof_memory_chunk : Int) (c.CACHE_LINE_SIZE : Int) :=
      toInt64_of_range (by omega) (by omega)
    have e2 : toInt64 (w.shared_pool_total_allocated
        + max (c.sizeof_memory_chunk : Int) (c.CACHE_LINE_SIZE : Int)
        + max (ch.chunk_size : Int) (c.CACHE_LINE_SIZE : Int))
        = w.shared_pool_total_allocated
          + max (c.sizeof_memory_chunk : Int) (c.CACHE_LINE_SIZE : Int)
          + max (ch.chunk_size : Int) (c.CACHE_LINE_SIZE : Int) :=
      toInt64_of_range (by omega) (by omega)
    push_cast at htot ⊢
    rw [htot, e1, e2]
    exact ⟨rfl, by omega⟩
  · intro aa m w w1 h
    exact append_chunk_abort_metric h
  · intro aa size w p aa2 w2 h hlen
    obtain ⟨pre, last, rfl, -, -, hcase⟩ := aligned_allocator_alloc_ok h
    rcases hcase with ⟨-, -, e⟩ | ⟨e, rfl, -⟩ | ⟨e, x, rfl, -⟩ | ⟨e, -⟩
    · exact e
    · rw [e] at hlen; simp at hlen
    · rw [e] at hlen; simp at hlen
    · rw [← e] at hlen; simp at hlen
  · intro fuel s apa1 ret hf hne
    exact ⟨_, _, alloc_loop_pop c env fuel false s apa1 ret hf hne, rfl, rfl⟩
  · intro s p
    exact ⟨rfl, rfl⟩

/-- Witness of C17: the append made by the first `alloc()` of the two-bucket pool (chunk control
block of 32 bytes, cache line of 64 bytes, chunk buffer of 72 bytes) moves the byte counter from
0 to `64 + 72` and the append counter from 0 to 1. -/
theorem append_moves_counters_witness :
    ∃ aa1 w1,
      _aligned_allocator_append_chunk consts2 env_pages (state_init 1000000).apa.aa 16
        (state_init 1000000).w = Res.ok (aa1, w1) ∧
      w1.chunkallocator_append = 1 ∧ w1.shared_pool_total_allocated = 136 ∧
      ∃ ch : memory_chunk,
        aa1 = { (state_init 1000000).apa.aa with
                chain := (state_init 1000000).apa.aa.chain ++ [ch] } ∧
        w1.chunkallocator_append = (state_init 1000000).w.chunkallocator_append + 1 :=
by
  have h := (append_moves_counters consts2 env_pages).1 (state_init 1000000).apa.aa 16
    (state_init 1000000).w
  refine ⟨_, _, rfl, by decide, by rfl, ?_⟩
  obtain ⟨ch, h1, h2, -⟩ := h _ _ rfl
  exact ⟨ch, h1, h2⟩

/-- C18 (as amended): on a pool freshly initialised (alignment at least 1, an object size that
does not wrap 64-bit arithmetic, at least one bucket, pointers of at least one byte), with
single-task access and a node-local allocator that returns non-overlapping buffers inside the
address space, for every sequence of `alloc()` and `free()` calls in which the caller frees only
objects it currently holds (no double free, no foreign pointer): no `alloc()` of the sequence
returns an object the caller holds at that moment; and when every call of the sequence has
returned, the `D` buckets hold lists of objects that are pairwise distinct (also across buckets),
non-null, and disjoint from the objects the caller holds, which are themselves pairwise distinct.
-/
theorem free_objects_distinct_from_held (c : Consts) (env : Env)
    (henv : env.in_address_space) (hfresh : env.fresh) (hst : env.single_task)
    (hD : 1 ≤ c.ALLOCATOR_PREFETCH_DISTANCE) (hptr : 1 ≤ c.sizeof_pointer)
    (align object_size chunk_count : Nat) (w : World) (s0 : State)
    (hinit : aligned_pool_allocator_init c env align object_size chunk_count w = Res.ok s0)
    (halign : 1 ≤ align) (hcfg : no_wrap s0.apa.aa s0.apa.object_size)
    (fuel : Nat) (ops : List Op) (hdisc : frees_held c env fuel ops s0 [] = true) :
    never_twice c env fuel ops s0 [] = true ∧
    ∀ ps s1, run_ops c env fuel ops s0 = (ps, some s1) →
      ∃ bs : List (List Nat),
        bs.length = c.ALLOCATOR_PREFETCH_DISTANCE ∧
        (∀ i, i < c.ALLOCATOR_PREFETCH_DISTANCE → bucket_holds s1 i (bs.getD i [])) ∧
        bs.flatten.Nodup ∧
        (∀ p ∈ bs.flatten, p ≠ 0 ∧ p ∉ held_after c env fuel ops s0 []) ∧
        (held_after c env fuel ops s0 []).Nodup := by
  have h0 := pool_inv_init c env hD hptr align object_size chunk_count w s0 hinit halign hcfg
  obtain ⟨h1, h2⟩ := pool_inv_run c env henv hfresh hst fuel ops s0 [] [] _ h0 hdisc
  refine ⟨h1, ?_⟩
  intro ps s1 hrun
  obtain ⟨carved, bs, hc, hl, hperm, -⟩ := h2 ps s1 hrun
  have hnd : (bs.flatten ++ held_after c env fuel ops s0 []).Nodup :=
    (List.Perm.nodup_iff hperm).2 hc.2.2.2.2.2
  obtain ⟨n1, n2, n3⟩ := List.nodup_append.1 hnd
  exact ⟨bs, hl.1, hl.2.2.2.1, n1,
    fun p hp => ⟨carved_ne_zero hc (hperm.subset (List.mem_append_left _ hp)),
      fun hx => n3 hp hx⟩, n2⟩

/-- Witness of C18 (as amended): on the two-bucket pool, two allocations (16384 and 16400), the free of the
first, a third allocation (which gets 16384 again) and the free of the second: the caller holds
16384 and the free lists hold 16400. -/
theorem free_objects_distinct_from_held_witness :
    frees_held consts2 env_pages 1
      [Op.alloc, Op.alloc, Op.free 16384, Op.alloc, Op.free 16400] (state_init 1000000) []
      = true ∧
    held_after consts2 env_pages 1
      [Op.alloc, Op.alloc, Op.free 16384, Op.alloc, Op.free 16400] (state_init 1000000) []
      = [16384] ∧
    never_twice consts2 env_pages 1
      [Op.alloc, Op.alloc, Op.free 16384, Op.alloc, Op.free 16400] (state_init 1000000) []
      = true ∧
    ∃ s1, run_ops consts2 env_pages 1
        [Op.alloc, Op.alloc, Op.free 16384, Op.alloc, Op.free 16400] (state_init 1000000)
        = ([16384, 16400, 16384], some s1) ∧
      ∃ bs : List (List Nat), bs.length = 2 ∧
        (∀ i, i < 2 → bucket_holds s1 i (bs.getD i [])) ∧ bs.flatten.Nodup ∧
        (∀ p ∈ bs.flatten, p ≠ 0 ∧ p ∉ held_after consts2 env_pages 1
          [Op.alloc, Op.alloc, Op.free 16384, Op.alloc, Op.free 16400]
          (state_init 1000000) []) := by
  have h := free_objects_distinct_from_held consts2 env_pages env_pages_in_address_space
    env_pages_fresh env_pages_single_task (by decide) (by decide) 8 16 4
    (world0 1000000 false) (state_init 1000000) rfl (by decide) (by decide) 1
    [Op.alloc, Op.alloc, Op.free 16384, Op.alloc, Op.free 16400] (by decide)
  obtain ⟨s1, hs1⟩ : ∃ s1, run_ops consts2 env_pages 1
      [Op.alloc, Op.alloc, Op.free 16384, Op.alloc, Op.free 16400] (state_init 1000000)
      = ([16384, 16400, 16384], some s1) := ⟨_, rfl⟩
  obtain ⟨bs, b1, b2, b3, b4, -⟩ := h.2 _ s1 hs1
  exact ⟨by decide, by decide, h.1, s1, hs1, bs, b1, b2, b3, b4⟩

/-- Counterexample to C18 as stated: on a pool initialised with alignment 8 and an object size
of `2 ^ 64 - 4` bytes (the size rounded up to the alignment wraps to 0), two `alloc()` calls
with no `free()` in between both return 16384: the caller frees nothing it does not hold, and
the second call hands out an object that is still in use. -/
theorem wrapped_size_object_handed_out_twice :
    ∃ s, aligned_pool_allocator_init consts2 env_pages 8 (2 ^ 64 - 4) 1 (world0 1000000 false)
        = Res.ok s ∧
      (run_ops consts2 env_pages 1 [Op.alloc, Op.alloc] s).1 = [16384, 16384] ∧
      frees_held consts2 env_pages 1 [Op.alloc, Op.alloc] s [] = true ∧
      never_twice consts2 env_pages 1 [Op.alloc, Op.alloc] s [] = false :=
  ⟨_, rfl, by decide, by decide, by decide⟩

/-- C19: with at least one bucket (`D >= 1`), and other tasks that leave the rotation index
within the bucket array while this task is suspended in `yield()`: the rotation index satisfies
`first_index < D`, and designates an entry of the bucket array, after `init`, after every
`free()` and after every `alloc()` that returns, whichever path it took (fast pop, scan and
pop, fresh carve, any number of backpressure rounds before one of these); it is also in range
at the bucket inspection of every retry and after the scan of each pass. -/
theorem first_index_in_range (c : Consts) (env : Env)
    (hD : 1 ≤ c.ALLOCATOR_PREFETCH_DISTANCE) (henv : env.keeps_index c) :
    (∀ align object_size chunk_count w s0,
      aligned_pool_allocator_init c env align object_size chunk_count w = Res.ok s0 →
      index_in_range c s0.apa) ∧
    (∀ s p, index_in_range c s.apa → index_in_range c (aligned_pool_allocator_free c s p).apa) ∧
    (∀ fuel s p s1, index_in_range c s.apa →
      aligned_pool_allocator_alloc c env fuel s = Outcome.returned p s1 →
      index_in_range c s1.apa) ∧
    (∀ fuel s s1, index_in_range c s.apa →
      aligned_pool_allocator_alloc c env fuel s = Outcome.out_of_fuel s1 →
      index_in_range c s1.apa) ∧
    (∀ y s, index_in_range c s.apa →
      index_in_range c (find_free c s.apa).1 ∧
      ∀ s1, alloc_pass c env y s = Pass.blocked s1 → index_in_range c s1.apa) := by
  refine ⟨?_, ?_, ?_, ?_, ?_⟩
  · intro align object_size chunk_count w s0 h
    obtain ⟨-, -, -, -, i5, i6⟩ := init_ok h
    refine ⟨by rw [i5]; omega, ?_, by rw [i6]; simp⟩
    rw [i5, i6]; simpa using hD
  · intro s p ⟨h1, h2, h3⟩
    have hlt : (s.apa.first_index + 1) % c.ALLOCATOR_PREFETCH_DISTANCE
        < c.ALLOCATOR_PREFETCH_DISTANCE := Nat.mod_lt _ (by omega)
    refine ⟨hlt, ?_, ?_⟩
    · simp only [aligned_pool_allocator_free, List.length_set]
      rw [h3]; exact hlt
    · simp only [aligned_pool_allocator_free, List.length_set]
      exact h3
  · intro fuel s p s1 hs h
    exact (alloc_loop_index c env hD henv fuel false s hs).1 p s1 h
  · intro fuel s s1 hs h
    exact (alloc_loop_index c env hD henv fuel false s hs).2 s1 h
  · intro y s hs
    have hf := find_free_index_in_range c s.apa hs
    refine ⟨hf, ?_⟩
    intro s1 h
    rw [alloc_pass_eq] at h
    split_ifs at h
    simp only [Pass.blocked.injEq] at h
    rw [← h]
    exact backpressure_index c env henv y _ hf

/-- Witness of C19: on the two-bucket pool the index is 0 after `init`, 0 after a first
`alloc()` (a fresh carve) and 1 after the `free()` of the object it returned. -/
theorem first_index_in_range_witness :
    1 ≤ consts2.ALLOCATOR_PREFETCH_DISTANCE ∧ env_pages.keeps_index consts2 ∧
    index_in_range consts2 (state_init 1000000).apa ∧
    index_in_range consts2 state_two_alloc.apa ∧
    index_in_range consts2 (aligned_pool_allocator_free consts2 state_two_alloc 16384).apa ∧
    (aligned_pool_allocator_free consts2 state_two_alloc 16384).apa.first_index = 1 :=
  ⟨by decide, keeps_index_of_single_task env_pages consts2 (fun _ => ⟨rfl, rfl⟩), by decide,
    by decide,
    (first_index_in_range consts2 env_pages (by decide)
      (keeps_index_of_single_task env_pages consts2 (fun _ => ⟨rfl, rfl⟩))).2.1
      state_two_alloc 16384 (by decide),
    by decide⟩

/-- C20 (as amended): for a ChunkSource with a power-of-two alignment, a node-local allocator
whose buffers lie inside the address space, and a request whose size does not wrap 64-bit
arithmetic, a single `alloc` call appends at most one chunk: the chain grows by at most one
chunk and the append counter by at most one (by exactly one chunk when the chain was empty, so
the second capacity test is false after the first test appended), also when the call aborts;
and every chunk freshly appended for the request has `max(rounded size, default) + alignment`
bytes, an alignment padding strictly below the alignment, and room for the request. -/
theorem at_most_one_append (c : Consts) (env : Env) (henv : env.in_address_space)
    (aa : aligned_allocator) (k : Nat) (hk : aa.align_on = 2 ^ k) (size : Nat)
    (hnw : no_wrap aa size) (w : World) :
    (∀ p aa2 w2, aligned_allocator_alloc c env aa size w = Res.ok (p, aa2, w2) →
      aa2.chain.length ≤ aa.chain.length + 1 ∧
      w2.chunkallocator_append ≤ w.chunkallocator_append + 1 ∧
      (aa.chain = [] →
        aa2.chain.length = 1 ∧ w2.chunkallocator_append = w.chunkallocator_append + 1)) ∧
    (∀ w1, aligned_allocator_alloc c env aa size w = Res.abort w1 →
      w1.chunkallocator_append = w.chunkallocator_append + 1) ∧
    (∀ ch w0 w3, fresh_chunk env w0 w3 aa (ALIGN_UP size aa.align_on) ch →
      ch.chunk_size = max (ALIGN_UP size aa.align_on) aa.chunk_size + aa.align_on ∧
      ch.offset < aa.align_on ∧
      ¬ remaining ch < ALIGN_UP size aa.align_on) := by
  have ha : 1 ≤ aa.align_on := by rw [hk]; exact Nat.one_le_two_pow
  have hrs : ALIGN_UP size aa.align_on = exact_round size aa.align_on := by
    apply ALIGN_UP_eq_exact
    have hnw2 := hnw
    unfold no_wrap at hnw2
    have : exact_round size aa.align_on ≤ max (exact_round size aa.align_on) aa.chunk_size :=
      le_max_left _ _
    omega
  have hfr : ∀ ch w0 w3, fresh_chunk env w0 w3 aa (ALIGN_UP size aa.align_on) ch →
      ch.chunk_size = max (ALIGN_UP size aa.align_on) aa.chunk_size + aa.align_on ∧
      ch.offset < aa.align_on ∧
      ¬ remaining ch < ALIGN_UP size aa.align_on := by
    intro ch w0 w3 f
    rw [hrs] at f ⊢
    obtain ⟨s1, s2, -, -, s5⟩ := fresh_chunk_sane ha hnw henv f
    exact ⟨s1, s2, s5⟩
  refine ⟨?_, ?_, hfr⟩
  · intro p aa2 w2 h
    obtain ⟨pre, last, rfl, -, -, hcase⟩ := aligned_allocator_alloc_ok h
    rcases hcase with ⟨e, -, rfl⟩ | ⟨e, rfl, -, -, hc⟩ | ⟨-, x, rfl, fx, hshort, -, -⟩ |
      ⟨e, -, -, hc⟩
    · refine ⟨by rw [e]; simp, by omega, ?_⟩
      intro h0
      rw [h0] at e
      simp at e
    · exact ⟨by rw [e]; simp, by omega, fun _ => ⟨by simp, hc⟩⟩
    · exact absurd hshort (hfr x _ _ fx).2.2
    · refine ⟨by rw [e]; simp, by omega, ?_⟩
      intro h0
      exact ⟨by rw [← e, h0]; simp, hc⟩
  · intro w1 h
    rcases aligned_allocator_alloc_abort h with ⟨-, e⟩ | ⟨-, -, x, w0, fx, hshort⟩ | ⟨-, e⟩
    · exact e
    · exact absurd hshort (hfr x _ _ fx).2.2
    · exact e

/-- Witness of C20 (as amended): the first request of 16 bytes on an empty ChunkSource with
alignment 8 and default chunk size 64 appends exactly one chunk. -/
theorem at_most_one_append_witness :
    (aligned_allocator_init 8 64).align_on = 2 ^ 3 ∧
    no_wrap (aligned_allocator_init 8 64) 16 ∧
    ∃ p aa2 w2,
      aligned_allocator_alloc consts2 env_pages (aligned_allocator_init 8 64) 16
        (world0 1000 false) = Res.ok (p, aa2, w2) ∧
      aa2.chain.length ≤ (aligned_allocator_init 8 64).chain.length + 1 ∧
      w2.chunkallocator_append ≤ (world0 1000 false).chunkallocator_append + 1 :=
  ⟨rfl, by decide, _, _, _, rfl,
    ((at_most_one_append consts2 env_pages env_pages_in_address_space
      (aligned_allocator_init 8 64) 3 rfl 16 (by decide) (world0 1000 false)).1 _ _ _ rfl).1,
    ((at_most_one_append consts2 env_pages env_pages_in_address_space
      (aligned_allocator_init 8 64) 3 rfl 16 (by decide) (world0 1000 false)).1 _ _ _ rfl).2.1⟩

/-- Counterexample to C20 as stated: with alignment 8 and default chunk size 64, the single call
`alloc(2 ^ 64 - 8)` on an empty ChunkSource appends two chunks: the size
`max(size, 64) + 8` of the first new chunk wraps to 0, so the second capacity test
`0 - 0 < 2 ^ 64 - 8` is true and a second chunk (again of 0 bytes) is appended. -/
theorem huge_request_appends_twice :
    (match aligned_allocator_alloc consts2 env_pages (aligned_allocator_init (2 ^ 3) 64)
        (2 ^ 64 - 8) (world0 1000 false) with
     | Res.ok (p, aa2, w2) => some (p, aa2.chain.length, w2.chunkallocator_append)
     | _ => none) = some (20480, 2, 2) := by
  decide

end impl
end Grappa
